import Mathlib

/-!
# ThreadMgr (src/threadDeath/threadDeath3.cc) and Tmycpy (src/template/simpleTemplate.cc)

A shallow embedding of the thread management class `ThreadMgr` and of the
properties of its registry (`m_ids`) and termination stack (`m_terminated`),
followed by the template function `Tmycpy`.

Conventions of the embedding.

* `pthread_t` and `void *` are natural numbers; the null pointer is `0`.
* `std::map<pthread_t, func_arguments *>` is a list of entries with strictly
  increasing keys (`IdMap`); `std::stack<pthread_t>` is a list whose head is
  `top()`.
* The pthreads library is not part of the repository.  Every reply of the
  library (`pthread_create`, `pthread_cancel`, `pthread_join`, the value a user
  function returns) is a parameter of the operation that asks for it, and every
  operation reports the library calls it makes, in program order (`Call`).
* Console output (`std::cout`) is not modelled.
* `threadsActive` converts `m_ids.size()` to `int`; the registry holds one entry
  per live thread, far below `2^31`, so the conversion is the identity.
-/

/-- The type `pthread_t` of thread identifiers. -/
abbrev pthread_t := Nat

/-- An untyped pointer `void *`; `0` is the null pointer. -/
abbrev Ptr := Nat

/-- The null pointer. -/
def NULL : Ptr := 0

/-- The three function-local statics of the constructor `ThreadMgr::ThreadMgr`,
which the members `m_mutex`, `m_cond_mutex` and `m_cond_var` point to. -/
inductive StaticObj where
  | mutex
  | cond_mutex
  | cond_var
deriving DecidableEq, Repr

/-- The structure `ThreadMgr::func_arguments` handed to the static wrapper. -/
structure func_arguments where
  /-- pointer to user defined function -/
  func : Ptr
  /-- function to call when we are canceled -/
  cancel_func : Ptr
  /-- user arguments for user function -/
  arg : Ptr
  /-- the this object -/
  thisObject : Ptr
deriving DecidableEq, Repr

/-- A call into the pthreads library, as issued by the code. -/
inductive Call where
  | mutex_lock (mx : StaticObj)
  | mutex_unlock (mx : StaticObj)
  | cond_wait (cv : StaticObj) (mx : StaticObj)
  | cond_broadcast (cv : StaticObj)
  | create (arguments : func_arguments)
  | cancel (tid : pthread_t)
  | join (tid : pthread_t)
  | cleanup_push
  | cleanup_pop
  | exit (value : Ptr)
deriving DecidableEq, Repr

/-! ## The registry: `std::map<pthread_t, func_arguments *>` -/

/-- Insertion of `std::map::insert` on the entry list: the entry is placed at its
position in key order, and an existing key keeps its old entry. -/
def insertEntry (k : pthread_t) (v : func_arguments) :
    List (pthread_t × func_arguments) → List (pthread_t × func_arguments)
  | [] => [(k, v)]
  | e :: rest =>
    if k < e.1 then (k, v) :: e :: rest
    else if k = e.1 then e :: rest
    else e :: insertEntry k v rest

/-- Removal of `std::map::erase(key)` on the entry list. -/
def eraseEntry (k : pthread_t) :
    List (pthread_t × func_arguments) → List (pthread_t × func_arguments)
  | [] => []
  | e :: rest => if e.1 = k then rest else e :: eraseEntry k rest

/-- Lookup of a key in the entry list. -/
def findEntry (k : pthread_t) :
    List (pthread_t × func_arguments) → Option func_arguments
  | [] => none
  | e :: rest => if e.1 = k then some e.2 else findEntry k rest

/-- The registry type `std::map<pthread_t, ThreadMgr::func_arguments *>`: entries
in strictly increasing key order, hence at most one entry per key. -/
structure IdMap where
  entries : List (pthread_t × func_arguments)
  ordered : entries.Pairwise (fun a b => a.1 < b.1)

namespace IdMap

instance : DecidableEq IdMap := fun a b =>
  decidable_of_iff (a.entries = b.entries)
    ⟨fun h => by cases a; cases b; cases h; rfl, fun h => by rw [h]⟩

/-- The empty map. -/
def empty : IdMap := ⟨[], List.Pairwise.nil⟩

/-- The call `insert(std::make_pair(k, v))`: does nothing when `k` is already a key. -/
def insert (m : IdMap) (k : pthread_t) (v : func_arguments) : IdMap :=
  ⟨insertEntry k v m.entries, by
    have hfst : ∀ (l : List (pthread_t × func_arguments)) (x : pthread_t × func_arguments),
        x ∈ insertEntry k v l → x.1 = k ∨ x ∈ l := by
      intro l
      induction l with
      | nil =>
        intro x hx
        simp only [insertEntry, List.mem_singleton] at hx
        left; rw [hx]
      | cons e rest ih =>
        intro x hx
        simp only [insertEntry] at hx
        split at hx
        · rcases List.mem_cons.1 hx with h | h
          · left; rw [h]
          · right; exact h
        · split at hx
          · right; exact hx
          · rcases List.mem_cons.1 hx with h | h
            · right; rw [h]; exact List.mem_cons_self _ _
            · rcases ih x h with h1 | h1
              · left; exact h1
              · right; exact List.mem_cons_of_mem _ h1
    have hord : ∀ l : List (pthread_t × func_arguments),
        l.Pairwise (fun a b => a.1 < b.1) →
        (insertEntry k v l).Pairwise (fun a b => a.1 < b.1) := by
      intro l
      induction l with
      | nil => intro _; simp [insertEntry]
      | cons e rest ih =>
        intro h
        have hr := List.pairwise_cons.1 h
        simp only [insertEntry]
        split
        · rename_i hk
          refine List.pairwise_cons.2 ⟨?_, h⟩
          intro x hx
          rcases List.mem_cons.1 hx with h1 | h1
          · rw [h1]; exact hk
          · exact lt_trans hk (hr.1 x h1)
        · split
          · exact h
          · rename_i h1 h2
            refine List.pairwise_cons.2 ⟨?_, ih hr.2⟩
            intro x hx
            rcases hfst rest x hx with h3 | h3
            · rw [h3]; exact lt_of_le_of_ne (Nat.le_of_not_lt h1) (fun h4 => h2 h4.symm)
            · exact hr.1 x h3
    exact hord m.entries m.ordered⟩

/-- The call `erase(k)`. -/
def erase (m : IdMap) (k : pthread_t) : IdMap :=
  ⟨eraseEntry k m.entries, by
    have hsub : ∀ (l : List (pthread_t × func_arguments)) (x : pthread_t × func_arguments),
        x ∈ eraseEntry k l → x ∈ l := by
      intro l
      induction l with
      | nil => intro x hx; simp [eraseEntry] at hx
      | cons e rest ih =>
        intro x hx
        simp only [eraseEntry] at hx
        split at hx
        · exact List.mem_cons_of_mem _ hx
        · rcases List.mem_cons.1 hx with h | h
          · rw [h]; exact List.mem_cons_self _ _
          · exact List.mem_cons_of_mem _ (ih x h)
    have hord : ∀ l : List (pthread_t × func_arguments),
        l.Pairwise (fun a b => a.1 < b.1) →
        (eraseEntry k l).Pairwise (fun a b => a.1 < b.1) := by
      intro l
      induction l with
      | nil => intro _; simp [eraseEntry]
      | cons e rest ih =>
        intro h
        have hr := List.pairwise_cons.1 h
        simp only [eraseEntry]
        split
        · exact hr.2
        · refine List.pairwise_cons.2 ⟨?_, ih hr.2⟩
          intro x hx
          exact hr.1 x (hsub rest x hx)
    exact hord m.entries m.ordered⟩

/-- The call `size()`. -/
def size (m : IdMap) : Nat := m.entries.length

/-- The record stored under `k`, if any. -/
def find (m : IdMap) (k : pthread_t) : Option func_arguments :=
  findEntry k m.entries

/-- The keys, in increasing order. -/
def keys (m : IdMap) : List pthread_t := m.entries.map Prod.fst

end IdMap

/-! ## The class `ThreadMgr` -/

/-- The data members of `ThreadMgr`. -/
structure ThreadMgr where
  /-- mutex for data access (m_ids, m_terminated) -/
  m_mutex : StaticObj
  /-- mutex for condition variable -/
  m_cond_mutex : StaticObj
  /-- condition variable -/
  m_cond_var : StaticObj
  /-- map of all thread ids and function attributes -/
  m_ids : IdMap
  /-- stack of terminated thread ids, `top()` first -/
  m_terminated : List pthread_t
deriving DecidableEq

/-- What a member function leaves behind: its return value, the object after
the call, and the library calls it made, in program order. -/
structure Outcome (α : Type) where
  ret : α
  mgr : ThreadMgr
  calls : List Call

/-- What `removeTerminated` leaves behind; `slot` is the content of
`*return_val` after the call. -/
structure Reaped where
  ret : Int
  mgr : ThreadMgr
  slot : Ptr
  calls : List Call

/-- How a call of `condWait` ends: still blocked in `pthread_cond_wait`, or
returned with the status of `removeTerminated`. -/
inductive Wait where
  | suspended (mgr : ThreadMgr) (calls : List Call)
  | returned (ret : Int) (mgr : ThreadMgr) (slot : Ptr) (calls : List Call)
deriving DecidableEq

namespace ThreadMgr

/-- The constructor: the three pointers are set to the statics, the containers
start empty. -/
def new : ThreadMgr :=
  { m_mutex := StaticObj.mutex
    m_cond_mutex := StaticObj.cond_mutex
    m_cond_var := StaticObj.cond_var
    m_ids := IdMap.empty
    m_terminated := [] }

/-- `int cancel_thread(pthread_t *tid)`; `tid` is the id pointed to and
`pthread_cancel` the status the library gives for a cancellation request. -/
def cancel_thread (m : ThreadMgr) (tid : pthread_t)
    (pthread_cancel : pthread_t → Int) : Outcome Int :=
  let ret := pthread_cancel tid
  { ret := ret
    mgr := { m with m_ids := m.m_ids.erase tid }
    calls := [Call.mutex_lock m.m_mutex, Call.cancel tid, Call.mutex_unlock m.m_mutex] }

/-- `int threadsActive()`. -/
def threadsActive (m : ThreadMgr) : Outcome Int :=
  { ret := (m.m_ids.size : Int)
    mgr := m
    calls := [Call.mutex_lock m.m_mutex, Call.mutex_unlock m.m_mutex] }

/-- `bool no_threads_terminated()`. -/
def no_threads_terminated (m : ThreadMgr) : Outcome Bool :=
  { ret := m.m_terminated.isEmpty
    mgr := m
    calls := [Call.mutex_lock m.m_mutex, Call.mutex_unlock m.m_mutex] }

/-- `void addID(pthread_t id, func_arguments *arg)`. -/
def addID (m : ThreadMgr) (id : pthread_t) (arg : func_arguments) : Outcome Unit :=
  { ret := ()
    mgr := { m with m_ids := m.m_ids.insert id arg }
    calls := [Call.mutex_lock m.m_mutex, Call.mutex_unlock m.m_mutex] }

/-- `pthread_t createThread(void *(*thread_func)(void *), void *arg)`; `this` is
the address of the object and `pthread_create` the reply of the library: the
status and the id stored in `tid`. -/
def createThread (m : ThreadMgr) (this : Ptr) (thread_func : Ptr) (arg : Ptr)
    (pthread_create : func_arguments → Int × pthread_t) : Outcome pthread_t :=
  let arguments : func_arguments :=
    { func := thread_func, cancel_func := NULL, arg := arg, thisObject := this }
  let ret_val := (pthread_create arguments).1
  let tid := (pthread_create arguments).2
  if ret_val = 0 then
    let r := m.addID tid arguments
    { ret := tid, mgr := r.mgr, calls := Call.create arguments :: r.calls }
  else
    { ret := 0, mgr := m, calls := [Call.create arguments] }

/-- `static void *addTerminated(ThreadMgr *arg)`, run by the thread
`pthread_self`. -/
def addTerminated (arg : ThreadMgr) (pthread_self : pthread_t) : Outcome Ptr :=
  { ret := NULL
    mgr := { arg with m_terminated := pthread_self :: arg.m_terminated }
    calls := [Call.mutex_lock arg.m_mutex, Call.cond_broadcast arg.m_cond_var,
              Call.mutex_unlock arg.m_mutex] }

/-- `static void *func(void *arg)` for a user function that returns normally:
`thisObject` is the object `arg->thisObject` points to, `pthread_self` the id of
the running thread and `user f a` the value the user function at `f` returns on
`a`.  The return value of the outcome is the value handed to `pthread_exit`.
The record `cancel_arg` is allocated, given to the cleanup handler and freed by
`pthread_cleanup_pop(1)`; it never reaches the object. -/
def func (arg : func_arguments) (thisObject : ThreadMgr) (pthread_self : pthread_t)
    (user : Ptr → Ptr → Ptr) : Outcome Ptr :=
  let tmpArg := user arg.func arg.arg
  let r := addTerminated thisObject pthread_self
  { ret := tmpArg
    mgr := r.mgr
    calls := [Call.cleanup_push, Call.cleanup_pop] ++ r.calls ++ [Call.exit tmpArg] }

/-- `int removeTerminated(void **return_val)`; `return_val` is the content of
the slot before the call and `pthread_join t s` the reply of the library to
`pthread_join(t, return_val)` when the slot holds `s`: the status and the
content of the slot afterwards. -/
def removeTerminated (m : ThreadMgr) (return_val : Ptr)
    (pthread_join : pthread_t → Ptr → Int × Ptr) : Reaped :=
  match m.m_terminated with
  | [] =>
    { ret := 0, mgr := m, slot := return_val
      calls := [Call.mutex_lock m.m_mutex, Call.mutex_unlock m.m_mutex] }
  | tempID :: rest =>
    let ret := (pthread_join tempID return_val).1
    let slot := (pthread_join tempID return_val).2
    if ret = 0 then
      { ret := ret
        mgr := { m with m_ids := m.m_ids.erase tempID, m_terminated := rest }
        slot := slot
        calls := [Call.mutex_lock m.m_mutex, Call.join tempID, Call.mutex_unlock m.m_mutex] }
    else
      { ret := ret, mgr := m, slot := slot
        calls := [Call.mutex_lock m.m_mutex, Call.join tempID, Call.mutex_unlock m.m_mutex] }

/-- The workers of `ws` run `addTerminated`, in the order of the list. -/
def complete (m : ThreadMgr) (ws : List pthread_t) : ThreadMgr :=
  ws.foldl (fun s w => (addTerminated s w).mgr) m

/-- The loop `while(no_threads_terminated()) pthread_cond_wait(...)` of
`condWait` followed by `removeTerminated` and the unlock.  Each element of
`wakeups` is one return of `pthread_cond_wait`: the workers that ran
`addTerminated` while the caller was blocked (none for a spurious wakeup).
When the list is used up nobody wakes the caller again. -/
def condWaitLoop (thread_return_val : Ptr) (pthread_join : pthread_t → Ptr → Int × Ptr) :
    List (List pthread_t) → ThreadMgr → List Call → Wait
  | [], m, log =>
    if m.no_threads_terminated.ret then
      Wait.suspended m
        (log ++ m.no_threads_terminated.calls ++ [Call.cond_wait m.m_cond_var m.m_cond_mutex])
    else
      let r := m.removeTerminated thread_return_val pthread_join
      Wait.returned r.ret r.mgr r.slot
        (log ++ m.no_threads_terminated.calls ++ r.calls ++ [Call.mutex_unlock m.m_cond_mutex])
  | w :: wakeups, m, log =>
    if m.no_threads_terminated.ret then
      condWaitLoop thread_return_val pthread_join wakeups (m.complete w)
        (log ++ m.no_threads_terminated.calls ++ [Call.cond_wait m.m_cond_var m.m_cond_mutex])
    else
      let r := m.removeTerminated thread_return_val pthread_join
      Wait.returned r.ret r.mgr r.slot
        (log ++ m.no_threads_terminated.calls ++ r.calls ++ [Call.mutex_unlock m.m_cond_mutex])

/-- `int condWait(void **thread_return_val)`. -/
def condWait (m : ThreadMgr) (thread_return_val : Ptr)
    (pthread_join : pthread_t → Ptr → Int × Ptr) (wakeups : List (List pthread_t)) : Wait :=
  condWaitLoop thread_return_val pthread_join wakeups m [Call.mutex_lock m.m_cond_mutex]

end ThreadMgr

/-! ## Reading the outcome of calls -/

/-- The ids handed to `pthread_join` in a sequence of library calls. -/
def joinedIds : List Call → List pthread_t
  | [] => []
  | Call.join t :: rest => t :: joinedIds rest
  | _ :: rest => joinedIds rest

/-- The ids handed to `pthread_cancel` in a sequence of library calls. -/
def cancelledIds : List Call → List pthread_t
  | [] => []
  | Call.cancel t :: rest => t :: cancelledIds rest
  | _ :: rest => cancelledIds rest

namespace Wait

/-- The value `condWait` returned, `none` while the caller is blocked. -/
def status : Wait → Option Int
  | suspended _ _ => none
  | returned ret _ _ _ => some ret

/-- The object after the call (or while the caller is blocked). -/
def mgr : Wait → ThreadMgr
  | suspended m _ => m
  | returned _ m _ _ => m

/-- The content of `*thread_return_val` after the call, `none` while the caller
is blocked. -/
def slot : Wait → Option Ptr
  | suspended _ _ => none
  | returned _ _ s _ => some s

/-- The library calls made by the caller. -/
def calls : Wait → List Call
  | suspended _ c => c
  | returned _ _ _ c => c

/-- The ids the call joined with. -/
def joined (w : Wait) : List pthread_t := joinedIds w.calls

end Wait

namespace ThreadMgr

/-- Successive calls of `condWait` by one caller on the same slot, one call for
each element of the list (the wakeups of that call).  A call that stays blocked
ends the sequence. -/
def condWaits (pthread_join : pthread_t → Ptr → Int × Ptr) :
    List (List (List pthread_t)) → ThreadMgr → Ptr → List Wait
  | [], _, _ => []
  | wakeups :: later, m, thread_return_val =>
    match m.condWait thread_return_val pthread_join wakeups with
    | Wait.suspended m1 c => [Wait.suspended m1 c]
    | Wait.returned ret m1 s c =>
      Wait.returned ret m1 s c :: condWaits pthread_join later m1 s

/-- The object after a sequence of calls that started on `m`. -/
def afterWaits : List Wait → ThreadMgr → ThreadMgr
  | [], m => m
  | r :: rs, _ => afterWaits rs r.mgr

end ThreadMgr

/-! ## Executions of one controller and its workers

An execution is a sequence of critical sections.  The controller calls
`createThread` and `condWait`; a worker that returns from its user function
runs `addTerminated`.  `addTerminated` touches only the stack and `addID` only
the registry, so a worker that finishes between `pthread_create` and `addID`
leaves the same state as one that finishes right after `createThread`
(`addID_complete_comm`); and a `condWait` that is woken by finished workers
leaves the same state as one called after they finished
(`condWait_after_wakeup`).  A wait is therefore placed where it returns. -/

/-- One event of an execution. -/
inductive Event where
  /-- the controller calls `createThread(thread_func, arg)`; the library creates
  the thread and issues `tid` -/
  | createThread (thread_func : Ptr) (arg : Ptr) (tid : pthread_t)
  /-- the worker `tid` returns from its user function and runs `addTerminated` -/
  | addTerminated (tid : pthread_t)
  /-- the controller calls `condWait` -/
  | condWait
deriving DecidableEq

/-- The state of an execution: the object, the caller's result slot, and the
history of the workers. -/
structure Progress where
  mgr : ThreadMgr
  slot : Ptr
  /-- ids returned by `createThread`, oldest first -/
  spawned : List pthread_t
  /-- ids of the workers that have run `addTerminated`, oldest first -/
  finished : List pthread_t
  /-- ids joined by `condWait`, oldest first -/
  reaped : List pthread_t
  /-- the value of `threadsActive()` right before each `condWait`, oldest first -/
  active : List Int

/-- The start of an execution: a freshly constructed object. -/
def Progress.start (slot : Ptr) : Progress :=
  { mgr := ThreadMgr.new, slot := slot, spawned := [], finished := [], reaped := [],
    active := [] }

/-- One event of an execution without cancellation.  The result is `none` when
the event cannot happen in such an execution: an id issued twice, a worker
that finishes without having been created or finishes twice, and a `condWait`
that does not return or whose join fails. -/
def stepExec (this : Ptr) (pthread_join : pthread_t → Ptr → Int × Ptr) (p : Progress) :
    Event → Option Progress
  | Event.createThread thread_func arg tid =>
    if tid ∈ p.spawned then none
    else
      some { p with
        mgr := (p.mgr.createThread this thread_func arg (fun _ => (0, tid))).mgr
        spawned := p.spawned ++ [(p.mgr.createThread this thread_func arg (fun _ => (0, tid))).ret] }
  | Event.addTerminated tid =>
    if tid ∈ p.spawned ∧ tid ∉ p.finished then
      some { p with
        mgr := (p.mgr.addTerminated tid).mgr
        finished := p.finished ++ [tid] }
    else none
  | Event.condWait =>
    match p.mgr.condWait p.slot pthread_join [] with
    | Wait.suspended _ _ => none
    | Wait.returned ret m s c =>
      if ret = 0 then
        some { p with
          mgr := m
          slot := s
          reaped := p.reaped ++ joinedIds c
          active := p.active ++ [p.mgr.threadsActive.ret] }
      else none

/-- A sequence of events, from the state `p`. -/
def exec (this : Ptr) (pthread_join : pthread_t → Ptr → Int × Ptr) :
    List Event → Progress → Option Progress
  | [], p => some p
  | e :: es, p =>
    match stepExec this pthread_join p e with
    | none => none
    | some p1 => exec this pthread_join es p1

/-- The ids issued in a sequence of events, oldest first. -/
def spawnedIds : List Event → List pthread_t
  | [] => []
  | Event.createThread _ _ tid :: es => tid :: spawnedIds es
  | _ :: es => spawnedIds es

/-- The number of `condWait` calls in a sequence of events. -/
def waitCount : List Event → Nat
  | [] => 0
  | Event.condWait :: es => waitCount es + 1
  | _ :: es => waitCount es

/-- What holds of every state of an execution without cancellation. -/
structure Progress.Inv (p : Progress) : Prop where
  spawned_nodup : p.spawned.Nodup
  stack_nodup : p.mgr.m_terminated.Nodup
  reaped_nodup : p.reaped.Nodup
  stack_finished : ∀ t ∈ p.mgr.m_terminated, t ∈ p.finished
  stack_not_reaped : ∀ t ∈ p.mgr.m_terminated, t ∉ p.reaped
  finished_spawned : ∀ t ∈ p.finished, t ∈ p.spawned
  reaped_finished : ∀ t ∈ p.reaped, t ∈ p.finished
  registry : ∀ t, p.mgr.m_ids.find t ≠ none ↔ (t ∈ p.spawned ∧ t ∉ p.reaped)
  count : p.mgr.m_ids.size + p.reaped.length = p.spawned.length
  active_ne_zero : ∀ c ∈ p.active, c ≠ 0
  finished_nodup : p.finished.Nodup

/-! ## States and executions used as examples -/

/-- The state of the counterexamples about cancellation: thread 5 was created
for the user function at 7, returned from it, and was then cancelled before
being reaped. -/
def cancelledAfterExit : ThreadMgr :=
  ((ThreadMgr.func ⟨7, NULL, 0, 0⟩
      (ThreadMgr.new.createThread 0 7 0 (fun _ => (0, 5))).mgr 5 (fun _ _ => 0)).mgr.cancel_thread
    5 (fun _ => 0)).mgr

/-- A state with one active worker: thread 5, created for the user function
at 7 with argument 1. -/
def registeredFive : ThreadMgr :=
  (ThreadMgr.new.createThread 0 7 1 (fun _ => (0, 5))).mgr

/-- The state of the counterexample about spawning.  A first caller is inside
`createThread`: the library has issued the id 5, and the new thread returns
from its user function and runs `addTerminated` before the caller reaches
`addID`.  A second caller reaps thread 5 with `condWait` (the join succeeds,
the registry has nothing to erase).  The first caller then registers 5.
Thread 5 has been joined, so the library is free to issue its id again. -/
def staleFive : ThreadMgr :=
  (((ThreadMgr.new.addTerminated 5).mgr.condWait 0 (fun _ _ => (0, 0)) []).mgr.addID 5
    ⟨7, NULL, 1, 0⟩).mgr

/-- An execution with three workers: 5 and 3 are created, 3 finishes and is
reaped, 9 is created, 9 and then 5 finish, and two more waits follow. -/
def demoEvents : List Event :=
  [Event.createThread 7 0 5, Event.createThread 8 1 3, Event.addTerminated 3, Event.condWait,
    Event.createThread 7 0 9, Event.addTerminated 9, Event.addTerminated 5, Event.condWait,
    Event.condWait]

/-- The state at the end of `demoEvents`. -/
def demoFinal : Progress :=
  { mgr := ThreadMgr.new, slot := 0, spawned := [5, 3, 9], finished := [3, 9, 5],
    reaped := [3, 5, 9], active := [2, 2, 1] }

/-! ## The locks of an object -/

/-- Two objects point to the same mutexes and the same condition variable. -/
def samePointers (a b : ThreadMgr) : Prop :=
  a.m_mutex = b.m_mutex ∧ a.m_cond_mutex = b.m_cond_mutex ∧ a.m_cond_var = b.m_cond_var

instance (a b : ThreadMgr) : Decidable (samePointers a b) := by
  unfold samePointers
  infer_instance

/-- The waits on a condition variable in a sequence of library calls, as pairs
of the condition variable and the mutex handed to `pthread_cond_wait`. -/
def condWaitArgs : List Call → List (StaticObj × StaticObj)
  | [] => []
  | Call.cond_wait cv mx :: rest => (cv, mx) :: condWaitArgs rest
  | _ :: rest => condWaitArgs rest

/-! ## Several objects

Every `ThreadMgr` object has its own `m_ids` and `m_terminated`; a member
function works on the object `this` points to, and the wrapper `func` works on
the object its argument record points to (`arg->thisObject`). -/

/-- The objects of the program, by address. -/
abbrev Heap := Ptr → ThreadMgr

/-- A call of a public or protected member function, with the replies of the
library. -/
inductive MemberCall where
  | createThread (thread_func : Ptr) (arg : Ptr)
      (pthread_create : func_arguments → Int × pthread_t)
  | cancel_thread (tid : pthread_t) (pthread_cancel : pthread_t → Int)
  | condWait (thread_return_val : Ptr) (pthread_join : pthread_t → Ptr → Int × Ptr)
      (wakeups : List (List pthread_t))
  | removeTerminated (return_val : Ptr) (pthread_join : pthread_t → Ptr → Int × Ptr)
  | threadsActive
  | no_threads_terminated

namespace Heap

/-- The heap in which the object at `this` has become `m`. -/
def store (h : Heap) (this : Ptr) (m : ThreadMgr) : Heap :=
  fun p => if p = this then m else h p

/-- A member function is called on the object at `this`. -/
def call (h : Heap) (this : Ptr) : MemberCall → Heap
  | MemberCall.createThread thread_func arg pthread_create =>
    h.store this ((h this).createThread this thread_func arg pthread_create).mgr
  | MemberCall.cancel_thread tid pthread_cancel =>
    h.store this ((h this).cancel_thread tid pthread_cancel).mgr
  | MemberCall.condWait thread_return_val pthread_join wakeups =>
    h.store this ((h this).condWait thread_return_val pthread_join wakeups).mgr
  | MemberCall.removeTerminated return_val pthread_join =>
    h.store this ((h this).removeTerminated return_val pthread_join).mgr
  | MemberCall.threadsActive => h.store this (h this).threadsActive.mgr
  | MemberCall.no_threads_terminated => h.store this (h this).no_threads_terminated.mgr

/-- The thread `pthread_self`, started on the record `arg`, returns from its
user function: `func` runs `addTerminated` on the object `arg->thisObject`. -/
def func (h : Heap) (arg : func_arguments) (pthread_self : pthread_t)
    (user : Ptr → Ptr → Ptr) : Heap :=
  h.store arg.thisObject (ThreadMgr.func arg (h arg.thisObject) pthread_self user).mgr

end Heap

/-- The object after two tasks have been spawned on a freshly constructed
object: the user function at `f1` with argument `a1` runs as thread `t1`, the
user function at `f2` with argument `a2` as thread `t2`. -/
def spawnedTwo (this f1 a1 f2 a2 : Ptr) (t1 t2 : pthread_t) : ThreadMgr :=
  ((ThreadMgr.new.createThread this f1 a1 (fun _ => (0, t1))).mgr.createThread this f2 a2
    (fun _ => (0, t2))).mgr

/-! ## The template `Tmycpy` (src/template/simpleTemplate.cc)

An array of `char` or of `int` is the list of its elements.  Reading or
writing past the end of an array and overflow of the `int` counter are
undefined in C++; the functions below return `none` there.  Printing is not
modelled beyond the elements it reads. -/

/-- The largest value of an `int`. -/
def INT_MAX : Int := 2147483647

/-- The loop `while(*p2++ = *p1++) count++;`: the first two arguments are the
elements from `p1` and from `p2` to the end of their arrays; the result is the
elements from the old `p2` on after the loop, and the counter. -/
def copyLoop : List Int → List Int → Int → Option (List Int × Int)
  | [], _, _ => none
  | _ :: _, [], _ => none
  | x :: as, _ :: bs, count =>
    if x ≠ 0 then
      if count < INT_MAX then
        match copyLoop as bs (count + 1) with
        | none => none
        | some r => some (x :: r.1, r.2)
      else none
    else some (x :: bs, count)

/-- The library function `memcmp(a, b, size)` on two arrays whose elements take
`sizeofT` bytes each and are stored low-order byte first.  The first
`size / sizeofT` elements are compared whole (the value of a `char` or an
`int` determines its bytes and conversely); of the element after them the
`size % sizeofT` low-order bytes are compared, which are its remainder modulo
`256 ^ (size % sizeofT)`.  The result is 0 when all of these agree and a
non-zero value when they do not, `none` when `size` reaches past the end of an
array. -/
def memcmp (sizeofT : Nat) (a b : List Int) (size : Nat) : Option Int :=
  if size ≤ a.length * sizeofT ∧ size ≤ b.length * sizeofT then
    if a.take (size / sizeofT) = b.take (size / sizeofT) ∧
        a.getD (size / sizeofT) 0 % 256 ^ (size % sizeofT)
          = b.getD (size / sizeofT) 0 % 256 ^ (size % sizeofT) then some 0
    else some 1
  else none

/-- The two arrays after a call of `Tmycpy`, and its return value. -/
structure Copied where
  a : List Int
  b : List Int
  ret : Int
deriving DecidableEq

/-- `template <class T> int Tmycpy(T a, T b, size_t size, int numElements)` for
`T` a pointer to elements of `sizeofT` bytes; `a` and `b` are two separate
arrays. -/
def Tmycpy (sizeofT : Nat) (a b : List Int) (size : Nat) (numElements : Int) :
    Option Copied :=
  -- the two printing loops read `a[i]` and `b[i]` for `i < numElements`
  if numElements ≤ a.length ∧ numElements ≤ b.length then
    match copyLoop a b 1 with
    | none => none
    | some r =>
      match memcmp sizeofT a r.1 size with
      | none => none
      | some c => if c ≠ 0 then some ⟨a, r.1, -1⟩ else some ⟨a, r.1, r.2⟩
  else none

/-- The array `ca1` of `main`: the characters of `"123456789"` and the
terminator. -/
def ca1 : List Int := [49, 50, 51, 52, 53, 54, 55, 56, 57, 0]

/-- The array `ca2` of `main` after `memset(ca2, 'x', sizeof(ca2))`. -/
def ca2 : List Int := [120, 120, 120, 120, 120, 120, 120, 120, 120, 120]

/-- The array `ia` of `main`. -/
def ia : List Int := [9, 8, 7, 6, 5, 4, 3, 2, 1, 0]

/-- The array `ib` of `main`. -/
def ib : List Int := [0, 0, 0, 0, 0, 0, 0, 0, 0, 4]

/-! ## Histories: every operation, with cancellation and failing joins

A history is a sequence of operations on one object, each with the reply of
the library.  Next to the object it records, for every id, what has happened
to the worker.  An id is reaped by the `removeTerminated` that joins with it
successfully.

Every operation is one step here, `createThread` included, although
`createThread` holds `m_mutex` only inside `addID`: a history describes the
executions in which a worker finishes, is reaped or is cancelled only after
the `createThread` that created it has registered it.  The executions in which
other threads step in between `pthread_create` and `addID` are those of
`World` below. -/

/-- One operation on the object. -/
inductive Step where
  /-- `createThread(thread_func, arg)`; `pthread_create` returns `ret_val` and
  stores `tid` -/
  | createThread (thread_func : Ptr) (arg : Ptr) (ret_val : Int) (tid : pthread_t)
  /-- the task of worker `tid` has finished and the worker runs `addTerminated` -/
  | addTerminated (tid : pthread_t)
  /-- `removeTerminated(return_val)`; `pthread_join` returns `ret` and stores
  `value` -/
  | removeTerminated (ret : Int) (value : Ptr)
  /-- `cancel_thread(&tid)`; `pthread_cancel` returns `ret` -/
  | cancel_thread (tid : pthread_t) (ret : Int)
deriving DecidableEq

/-- The object, the caller's result slot and the record of the workers. -/
structure History where
  mgr : ThreadMgr
  slot : Ptr
  /-- ids that have been spawned and not yet reaped -/
  unreaped : List pthread_t
  /-- ids of the workers whose task has finished and that have not yet been
  reaped -/
  finished : List pthread_t
  /-- ids that have been cancelled since they were spawned and not yet reaped -/
  cancelled : List pthread_t

namespace History

/-- The start of a history: a freshly constructed object. -/
def start (slot : Ptr) : History :=
  { mgr := ThreadMgr.new, slot := slot, unreaped := [], finished := [], cancelled := [] }

/-- The ids a call of `removeTerminated` has reaped: the id it joined with, when
the join succeeded. -/
def reapedBy (r : Reaped) : List pthread_t :=
  if r.ret = 0 then joinedIds r.calls else []

/-- One operation. -/
def step (this : Ptr) (h : History) : Step → History
  | Step.createThread thread_func arg ret_val tid =>
    if ret_val = 0 then
      { h with
        mgr := (h.mgr.createThread this thread_func arg (fun _ => (ret_val, tid))).mgr
        unreaped := tid :: h.unreaped
        cancelled := h.cancelled.filter (fun t => t ≠ tid) }
    else
      { h with
        mgr := (h.mgr.createThread this thread_func arg (fun _ => (ret_val, tid))).mgr }
  | Step.addTerminated tid =>
    { h with
      mgr := (h.mgr.addTerminated tid).mgr
      finished := tid :: h.finished }
  | Step.removeTerminated ret value =>
    { mgr := (h.mgr.removeTerminated h.slot (fun _ _ => (ret, value))).mgr
      slot := (h.mgr.removeTerminated h.slot (fun _ _ => (ret, value))).slot
      unreaped := h.unreaped.filter
        (fun t => t ∉ reapedBy (h.mgr.removeTerminated h.slot (fun _ _ => (ret, value))))
      finished := h.finished.filter
        (fun t => t ∉ reapedBy (h.mgr.removeTerminated h.slot (fun _ _ => (ret, value))))
      cancelled := h.cancelled.filter
        (fun t => t ∉ reapedBy (h.mgr.removeTerminated h.slot (fun _ _ => (ret, value)))) }
  | Step.cancel_thread tid ret =>
    { h with
      mgr := (h.mgr.cancel_thread tid (fun _ => ret)).mgr
      cancelled := tid :: h.cancelled }

/-- A sequence of operations. -/
def run (this : Ptr) : List Step → History → History
  | [], h => h
  | s :: rest, h => run this rest (h.step this s)

/-- Every operation of the sequence satisfies `ok` in the state it starts
from. -/
def always (this : Ptr) (ok : History → Step → Prop) : List Step → History → Prop
  | [], _ => True
  | s :: rest, h => ok h s ∧ always this ok rest (h.step this s)

/-- A worker finishes only when its id is not already waiting to be reaped: a
thread returns from its user function once, and its id is issued again only
after the join. -/
def finishesOnce (h : History) : Step → Prop
  | Step.addTerminated tid => tid ∉ h.finished
  | _ => True

/-- The operations of a history without cancellation in which a worker finishes
only after `createThread` has registered it, before it is reaped, and once. -/
def registeredFirst (h : History) : Step → Prop
  | Step.addTerminated tid => tid ∈ h.unreaped ∧ tid ∉ h.finished
  | Step.cancel_thread _ _ => False
  | _ => True

instance (h : History) (s : Step) : Decidable (finishesOnce h s) := by
  cases s <;> unfold finishesOnce <;> infer_instance

instance (h : History) (s : Step) : Decidable (registeredFirst h s) := by
  cases s <;> unfold registeredFirst <;> infer_instance

/-- Whether every operation of the sequence satisfies `ok` can be computed. -/
def decideAlways (this : Ptr) (ok : History → Step → Prop) [∀ h s, Decidable (ok h s)] :
    (steps : List Step) → (h : History) → Decidable (always this ok steps h)
  | [], _ => isTrue trivial
  | s :: rest, h =>
    match (inferInstance : Decidable (ok h s)), decideAlways this ok rest (h.step this s) with
    | isTrue h1, isTrue h2 => isTrue ⟨h1, h2⟩
    | isFalse h1, _ => isFalse (fun hc => h1 hc.1)
    | _, isFalse h2 => isFalse (fun hc => h2 hc.2)

instance (this : Ptr) (ok : History → Step → Prop) [∀ h s, Decidable (ok h s)]
    (steps : List Step) (h : History) : Decidable (always this ok steps h) :=
  decideAlways this ok steps h

/-- The registry holds exactly the ids that are spawned, not reaped and not
cancelled. -/
def RegistryInv (h : History) : Prop :=
  ∀ t, h.mgr.m_ids.find t ≠ none ↔ (t ∈ h.unreaped ∧ t ∉ h.cancelled)

/-- The stack holds exactly the ids that have finished and are not reaped, each
once. -/
def StackInv (h : History) : Prop :=
  h.mgr.m_terminated.Nodup ∧ ∀ t, t ∈ h.mgr.m_terminated ↔ t ∈ h.finished

end History

/-! ## One controller and its workers, step by step

The states of `condWait` are made explicit.  A step of the controller is one
critical section or one call of `pthread_cond_wait`; a step of a worker is its
critical section in `addTerminated`, which needs `m_mutex` only.  Between the
return of `no_threads_terminated()` and the call of `pthread_cond_wait` the
controller holds `m_cond_mutex` and nothing else. -/

/-- Where the controller is. -/
inductive Pc where
  /-- not inside `condWait` -/
  | outside
  /-- inside `condWait`, holding `m_cond_mutex`, about to call
  `no_threads_terminated()` -/
  | entered
  /-- `no_threads_terminated()` has returned true; about to call
  `pthread_cond_wait` -/
  | sleepy
  /-- blocked in `pthread_cond_wait(m_cond_var, m_cond_mutex)` -/
  | suspended
  /-- `no_threads_terminated()` has returned false; about to call
  `removeTerminated` -/
  | reaping
deriving DecidableEq

/-- A step of the controller or of a worker. -/
inductive Act where
  /-- the controller calls `createThread`; `pthread_create` returns `ret_val`
  and stores `tid` -/
  | createThread (thread_func : Ptr) (arg : Ptr) (ret_val : Int) (tid : pthread_t)
  /-- the controller calls `cancel_thread`; `pthread_cancel` returns `ret` -/
  | cancel_thread (tid : pthread_t) (ret : Int)
  /-- the controller enters `condWait` and locks `m_cond_mutex` -/
  | lock
  /-- the controller evaluates the loop condition `no_threads_terminated()` -/
  | test
  /-- the controller calls `pthread_cond_wait` -/
  | wait
  /-- `pthread_cond_wait` returns without a broadcast (spurious wakeup) -/
  | wakeup
  /-- the controller calls `removeTerminated`, unlocks and returns;
  `pthread_join` returns `ret` and stores `value` -/
  | reap (ret : Int) (value : Ptr)
  /-- the worker `tid` returns from its user function and runs
  `addTerminated`: it pushes its id and broadcasts, which wakes a suspended
  controller -/
  | worker (tid : pthread_t)
deriving DecidableEq

/-- The object, the controller and what the controller last saw. -/
structure Sys where
  mgr : ThreadMgr
  pc : Pc
  slot : Ptr
  /-- the stack as the last evaluation of `no_threads_terminated()` in
  `condWait` found it -/
  tested : List pthread_t
  /-- the ids pushed since that evaluation, newest first -/
  pushed : List pthread_t
deriving DecidableEq

namespace Sys

/-- The start: a freshly constructed object, the controller outside
`condWait`. -/
def start (slot : Ptr) : Sys :=
  { mgr := ThreadMgr.new, pc := Pc.outside, slot := slot, tested := [], pushed := [] }

/-- The mutexes the controller holds between its steps. -/
def heldByController (s : Sys) : List StaticObj :=
  match s.pc with
  | Pc.entered => [s.mgr.m_cond_mutex]
  | Pc.sleepy => [s.mgr.m_cond_mutex]
  | Pc.reaping => [s.mgr.m_cond_mutex]
  | Pc.outside => []
  | Pc.suspended => []

/-- One step; `none` when the step is not possible in the state. -/
def step (this : Ptr) (s : Sys) : Act → Option Sys
  | Act.createThread thread_func arg ret_val tid =>
    if s.pc = Pc.outside then
      some { s with
        mgr := (s.mgr.createThread this thread_func arg (fun _ => (ret_val, tid))).mgr }
    else none
  | Act.cancel_thread tid ret =>
    if s.pc = Pc.outside then
      some { s with mgr := (s.mgr.cancel_thread tid (fun _ => ret)).mgr }
    else none
  | Act.lock =>
    if s.pc = Pc.outside then some { s with pc := Pc.entered } else none
  | Act.test =>
    if s.pc = Pc.entered then
      some { s with
        mgr := s.mgr.no_threads_terminated.mgr
        pc := if s.mgr.no_threads_terminated.ret then Pc.sleepy else Pc.reaping
        tested := s.mgr.m_terminated
        pushed := [] }
    else none
  | Act.wait =>
    if s.pc = Pc.sleepy then some { s with pc := Pc.suspended } else none
  | Act.wakeup =>
    if s.pc = Pc.suspended then some { s with pc := Pc.entered } else none
  | Act.reap ret value =>
    if s.pc = Pc.reaping then
      some { s with
        mgr := (s.mgr.removeTerminated s.slot (fun _ _ => (ret, value))).mgr
        slot := (s.mgr.removeTerminated s.slot (fun _ _ => (ret, value))).slot
        pc := Pc.outside }
    else none
  | Act.worker tid =>
    if s.mgr.m_mutex ∈ s.heldByController then none
    else
      some { s with
        mgr := (s.mgr.addTerminated tid).mgr
        pc := if s.pc = Pc.suspended then Pc.entered else s.pc
        pushed := tid :: s.pushed }

/-- A sequence of steps. -/
def run (this : Ptr) : List Act → Sys → Option Sys
  | [], s => some s
  | a :: rest, s =>
    match s.step this a with
    | none => none
    | some s1 => run this rest s1

/-- While the controller is about to wait or is suspended, its last test found
the stack empty and the stack holds the ids pushed since. -/
def WaitInv (s : Sys) : Prop :=
  (s.pc = Pc.sleepy ∨ s.pc = Pc.suspended) →
    s.tested = [] ∧ s.mgr.m_terminated = s.pushed

end Sys

/-- The state of the counterexample about cancelling a finished worker: threads
5 and 6 were created for the user function at 7, thread 5 returned from it,
then thread 6, and then thread 5 was cancelled. -/
def cancelledBelowTop : ThreadMgr :=
  ((ThreadMgr.func ⟨7, NULL, 0, 0⟩
      (ThreadMgr.func ⟨7, NULL, 0, 0⟩ (spawnedTwo 0 7 0 7 0 5 6) 5 (fun _ _ => 0)).mgr 6
      (fun _ _ => 0)).mgr.cancel_thread 5 (fun _ => 0)).mgr

/-! ## The object and its threads, at the granularity of the locks

`createThread` takes `m_mutex` only inside `addID`, so between the return of
`pthread_create` and `addID` other threads run: the new thread may return from
its user function and push its id, and another caller may reap or cancel it.
In the same way the wrapper `func` pushes the id only after the user function
has returned.  The steps below are the critical sections and the library
calls, taken by any thread in any order the library allows: it issues an id
that no unjoined thread has, a thread returns from its user function once, and
its wrapper then runs `addTerminated` once. -/

/-- One step of some thread. -/
inductive Move where
  /-- a caller inside `createThread`: `pthread_create` returns `ret_val` and
  stores `tid`; on status 0 the new thread exists -/
  | pthread_create (thread_func : Ptr) (arg : Ptr) (ret_val : Int) (tid : pthread_t)
  /-- the caller that created `tid` goes on to `addID(tid, arguments)` and
  returns `tid` -/
  | addID (tid : pthread_t)
  /-- the user function of thread `tid` returns: its task has finished -/
  | returns (tid : pthread_t)
  /-- the wrapper `func` of thread `tid`, whose user function has returned,
  runs `addTerminated` -/
  | addTerminated (tid : pthread_t)
  /-- a caller runs `removeTerminated`; `pthread_join` returns `ret` and stores
  `value` -/
  | removeTerminated (ret : Int) (value : Ptr)
  /-- a caller runs `cancel_thread(&tid)`; `pthread_cancel` returns `ret` -/
  | cancel_thread (tid : pthread_t) (ret : Int)
deriving DecidableEq

/-- The object, the caller's result slot, and the threads. -/
structure World where
  mgr : ThreadMgr
  slot : Ptr
  /-- the threads that have been created and not yet joined, each with the
  record it was started on -/
  threads : IdMap
  /-- the calls of `createThread` that have created their thread and have not
  yet run `addID`, each with the record it is about to register -/
  pending : List (pthread_t × func_arguments)
  /-- ids of the unjoined threads whose user function has returned -/
  returned : List pthread_t
  /-- ids of the unjoined threads whose wrapper has run `addTerminated` -/
  pushed : List pthread_t
  /-- ids of the unjoined threads that have been cancelled -/
  cancelled : List pthread_t
deriving DecidableEq

namespace World

/-- The start: a freshly constructed object and no thread. -/
def start (slot : Ptr) : World :=
  { mgr := ThreadMgr.new, slot := slot, threads := IdMap.empty, pending := [], returned := [],
    pushed := [], cancelled := [] }

/-- One step; `none` when the library does not allow it. -/
def step (this : Ptr) (user : Ptr → Ptr → Ptr) (w : World) : Move → Option World
  | Move.pthread_create thread_func arg ret_val tid =>
    if ret_val = 0 then
      if w.threads.find tid = none then
        some { w with
          threads := w.threads.insert tid
            { func := thread_func, cancel_func := NULL, arg := arg, thisObject := this }
          pending :=
            (tid, { func := thread_func, cancel_func := NULL, arg := arg, thisObject := this })
              :: w.pending }
      else none
    else some w
  | Move.addID tid =>
    match findEntry tid w.pending with
    | none => none
    | some arguments =>
      some { w with
        mgr := (w.mgr.addID tid arguments).mgr
        pending := eraseEntry tid w.pending }
  | Move.returns tid =>
    if w.threads.find tid ≠ none ∧ tid ∉ w.returned then
      some { w with returned := tid :: w.returned }
    else none
  | Move.addTerminated tid =>
    match w.threads.find tid with
    | none => none
    | some arg =>
      if tid ∈ w.returned ∧ tid ∉ w.pushed then
        some { w with
          mgr := (ThreadMgr.func arg w.mgr tid user).mgr
          pushed := tid :: w.pushed }
      else none
  | Move.removeTerminated ret value =>
    some { w with
      mgr := (w.mgr.removeTerminated w.slot (fun _ _ => (ret, value))).mgr
      slot := (w.mgr.removeTerminated w.slot (fun _ _ => (ret, value))).slot
      threads := (History.reapedBy
        (w.mgr.removeTerminated w.slot (fun _ _ => (ret, value)))).foldl IdMap.erase w.threads
      returned := w.returned.filter (fun t => t ∉ History.reapedBy
        (w.mgr.removeTerminated w.slot (fun _ _ => (ret, value))))
      pushed := w.pushed.filter (fun t => t ∉ History.reapedBy
        (w.mgr.removeTerminated w.slot (fun _ _ => (ret, value))))
      cancelled := w.cancelled.filter (fun t => t ∉ History.reapedBy
        (w.mgr.removeTerminated w.slot (fun _ _ => (ret, value)))) }
  | Move.cancel_thread tid ret =>
    some { w with
      mgr := (w.mgr.cancel_thread tid (fun _ => ret)).mgr
      cancelled := if w.threads.find tid ≠ none then tid :: w.cancelled else w.cancelled }

/-- A sequence of steps. -/
def run (this : Ptr) (user : Ptr → Ptr → Ptr) : List Move → World → Option World
  | [], w => some w
  | x :: rest, w =>
    match w.step this user x with
    | none => none
    | some w1 => run this user rest w1

/-- The id `t` has been spawned and has not yet been reaped: its thread exists
and the `createThread` that created it has registered it. -/
def spawnedUnreaped (w : World) (t : pthread_t) : Prop :=
  w.threads.find t ≠ none ∧ findEntry t w.pending = none

/-- The task of worker `t` has finished executing and the worker has not yet
been reaped. -/
def finishedUnreaped (w : World) (t : pthread_t) : Prop :=
  t ∈ w.returned

instance (w : World) (t : pthread_t) : Decidable (spawnedUnreaped w t) := by
  unfold spawnedUnreaped
  infer_instance

instance (w : World) (t : pthread_t) : Decidable (finishedUnreaped w t) := by
  unfold finishedUnreaped
  infer_instance

/-- A worker is neither reaped nor cancelled while the `createThread` that
created it has not yet run `addID`. -/
def registersInTime (w : World) : Move → Prop
  | Move.removeTerminated ret value =>
    ∀ t ∈ History.reapedBy (w.mgr.removeTerminated w.slot (fun _ _ => (ret, value))),
      findEntry t w.pending = none
  | Move.cancel_thread tid _ => findEntry tid w.pending = none
  | _ => True

instance (w : World) (x : Move) : Decidable (registersInTime w x) := by
  cases x <;> unfold registersInTime <;> infer_instance

/-- Every step of the sequence that is taken satisfies `ok` in the state it
starts from. -/
def always (this : Ptr) (user : Ptr → Ptr → Ptr) (ok : World → Move → Prop) :
    List Move → World → Prop
  | [], _ => True
  | x :: rest, w =>
    ok w x ∧
      match w.step this user x with
      | none => True
      | some w1 => always this user ok rest w1

/-- What holds of the registry when every worker is registered in time. -/
structure RegistryInv (w : World) : Prop where
  pending_threads : ∀ t, findEntry t w.pending ≠ none → w.threads.find t ≠ none
  pending_nodup : (w.pending.map Prod.fst).Nodup
  cancelled_threads : ∀ t ∈ w.cancelled, w.threads.find t ≠ none ∧ findEntry t w.pending = none
  keys : ∀ t, w.mgr.m_ids.find t ≠ none ↔ (spawnedUnreaped w t ∧ t ∉ w.cancelled)

/-- What holds of the termination stack. -/
structure StackInv (w : World) : Prop where
  stack_nodup : w.mgr.m_terminated.Nodup
  stack_pushed : ∀ t, t ∈ w.mgr.m_terminated ↔ t ∈ w.pushed
  pushed_returned : ∀ t ∈ w.pushed, t ∈ w.returned
  returned_threads : ∀ t ∈ w.returned, w.threads.find t ≠ none

end World

namespace World

/-- Whether every step of the sequence satisfies `ok` can be computed. -/
def decideAlways (this : Ptr) (user : Ptr → Ptr → Ptr) (ok : World → Move → Prop)
    [∀ w x, Decidable (ok w x)] :
    (steps : List Move) → (w : World) → Decidable (always this user ok steps w)
  | [], _ => isTrue trivial
  | x :: rest, w =>
    match hs : w.step this user x with
    | none =>
      match (inferInstance : Decidable (ok w x)) with
      | isTrue h1 => isTrue (by simp only [always, hs]; exact ⟨h1, trivial⟩)
      | isFalse h1 => isFalse (fun hc => h1 (by simp only [always] at hc; exact hc.1))
    | some w1 =>
      match (inferInstance : Decidable (ok w x)), decideAlways this user ok rest w1 with
      | isTrue h1, isTrue h2 => isTrue (by simp only [always, hs]; exact ⟨h1, h2⟩)
      | isFalse h1, _ => isFalse (fun hc => h1 (by simp only [always] at hc; exact hc.1))
      | _, isFalse h2 => isFalse (fun hc => h2 (by simp only [always, hs] at hc; exact hc.2))

instance (this : Ptr) (user : Ptr → Ptr → Ptr) (ok : World → Move → Prop)
    [∀ w x, Decidable (ok w x)] (steps : List Move) (w : World) :
    Decidable (always this user ok steps w) :=
  decideAlways this user ok steps w

end World

/-- The steps of the race between a caller inside `createThread` and a second
caller inside `condWait`: the library creates thread 5 for the user function at
7 with argument 1; the thread returns from it and runs `addTerminated` before
the first caller reaches `addID`; the second caller reaps thread 5; the first
caller then runs `addID`. -/
def lateRegistration : List Move :=
  [Move.pthread_create 7 1 0 5, Move.returns 5, Move.addTerminated 5,
    Move.removeTerminated 0 0, Move.addID 5]

/-- Thread 5 is created and registered, and is then cancelled. -/
def spawnThenCancel : List Move :=
  [Move.pthread_create 7 0 0 5, Move.addID 5, Move.cancel_thread 5 0]

/-- Thread 5 is created and registered, and returns from its user function. -/
def spawnThenReturn : List Move :=
  [Move.pthread_create 7 0 0 5, Move.addID 5, Move.returns 5]

/-- Threads 5 and 6 are created; 5 returns and pushes its id, 6 is registered
only after 5 has returned and is cancelled; a join of 5 fails; 6 returns; 5 is
reaped; 6 pushes its id. -/
def busyMoves : List Move :=
  [Move.pthread_create 7 0 0 5, Move.addID 5, Move.pthread_create 8 1 0 6, Move.returns 5,
    Move.addID 6, Move.addTerminated 5, Move.cancel_thread 6 0, Move.removeTerminated 3 0,
    Move.returns 6, Move.removeTerminated 0 0, Move.addTerminated 6]

namespace Sys

/-- No worker runs `addTerminated` while the controller is between its test of
the loop condition and its call of `pthread_cond_wait`. -/
def noLateWorker (s : Sys) : Act → Prop
  | Act.worker _ => s.pc ≠ Pc.sleepy
  | _ => True

instance (s : Sys) (a : Act) : Decidable (noLateWorker s a) := by
  cases a <;> unfold noLateWorker <;> infer_instance

/-- Every step of the sequence that is taken satisfies `ok` in the state it
starts from. -/
def always (this : Ptr) (ok : Sys → Act → Prop) : List Act → Sys → Prop
  | [], _ => True
  | a :: rest, s =>
    ok s a ∧
      match s.step this a with
      | none => True
      | some s1 => always this ok rest s1

/-- Whether every step of the sequence satisfies `ok` can be computed. -/
def decideAlways (this : Ptr) (ok : Sys → Act → Prop) [∀ s a, Decidable (ok s a)] :
    (acts : List Act) → (s : Sys) → Decidable (always this ok acts s)
  | [], _ => isTrue trivial
  | a :: rest, s =>
    match hs : s.step this a with
    | none =>
      match (inferInstance : Decidable (ok s a)) with
      | isTrue h1 => isTrue (by simp only [always, hs]; exact ⟨h1, trivial⟩)
      | isFalse h1 => isFalse (fun hc => h1 (by simp only [always] at hc; exact hc.1))
    | some s1 =>
      match (inferInstance : Decidable (ok s a)), decideAlways this ok rest s1 with
      | isTrue h1, isTrue h2 => isTrue (by simp only [always, hs]; exact ⟨h1, h2⟩)
      | isFalse h1, _ => isFalse (fun hc => h1 (by simp only [always] at hc; exact hc.1))
      | _, isFalse h2 => isFalse (fun hc => h2 (by simp only [always, hs] at hc; exact hc.2))

instance (this : Ptr) (ok : Sys → Act → Prop) [∀ s a, Decidable (ok s a)]
    (acts : List Act) (s : Sys) : Decidable (always this ok acts s) :=
  decideAlways this ok acts s

/-- While the controller is about to wait or is suspended, the stack is
empty. -/
def QuietInv (s : Sys) : Prop :=
  (s.pc = Pc.sleepy ∨ s.pc = Pc.suspended) → s.mgr.m_terminated = []

end Sys

/-- The state at the end of `busyMoves`: thread 5 has been joined; thread 6
exists, is cancelled and has pushed its id. -/
def busyFinal : World :=
  { mgr := { ThreadMgr.new with m_terminated := [6] }
    slot := 0
    threads := IdMap.empty.insert 6 ⟨8, NULL, 1, 0⟩
    pending := []
    returned := [6]
    pushed := [6]
    cancelled := [6] }

/-! ## Facts about the registry -/

theorem findEntry_none_of_lt (k : pthread_t) (l : List (pthread_t × func_arguments))
    (h : ∀ x ∈ l, k < x.1) : findEntry k l = none := by
  induction l with
  | nil => rfl
  | cons e rest ih =>
    have h1 : k < e.1 := h e (List.mem_cons_self _ _)
    have h2 : ¬ e.1 = k := fun h3 => by rw [h3] at h1; exact lt_irrefl _ h1
    simp only [findEntry, h2, if_false]
    exact ih (fun x hx => h x (List.mem_cons_of_mem _ hx))

theorem eraseEntry_of_find_none (k : pthread_t) (l : List (pthread_t × func_arguments))
    (h : findEntry k l = none) : eraseEntry k l = l := by
  induction l with
  | nil => rfl
  | cons e rest ih =>
    simp only [findEntry] at h
    split at h
    · exact absurd h (by simp)
    · rename_i h1
      simp only [eraseEntry, h1, if_false, ih h]

theorem length_eraseEntry_of_find_some (k : pthread_t) (v : func_arguments)
    (l : List (pthread_t × func_arguments))
    (h : findEntry k l = some v) : (eraseEntry k l).length + 1 = l.length := by
  induction l with
  | nil => simp [findEntry] at h
  | cons e rest ih =>
    simp only [findEntry] at h
    split at h
    · rename_i h1
      simp only [eraseEntry, h1, if_true, List.length_cons]
    · rename_i h1
      simp only [eraseEntry, h1, if_false, List.length_cons, ih h]

theorem findEntry_eraseEntry_self (k : pthread_t) (l : List (pthread_t × func_arguments))
    (ho : l.Pairwise (fun a b => a.1 < b.1)) : findEntry k (eraseEntry k l) = none := by
  induction l with
  | nil => rfl
  | cons e rest ih =>
    have hr := List.pairwise_cons.1 ho
    simp only [eraseEntry]
    split
    · rename_i h1
      exact findEntry_none_of_lt k rest (fun x hx => by rw [← h1]; exact hr.1 x hx)
    · rename_i h1
      simp only [findEntry, h1, if_false]
      exact ih hr.2

theorem findEntry_eraseEntry_ne (k j : pthread_t) (l : List (pthread_t × func_arguments))
    (hne : j ≠ k) : findEntry j (eraseEntry k l) = findEntry j l := by
  induction l with
  | nil => rfl
  | cons e rest ih =>
    simp only [eraseEntry]
    split
    · rename_i h1
      have h2 : ¬ e.1 = j := fun h3 => hne (by rw [← h3, h1])
      simp only [findEntry, h2, if_false]
    · simp only [findEntry, ih]

theorem insertEntry_of_find_some (k : pthread_t) (v w : func_arguments)
    (l : List (pthread_t × func_arguments))
    (ho : l.Pairwise (fun a b => a.1 < b.1))
    (h : findEntry k l = some w) : insertEntry k v l = l := by
  induction l with
  | nil => simp [findEntry] at h
  | cons e rest ih =>
    have hr := List.pairwise_cons.1 ho
    simp only [findEntry] at h
    split at h
    · rename_i h1
      have h2 : ¬ k < e.1 := by rw [h1]; exact lt_irrefl _
      have h3 : k = e.1 := h1.symm
      simp only [insertEntry]
      rw [if_neg h2, if_pos h3]
    · rename_i h1
      have h3 : ¬ k < e.1 := by
        intro h4
        have h5 := findEntry_none_of_lt k rest (fun x hx => lt_trans h4 (hr.1 x hx))
        rw [h5] at h
        exact absurd h (by simp)
      have h4 : ¬ k = e.1 := fun h5 => h1 h5.symm
      simp only [insertEntry, h3, h4, if_false, ih hr.2 h]

theorem length_insertEntry_of_find_none (k : pthread_t) (v : func_arguments)
    (l : List (pthread_t × func_arguments))
    (h : findEntry k l = none) : (insertEntry k v l).length = l.length + 1 := by
  induction l with
  | nil => rfl
  | cons e rest ih =>
    simp only [findEntry] at h
    split at h
    · exact absurd h (by simp)
    · rename_i h1
      have h4 : ¬ k = e.1 := fun h5 => h1 h5.symm
      simp only [insertEntry, h4, if_false]
      split
      · simp only [List.length_cons]
      · simp only [List.length_cons, ih h]

theorem findEntry_insertEntry_self (k : pthread_t) (v : func_arguments)
    (l : List (pthread_t × func_arguments))
    (h : findEntry k l = none) : findEntry k (insertEntry k v l) = some v := by
  induction l with
  | nil => simp [insertEntry, findEntry]
  | cons e rest ih =>
    simp only [findEntry] at h
    split at h
    · exact absurd h (by simp)
    · rename_i h1
      have h4 : ¬ k = e.1 := fun h5 => h1 h5.symm
      simp only [insertEntry, h4, if_false]
      split
      · simp only [findEntry, if_true]
      · simp only [findEntry, h1, if_false, ih h]

theorem findEntry_insertEntry_ne (k j : pthread_t) (v : func_arguments)
    (l : List (pthread_t × func_arguments))
    (hne : j ≠ k) : findEntry j (insertEntry k v l) = findEntry j l := by
  induction l with
  | nil =>
    have h2 : ¬ k = j := fun h3 => hne h3.symm
    simp only [insertEntry, findEntry, h2, if_false]
  | cons e rest ih =>
    simp only [insertEntry]
    split
    · have h2 : ¬ k = j := fun h3 => hne h3.symm
      simp only [findEntry, h2, if_false]
    · split
      · rfl
      · simp only [findEntry, ih]

namespace IdMap

theorem ext_entries {a b : IdMap} (h : a.entries = b.entries) : a = b := by
  cases a; cases b; cases h; rfl

theorem erase_of_find_none (m : IdMap) (k : pthread_t) (h : m.find k = none) :
    m.erase k = m :=
  ext_entries (eraseEntry_of_find_none k m.entries h)

theorem size_erase_of_find_some (m : IdMap) (k : pthread_t) (v : func_arguments)
    (h : m.find k = some v) : (m.erase k).size + 1 = m.size :=
  length_eraseEntry_of_find_some k v m.entries h

theorem find_erase_self (m : IdMap) (k : pthread_t) : (m.erase k).find k = none :=
  findEntry_eraseEntry_self k m.entries m.ordered

theorem find_erase_ne (m : IdMap) (k j : pthread_t) (hne : j ≠ k) :
    (m.erase k).find j = m.find j :=
  findEntry_eraseEntry_ne k j m.entries hne

theorem insert_of_find_some (m : IdMap) (k : pthread_t) (v w : func_arguments)
    (h : m.find k = some w) : m.insert k v = m :=
  ext_entries (insertEntry_of_find_some k v w m.entries m.ordered h)

theorem size_insert_of_find_none (m : IdMap) (k : pthread_t) (v : func_arguments)
    (h : m.find k = none) : (m.insert k v).size = m.size + 1 :=
  length_insertEntry_of_find_none k v m.entries h

theorem find_insert_self (m : IdMap) (k : pthread_t) (v : func_arguments)
    (h : m.find k = none) : (m.insert k v).find k = some v :=
  findEntry_insertEntry_self k v m.entries h

theorem find_insert_ne (m : IdMap) (k j : pthread_t) (v : func_arguments) (hne : j ≠ k) :
    (m.insert k v).find j = m.find j :=
  findEntry_insertEntry_ne k j v m.entries hne

end IdMap

/-! ## Facts about `condWait` and `removeTerminated` -/

namespace ThreadMgr

theorem complete_terminated (m : ThreadMgr) (ws : List pthread_t) :
    (m.complete ws).m_terminated = ws.reverse ++ m.m_terminated := by
  induction ws generalizing m with
  | nil => rfl
  | cons w rest ih =>
    show ((m.addTerminated w).mgr.complete rest).m_terminated = _
    rw [ih]
    simp [addTerminated]

theorem complete_ids (m : ThreadMgr) (ws : List pthread_t) :
    (m.complete ws).m_ids = m.m_ids := by
  induction ws generalizing m with
  | nil => rfl
  | cons w rest ih =>
    show ((m.addTerminated w).mgr.complete rest).m_ids = _
    rw [ih]
    rfl

theorem condWait_of_terminated (m : ThreadMgr) (t : pthread_t) (rest : List pthread_t)
    (h : m.m_terminated = t :: rest) (slot : Ptr)
    (pthread_join : pthread_t → Ptr → Int × Ptr) (wakeups : List (List pthread_t)) :
    m.condWait slot pthread_join wakeups =
      Wait.returned (m.removeTerminated slot pthread_join).ret
        (m.removeTerminated slot pthread_join).mgr
        (m.removeTerminated slot pthread_join).slot
        ([Call.mutex_lock m.m_cond_mutex] ++ m.no_threads_terminated.calls ++
          (m.removeTerminated slot pthread_join).calls ++
          [Call.mutex_unlock m.m_cond_mutex]) := by
  have hne : m.no_threads_terminated.ret = false := by
    simp [no_threads_terminated, h]
  cases wakeups with
  | nil => simp [condWait, condWaitLoop, hne]
  | cons w ws => simp [condWait, condWaitLoop, hne]

theorem removeTerminated_calls_of_terminated (m : ThreadMgr) (t : pthread_t)
    (rest : List pthread_t) (h : m.m_terminated = t :: rest) (slot : Ptr)
    (pthread_join : pthread_t → Ptr → Int × Ptr) :
    (m.removeTerminated slot pthread_join).calls =
      [Call.mutex_lock m.m_mutex, Call.join t, Call.mutex_unlock m.m_mutex] := by
  simp only [removeTerminated, h]
  split <;> rfl

theorem removeTerminated_of_join_ok (m : ThreadMgr) (t : pthread_t)
    (rest : List pthread_t) (h : m.m_terminated = t :: rest) (slot : Ptr)
    (pthread_join : pthread_t → Ptr → Int × Ptr) (hj : (pthread_join t slot).1 = 0) :
    m.removeTerminated slot pthread_join =
      { ret := 0
        mgr := { m with m_ids := m.m_ids.erase t, m_terminated := rest }
        slot := (pthread_join t slot).2
        calls := [Call.mutex_lock m.m_mutex, Call.join t, Call.mutex_unlock m.m_mutex] } := by
  simp only [removeTerminated, h, hj, if_true]

theorem removeTerminated_of_join_failed (m : ThreadMgr) (t : pthread_t)
    (rest : List pthread_t) (h : m.m_terminated = t :: rest) (slot : Ptr)
    (pthread_join : pthread_t → Ptr → Int × Ptr) (hj : (pthread_join t slot).1 ≠ 0) :
    m.removeTerminated slot pthread_join =
      { ret := (pthread_join t slot).1
        mgr := m
        slot := (pthread_join t slot).2
        calls := [Call.mutex_lock m.m_mutex, Call.join t, Call.mutex_unlock m.m_mutex] } := by
  simp only [removeTerminated, h, hj, if_false]

theorem joined_condWait_of_terminated (m : ThreadMgr) (t : pthread_t) (rest : List pthread_t)
    (h : m.m_terminated = t :: rest) (slot : Ptr)
    (pthread_join : pthread_t → Ptr → Int × Ptr) (wakeups : List (List pthread_t)) :
    (m.condWait slot pthread_join wakeups).joined = [t] := by
  rw [condWait_of_terminated m t rest h, Wait.joined, Wait.calls,
    removeTerminated_calls_of_terminated m t rest h]
  rfl

end ThreadMgr

namespace ThreadMgr

theorem condWaits_drain (pthread_join : pthread_t → Ptr → Int × Ptr)
    (pre base : List pthread_t) (m : ThreadMgr) (slot : Ptr)
    (wakeups : List (List (List pthread_t)))
    (hstack : m.m_terminated = pre ++ base)
    (hlen : wakeups.length = pre.length)
    (hjoin : ∀ w ∈ pre, ∀ s, (pthread_join w s).1 = 0) :
    (condWaits pthread_join wakeups m slot).map Wait.status = pre.map (fun _ => some 0) ∧
    (condWaits pthread_join wakeups m slot).map Wait.joined = pre.map (fun w => [w]) ∧
    (afterWaits (condWaits pthread_join wakeups m slot) m).m_terminated = base := by
  induction pre generalizing m slot wakeups with
  | nil =>
    cases wakeups with
    | nil => exact ⟨rfl, rfl, hstack⟩
    | cons a b => simp at hlen
  | cons t pre ih =>
    cases wakeups with
    | nil => simp at hlen
    | cons wk later =>
      have hst : m.m_terminated = t :: (pre ++ base) := hstack
      have hj : (pthread_join t slot).1 = 0 := hjoin t (List.mem_cons_self _ _) slot
      have hw := condWait_of_terminated m t (pre ++ base) hst slot pthread_join wk
      rw [removeTerminated_of_join_ok m t (pre ++ base) hst slot pthread_join hj] at hw
      have hlen1 : later.length = pre.length := by simpa using hlen
      have ih1 := ih { m with m_ids := m.m_ids.erase t, m_terminated := pre ++ base }
        (pthread_join t slot).2 later rfl hlen1
        (fun w hw1 s => hjoin w (List.mem_cons_of_mem _ hw1) s)
      simp only [condWaits, hw, List.map_cons, afterWaits, Wait.mgr]
      refine ⟨?_, ?_, ih1.2.2⟩
      · rw [ih1.1]; rfl
      · rw [ih1.2.1]; rfl

end ThreadMgr

namespace ThreadMgr

theorem condWaitLoop_calls_prefix (slot : Ptr) (pthread_join : pthread_t → Ptr → Int × Ptr)
    (wakeups : List (List pthread_t)) (m : ThreadMgr) (log : List Call) :
    ∃ more, (condWaitLoop slot pthread_join wakeups m log).calls = log ++ more := by
  induction wakeups generalizing m log with
  | nil =>
    simp only [condWaitLoop]
    split
    · exact ⟨m.no_threads_terminated.calls ++ [Call.cond_wait m.m_cond_var m.m_cond_mutex],
        by simp only [Wait.calls, List.append_assoc]⟩
    · exact ⟨m.no_threads_terminated.calls ++ ((m.removeTerminated slot pthread_join).calls
          ++ [Call.mutex_unlock m.m_cond_mutex]),
        by simp only [Wait.calls, List.append_assoc]⟩
  | cons w ws ih =>
    simp only [condWaitLoop]
    split
    · obtain ⟨more, hmore⟩ := ih (m.complete w)
        (log ++ m.no_threads_terminated.calls ++ [Call.cond_wait m.m_cond_var m.m_cond_mutex])
      exact ⟨m.no_threads_terminated.calls
          ++ ([Call.cond_wait m.m_cond_var m.m_cond_mutex] ++ more),
        by rw [hmore]; simp only [List.append_assoc]⟩
    · exact ⟨m.no_threads_terminated.calls ++ ((m.removeTerminated slot pthread_join).calls
          ++ [Call.mutex_unlock m.m_cond_mutex]),
        by simp only [Wait.calls, List.append_assoc]⟩

theorem condWaitLoop_of_idle_wakeups (slot : Ptr)
    (pthread_join : pthread_t → Ptr → Int × Ptr) (m : ThreadMgr)
    (h : m.m_terminated = []) (n : Nat) (log : List Call) :
    (condWaitLoop slot pthread_join (List.replicate n []) m log).status = none ∧
    (condWaitLoop slot pthread_join (List.replicate n []) m log).mgr = m := by
  have hne : m.no_threads_terminated.ret = true := by
    simp [no_threads_terminated, h]
  induction n generalizing log with
  | zero => simp [condWaitLoop, hne, Wait.status, Wait.mgr]
  | succ n ih =>
    simp only [List.replicate_succ, condWaitLoop, hne, if_true]
    exact ih _

theorem condWait_first_calls_of_empty (m : ThreadMgr) (h : m.m_terminated = []) (slot : Ptr)
    (pthread_join : pthread_t → Ptr → Int × Ptr) (wakeups : List (List pthread_t)) :
    ∃ more, (m.condWait slot pthread_join wakeups).calls =
      [Call.mutex_lock m.m_cond_mutex, Call.mutex_lock m.m_mutex, Call.mutex_unlock m.m_mutex,
        Call.cond_wait m.m_cond_var m.m_cond_mutex] ++ more := by
  have hne : m.no_threads_terminated.ret = true := by
    simp [no_threads_terminated, h]
  cases wakeups with
  | nil =>
    refine ⟨[], ?_⟩
    simp only [condWait, condWaitLoop]
    rw [if_pos hne]
    simp [Wait.calls, no_threads_terminated]
  | cons w ws =>
    obtain ⟨more, hmore⟩ := condWaitLoop_calls_prefix slot pthread_join ws (m.complete w)
      ([Call.mutex_lock m.m_cond_mutex] ++ m.no_threads_terminated.calls
        ++ [Call.cond_wait m.m_cond_var m.m_cond_mutex])
    refine ⟨more, ?_⟩
    simp only [condWait, condWaitLoop, hne, if_true]
    rw [hmore]
    simp [no_threads_terminated]

end ThreadMgr

namespace ThreadMgr

theorem createThread_of_created (m : ThreadMgr) (this f a : Ptr)
    (pthread_create : func_arguments → Int × pthread_t) (t : pthread_t)
    (hc : pthread_create ⟨f, NULL, a, this⟩ = (0, t)) :
    m.createThread this f a pthread_create =
      { ret := t
        mgr := { m with m_ids := m.m_ids.insert t ⟨f, NULL, a, this⟩ }
        calls := [Call.create ⟨f, NULL, a, this⟩, Call.mutex_lock m.m_mutex,
          Call.mutex_unlock m.m_mutex] } := by
  simp only [createThread, hc, if_true, addID]

theorem createThread_of_failed (m : ThreadMgr) (this f a : Ptr)
    (pthread_create : func_arguments → Int × pthread_t)
    (hc : (pthread_create ⟨f, NULL, a, this⟩).1 ≠ 0) :
    m.createThread this f a pthread_create =
      { ret := 0, mgr := m, calls := [Call.create ⟨f, NULL, a, this⟩] } := by
  simp only [createThread, hc, if_false]

end ThreadMgr

/-! ## Facts about executions -/

theorem Progress.inv_start (slot : Ptr) : (Progress.start slot).Inv where
  spawned_nodup := List.nodup_nil
  stack_nodup := List.nodup_nil
  reaped_nodup := List.nodup_nil
  stack_finished := fun t ht => by simp [Progress.start, ThreadMgr.new] at ht
  stack_not_reaped := fun t ht => by simp [Progress.start, ThreadMgr.new] at ht
  finished_spawned := fun t ht => by simp [Progress.start] at ht
  reaped_finished := fun t ht => by simp [Progress.start] at ht
  registry := fun t => by
    simp [Progress.start, ThreadMgr.new, IdMap.empty, IdMap.find, findEntry]
  count := rfl
  active_ne_zero := fun c hc => by simp [Progress.start] at hc
  finished_nodup := List.nodup_nil

theorem stepExec_createThread_inv (this : Ptr) (pthread_join : pthread_t → Ptr → Int × Ptr)
    (p p1 : Progress) (f a : Ptr) (tid : pthread_t) (hp : p.Inv)
    (hs : stepExec this pthread_join p (Event.createThread f a tid) = some p1) : p1.Inv := by
  simp only [stepExec] at hs
  split at hs
  · exact absurd hs (by simp)
  · rename_i hnew
    have hc := ThreadMgr.createThread_of_created p.mgr this f a (fun _ => (0, tid)) tid rfl
    rw [hc] at hs
    have hp1 := (Option.some.inj hs).symm
    have hnone : p.mgr.m_ids.find tid = none := by
      by_contra hne
      exact hnew ((hp.registry tid).1 hne).1
    subst hp1
    refine ⟨?_, hp.stack_nodup, hp.reaped_nodup, hp.stack_finished, hp.stack_not_reaped,
      ?_, hp.reaped_finished, ?_, ?_, hp.active_ne_zero, hp.finished_nodup⟩
    · exact List.Nodup.append hp.spawned_nodup (List.nodup_singleton tid)
        (by simpa using hnew)
    · intro t ht
      exact List.mem_append_left _ (hp.finished_spawned t ht)
    · intro t
      by_cases ht : t = tid
      · subst ht
        simp only [ne_eq, List.mem_append, List.mem_singleton, or_true, true_and]
        rw [IdMap.find_insert_self p.mgr.m_ids t _ hnone]
        simp only [reduceCtorEq, not_false_eq_true, true_iff]
        intro hr
        exact hnew (hp.finished_spawned t (hp.reaped_finished t hr))
      · simp only [ne_eq, List.mem_append, List.mem_singleton, ht, or_false]
        rw [IdMap.find_insert_ne p.mgr.m_ids tid t _ ht]
        exact hp.registry t
    · have h1 := IdMap.size_insert_of_find_none p.mgr.m_ids tid ⟨f, NULL, a, this⟩ hnone
      have h2 := hp.count
      simp only [List.length_append, List.length_singleton]
      omega

theorem stepExec_addTerminated_inv (this : Ptr) (pthread_join : pthread_t → Ptr → Int × Ptr)
    (p p1 : Progress) (tid : pthread_t) (hp : p.Inv)
    (hs : stepExec this pthread_join p (Event.addTerminated tid) = some p1) : p1.Inv := by
  simp only [stepExec] at hs
  split at hs
  · rename_i hok
    have hp1 := (Option.some.inj hs).symm
    subst hp1
    refine ⟨hp.spawned_nodup, ?_, hp.reaped_nodup, ?_, ?_, ?_, ?_, hp.registry, hp.count,
      hp.active_ne_zero,
      List.Nodup.append hp.finished_nodup (List.nodup_singleton tid) (by simpa using hok.2)⟩
    · exact List.nodup_cons.2 ⟨fun hmem => hok.2 (hp.stack_finished tid hmem), hp.stack_nodup⟩
    · intro t ht
      rcases List.mem_cons.1 ht with h1 | h1
      · rw [h1]; exact List.mem_append_right _ (List.mem_singleton_self tid)
      · exact List.mem_append_left _ (hp.stack_finished t h1)
    · intro t ht
      rcases List.mem_cons.1 ht with h1 | h1
      · rw [h1]; exact fun hr => hok.2 (hp.reaped_finished tid hr)
      · exact hp.stack_not_reaped t h1
    · intro t ht
      rcases List.mem_append.1 ht with h1 | h1
      · exact hp.finished_spawned t h1
      · rw [List.mem_singleton.1 h1]; exact hok.1
    · intro t ht
      exact List.mem_append_left _ (hp.reaped_finished t ht)
  · exact absurd hs (by simp)

theorem stepExec_condWait_inv (this : Ptr) (pthread_join : pthread_t → Ptr → Int × Ptr)
    (p p1 : Progress) (hp : p.Inv)
    (hs : stepExec this pthread_join p Event.condWait = some p1) : p1.Inv := by
  cases hst : p.mgr.m_terminated with
  | nil =>
    have hsus : p.mgr.condWait p.slot pthread_join [] =
        Wait.suspended p.mgr ([Call.mutex_lock p.mgr.m_cond_mutex]
          ++ p.mgr.no_threads_terminated.calls
          ++ [Call.cond_wait p.mgr.m_cond_var p.mgr.m_cond_mutex]) := by
      simp [ThreadMgr.condWait, ThreadMgr.condWaitLoop, ThreadMgr.no_threads_terminated, hst]
    simp only [stepExec, hsus] at hs
    exact absurd hs (by simp)
  | cons t rest =>
    have hw := ThreadMgr.condWait_of_terminated p.mgr t rest hst p.slot pthread_join []
    have hcalls := ThreadMgr.removeTerminated_calls_of_terminated p.mgr t rest hst p.slot
      pthread_join
    simp only [stepExec, hw] at hs
    split at hs
    · rename_i hret
      have hj : (pthread_join t p.slot).1 = 0 := by
        by_contra hne
        rw [ThreadMgr.removeTerminated_of_join_failed p.mgr t rest hst p.slot pthread_join hne]
          at hret
        exact hne hret
      have hjoined : joinedIds ([Call.mutex_lock p.mgr.m_cond_mutex]
          ++ p.mgr.no_threads_terminated.calls
          ++ (p.mgr.removeTerminated p.slot pthread_join).calls
          ++ [Call.mutex_unlock p.mgr.m_cond_mutex]) = [t] := by
        rw [hcalls]; rfl
      rw [hjoined, ThreadMgr.removeTerminated_of_join_ok p.mgr t rest hst p.slot pthread_join hj]
        at hs
      have hp1 := (Option.some.inj hs).symm
      subst hp1
      have hnd := List.nodup_cons.1 (hst ▸ hp.stack_nodup)
      have htf : t ∈ p.finished := hp.stack_finished t (by rw [hst]; exact List.mem_cons_self _ _)
      have htr : t ∉ p.reaped := hp.stack_not_reaped t (by rw [hst]; exact List.mem_cons_self _ _)
      have hkey : p.mgr.m_ids.find t ≠ none :=
        (hp.registry t).2 ⟨hp.finished_spawned t htf, htr⟩
      refine ⟨hp.spawned_nodup, hnd.2, ?_, ?_, ?_, hp.finished_spawned, ?_, ?_, ?_, ?_,
        hp.finished_nodup⟩
      · exact List.Nodup.append hp.reaped_nodup (List.nodup_singleton t) (by simpa using htr)
      · intro j hjm
        exact hp.stack_finished j (by rw [hst]; exact List.mem_cons_of_mem _ hjm)
      · intro j hjm hjr
        rcases List.mem_append.1 hjr with h1 | h1
        · exact hp.stack_not_reaped j (by rw [hst]; exact List.mem_cons_of_mem _ hjm) h1
        · rw [List.mem_singleton.1 h1] at hjm
          exact hnd.1 hjm
      · intro j hjr
        rcases List.mem_append.1 hjr with h1 | h1
        · exact hp.reaped_finished j h1
        · rw [List.mem_singleton.1 h1]; exact htf
      · intro j
        by_cases hjt : j = t
        · subst hjt
          simp only [ne_eq, List.mem_append, List.mem_singleton, or_true, not_true_eq_false,
            and_false, iff_false, not_not]
          exact IdMap.find_erase_self p.mgr.m_ids j
        · simp only [ne_eq, List.mem_append, List.mem_singleton, hjt, or_false]
          rw [IdMap.find_erase_ne p.mgr.m_ids t j hjt]
          exact hp.registry j
      · cases hf : p.mgr.m_ids.find t with
        | none => exact absurd hf hkey
        | some v =>
          have h1 := IdMap.size_erase_of_find_some p.mgr.m_ids t v hf
          have h2 := hp.count
          simp only [List.length_append, List.length_singleton]
          omega
      · intro c hc
        rcases List.mem_append.1 hc with h1 | h1
        · exact hp.active_ne_zero c h1
        · rw [List.mem_singleton.1 h1]
          cases hf : p.mgr.m_ids.find t with
          | none => exact absurd hf hkey
          | some v =>
            have h1 := IdMap.size_erase_of_find_some p.mgr.m_ids t v hf
            simp only [ThreadMgr.threadsActive]
            omega
    · exact absurd hs (by simp)

theorem stepExec_inv (this : Ptr) (pthread_join : pthread_t → Ptr → Int × Ptr)
    (p p1 : Progress) (e : Event) (hp : p.Inv)
    (hs : stepExec this pthread_join p e = some p1) : p1.Inv := by
  cases e with
  | createThread f a tid => exact stepExec_createThread_inv this pthread_join p p1 f a tid hp hs
  | addTerminated tid => exact stepExec_addTerminated_inv this pthread_join p p1 tid hp hs
  | condWait => exact stepExec_condWait_inv this pthread_join p p1 hp hs

namespace ThreadMgr

theorem addID_complete_comm (m : ThreadMgr) (id : pthread_t) (arg : func_arguments)
    (ws : List pthread_t) :
    ((m.complete ws).addID id arg).mgr = (m.addID id arg).mgr.complete ws := by
  induction ws generalizing m with
  | nil => rfl
  | cons w rest ih => exact ih (m.addTerminated w).mgr

theorem condWaitLoop_log_irrelevant (slot : Ptr) (pthread_join : pthread_t → Ptr → Int × Ptr)
    (wakeups : List (List pthread_t)) (m : ThreadMgr) (log1 log2 : List Call) :
    (condWaitLoop slot pthread_join wakeups m log1).status
      = (condWaitLoop slot pthread_join wakeups m log2).status ∧
    (condWaitLoop slot pthread_join wakeups m log1).mgr
      = (condWaitLoop slot pthread_join wakeups m log2).mgr ∧
    (condWaitLoop slot pthread_join wakeups m log1).slot
      = (condWaitLoop slot pthread_join wakeups m log2).slot := by
  induction wakeups generalizing m log1 log2 with
  | nil =>
    simp only [condWaitLoop]
    split <;> exact ⟨rfl, rfl, rfl⟩
  | cons w ws ih =>
    simp only [condWaitLoop]
    split
    · exact ih _ _ _
    · exact ⟨rfl, rfl, rfl⟩

theorem condWait_after_wakeup (m : ThreadMgr) (h : m.m_terminated = []) (slot : Ptr)
    (pthread_join : pthread_t → Ptr → Int × Ptr) (w : List pthread_t)
    (wakeups : List (List pthread_t)) :
    (m.condWait slot pthread_join (w :: wakeups)).status
      = ((m.complete w).condWait slot pthread_join wakeups).status ∧
    (m.condWait slot pthread_join (w :: wakeups)).mgr
      = ((m.complete w).condWait slot pthread_join wakeups).mgr ∧
    (m.condWait slot pthread_join (w :: wakeups)).slot
      = ((m.complete w).condWait slot pthread_join wakeups).slot := by
  have hne : m.no_threads_terminated.ret = true := by
    simp [no_threads_terminated, h]
  simp only [condWait, condWaitLoop, hne, if_true]
  exact condWaitLoop_log_irrelevant slot pthread_join wakeups (m.complete w) _ _

end ThreadMgr

theorem stepExec_history (this : Ptr) (pthread_join : pthread_t → Ptr → Int × Ptr)
    (p p1 : Progress) (e : Event) (hs : stepExec this pthread_join p e = some p1) :
    p1.spawned = p.spawned ++ spawnedIds [e] ∧
    p1.reaped.length = p.reaped.length + waitCount [e] ∧
    p1.active.length = p.active.length + waitCount [e] := by
  cases e with
  | createThread f a tid =>
    simp only [stepExec] at hs
    split at hs
    · exact absurd hs (by simp)
    · rw [ThreadMgr.createThread_of_created p.mgr this f a (fun _ => (0, tid)) tid rfl] at hs
      have hp1 := (Option.some.inj hs).symm
      subst hp1
      exact ⟨rfl, rfl, rfl⟩
  | addTerminated tid =>
    simp only [stepExec] at hs
    split at hs
    · have hp1 := (Option.some.inj hs).symm
      subst hp1
      exact ⟨(List.append_nil _).symm, rfl, rfl⟩
    · exact absurd hs (by simp)
  | condWait =>
    cases hst : p.mgr.m_terminated with
    | nil =>
      have hsus : p.mgr.condWait p.slot pthread_join [] =
          Wait.suspended p.mgr ([Call.mutex_lock p.mgr.m_cond_mutex]
            ++ p.mgr.no_threads_terminated.calls
            ++ [Call.cond_wait p.mgr.m_cond_var p.mgr.m_cond_mutex]) := by
        simp [ThreadMgr.condWait, ThreadMgr.condWaitLoop, ThreadMgr.no_threads_terminated, hst]
      simp only [stepExec, hsus] at hs
      exact absurd hs (by simp)
    | cons t rest =>
      have hw := ThreadMgr.condWait_of_terminated p.mgr t rest hst p.slot pthread_join []
      have hcalls := ThreadMgr.removeTerminated_calls_of_terminated p.mgr t rest hst p.slot
        pthread_join
      simp only [stepExec, hw] at hs
      split at hs
      · have hjoined : joinedIds ([Call.mutex_lock p.mgr.m_cond_mutex]
            ++ p.mgr.no_threads_terminated.calls
            ++ (p.mgr.removeTerminated p.slot pthread_join).calls
            ++ [Call.mutex_unlock p.mgr.m_cond_mutex]) = [t] := by
          rw [hcalls]; rfl
        rw [hjoined] at hs
        have hp1 := (Option.some.inj hs).symm
        subst hp1
        refine ⟨(List.append_nil _).symm, ?_, ?_⟩
        · simp [waitCount]
        · simp [waitCount]
      · exact absurd hs (by simp)

theorem spawnedIds_cons (e : Event) (es : List Event) :
    spawnedIds (e :: es) = spawnedIds [e] ++ spawnedIds es := by
  cases e <;> rfl

theorem waitCount_cons (e : Event) (es : List Event) :
    waitCount (e :: es) = waitCount [e] + waitCount es := by
  cases e <;> simp [waitCount]
  omega

theorem exec_inv_history (this : Ptr) (pthread_join : pthread_t → Ptr → Int × Ptr)
    (es : List Event) (p p1 : Progress) (hp : p.Inv)
    (hs : exec this pthread_join es p = some p1) :
    p1.Inv ∧ p1.spawned = p.spawned ++ spawnedIds es ∧
    p1.reaped.length = p.reaped.length + waitCount es ∧
    p1.active.length = p.active.length + waitCount es := by
  induction es generalizing p with
  | nil =>
    have hp1 := (Option.some.inj hs).symm
    subst hp1
    exact ⟨hp, (List.append_nil _).symm, rfl, rfl⟩
  | cons e es ih =>
    simp only [exec] at hs
    cases hstep : stepExec this pthread_join p e with
    | none => rw [hstep] at hs; exact absurd hs (by simp)
    | some p2 =>
      rw [hstep] at hs
      have h2 := stepExec_history this pthread_join p p2 e hstep
      have h3 := ih p2 (stepExec_inv this pthread_join p p2 e hp hstep) hs
      refine ⟨h3.1, ?_, ?_, ?_⟩
      · rw [h3.2.1, h2.1, spawnedIds_cons e es, List.append_assoc]
      · rw [h3.2.2.1, h2.2.1, waitCount_cons e es, Nat.add_assoc]
      · rw [h3.2.2.2, h2.2.2, waitCount_cons e es, Nat.add_assoc]

/-! ## Facts about the locks -/

theorem condWaitArgs_append (xs ys : List Call) :
    condWaitArgs (xs ++ ys) = condWaitArgs xs ++ condWaitArgs ys := by
  induction xs with
  | nil => rfl
  | cons c rest ih =>
    cases c <;> simp [condWaitArgs, ih]

namespace ThreadMgr

theorem complete_samePointers (m : ThreadMgr) (ws : List pthread_t) :
    samePointers (m.complete ws) m := by
  induction ws generalizing m with
  | nil => exact ⟨rfl, rfl, rfl⟩
  | cons w rest ih => exact ih (m.addTerminated w).mgr

theorem removeTerminated_samePointers (m : ThreadMgr) (slot : Ptr)
    (pthread_join : pthread_t → Ptr → Int × Ptr) :
    samePointers (m.removeTerminated slot pthread_join).mgr m := by
  simp only [removeTerminated]
  split
  · exact ⟨rfl, rfl, rfl⟩
  · split <;> exact ⟨rfl, rfl, rfl⟩

theorem removeTerminated_condWaitArgs (m : ThreadMgr) (slot : Ptr)
    (pthread_join : pthread_t → Ptr → Int × Ptr) :
    condWaitArgs (m.removeTerminated slot pthread_join).calls = [] := by
  simp only [removeTerminated]
  split
  · rfl
  · split <;> rfl

theorem condWaitLoop_condWaitArgs (slot : Ptr) (pthread_join : pthread_t → Ptr → Int × Ptr)
    (wakeups : List (List pthread_t)) (m : ThreadMgr) (log : List Call)
    (hlog : ∀ x ∈ condWaitArgs log, x = (m.m_cond_var, m.m_cond_mutex)) :
    (∀ x ∈ condWaitArgs (condWaitLoop slot pthread_join wakeups m log).calls,
      x = (m.m_cond_var, m.m_cond_mutex)) ∧
    samePointers (condWaitLoop slot pthread_join wakeups m log).mgr m := by
  induction wakeups generalizing m log with
  | nil =>
    simp only [condWaitLoop]
    split
    · refine ⟨?_, rfl, rfl, rfl⟩
      intro x hx
      simp only [Wait.calls, condWaitArgs_append, List.mem_append] at hx
      rcases hx with (h1 | h1) | h1
      · exact hlog x h1
      · simp [no_threads_terminated, condWaitArgs] at h1
      · simpa [condWaitArgs] using h1
    · refine ⟨?_, removeTerminated_samePointers m slot pthread_join⟩
      intro x hx
      simp only [Wait.calls, condWaitArgs_append, List.mem_append,
        removeTerminated_condWaitArgs] at hx
      rcases hx with ((h1 | h1) | h1) | h1
      · exact hlog x h1
      · simp [no_threads_terminated, condWaitArgs] at h1
      · simp at h1
      · simp [condWaitArgs] at h1
  | cons w ws ih =>
    simp only [condWaitLoop]
    split
    · have hp := complete_samePointers m w
      have h := ih (m.complete w)
        (log ++ m.no_threads_terminated.calls ++ [Call.cond_wait m.m_cond_var m.m_cond_mutex])
        (by
          intro x hx
          simp only [condWaitArgs_append, List.mem_append] at hx
          rw [hp.2.2, hp.2.1]
          rcases hx with (h1 | h1) | h1
          · exact hlog x h1
          · simp [no_threads_terminated, condWaitArgs] at h1
          · simpa [condWaitArgs] using h1)
      refine ⟨?_, ?_⟩
      · intro x hx
        rw [← hp.2.2, ← hp.2.1]
        exact h.1 x hx
      · exact ⟨h.2.1.trans hp.1, h.2.2.1.trans hp.2.1, h.2.2.2.trans hp.2.2⟩
    · refine ⟨?_, removeTerminated_samePointers m slot pthread_join⟩
      intro x hx
      simp only [Wait.calls, condWaitArgs_append, List.mem_append,
        removeTerminated_condWaitArgs] at hx
      rcases hx with ((h1 | h1) | h1) | h1
      · exact hlog x h1
      · simp [no_threads_terminated, condWaitArgs] at h1
      · simp at h1
      · simp [condWaitArgs] at h1

end ThreadMgr

namespace ThreadMgr

theorem condWait_eq_of_top (m : ThreadMgr) (t : pthread_t) (rest : List pthread_t)
    (h : m.m_terminated = t :: rest) (slot v : Ptr)
    (pthread_join : pthread_t → Ptr → Int × Ptr) (hj : pthread_join t slot = (0, v))
    (wakeups : List (List pthread_t)) :
    m.condWait slot pthread_join wakeups =
      Wait.returned 0 { m with m_ids := m.m_ids.erase t, m_terminated := rest } v
        ([Call.mutex_lock m.m_cond_mutex] ++ m.no_threads_terminated.calls ++
          [Call.mutex_lock m.m_mutex, Call.join t, Call.mutex_unlock m.m_mutex] ++
          [Call.mutex_unlock m.m_cond_mutex]) := by
  have hj0 : (pthread_join t slot).1 = 0 := by rw [hj]
  rw [condWait_of_terminated m t rest h slot pthread_join wakeups,
    removeTerminated_of_join_ok m t rest h slot pthread_join hj0, hj]

theorem condWait_reaps_top (m : ThreadMgr) (t : pthread_t) (rest : List pthread_t)
    (h : m.m_terminated = t :: rest) (slot v : Ptr)
    (pthread_join : pthread_t → Ptr → Int × Ptr) (hj : pthread_join t slot = (0, v))
    (wakeups : List (List pthread_t)) :
    (m.condWait slot pthread_join wakeups).status = some 0 ∧
    (m.condWait slot pthread_join wakeups).joined = [t] ∧
    (m.condWait slot pthread_join wakeups).slot = some v ∧
    (m.condWait slot pthread_join wakeups).mgr
      = { m with m_ids := m.m_ids.erase t, m_terminated := rest } := by
  have hj0 : (pthread_join t slot).1 = 0 := by rw [hj]
  have hw := condWait_of_terminated m t rest h slot pthread_join wakeups
  rw [removeTerminated_of_join_ok m t rest h slot pthread_join hj0] at hw
  refine ⟨?_, joined_condWait_of_terminated m t rest h slot pthread_join wakeups, ?_, ?_⟩
  · rw [hw]; rfl
  · rw [hw]; simp only [Wait.slot, hj]
  · rw [hw]; rfl

end ThreadMgr

/-! ## Facts about `Tmycpy` -/

theorem copyLoop_first_zero (a b : List Int) (k : Nat) (count : Int)
    (hzero : a[k]? = some 0) (hfirst : ∀ i, i < k → a[i]? ≠ some 0)
    (hlen : a.length ≤ b.length) (hcount : count + k ≤ INT_MAX) :
    copyLoop a b count = some (a.take (k + 1) ++ b.drop (k + 1), count + k) := by
  induction a generalizing b k count with
  | nil => simp at hzero
  | cons x as ih =>
    cases b with
    | nil => simp at hlen
    | cons y bs =>
      cases k with
      | zero =>
        have hx : x = 0 := by simpa using hzero
        simp [copyLoop, hx]
      | succ k =>
        have hx : x ≠ 0 := by
          intro h0
          exact hfirst 0 (Nat.succ_pos k) (by simp [h0])
        have hz1 : as[k]? = some 0 := by simpa using hzero
        have hf1 : ∀ i, i < k → as[i]? ≠ some 0 := by
          intro i hi
          have := hfirst (i + 1) (Nat.succ_lt_succ hi)
          simpa using this
        have hl1 : as.length ≤ bs.length := by simpa using hlen
        have hc0 : count < INT_MAX := by
          have : (0 : Int) ≤ (k : Int) := Int.ofNat_nonneg k
          push_cast at hcount
          omega
        have hc1 : count + 1 + (k : Int) ≤ INT_MAX := by
          push_cast at hcount
          omega
        have h := ih bs k (count + 1) hz1 hf1 hl1 hc1
        simp only [copyLoop, hx, ne_eq, not_false_eq_true, if_true, hc0, h]
        simp only [List.take_succ_cons, List.drop_succ_cons, List.cons_append]
        congr 2
        push_cast
        omega

/-! ## Facts about histories -/

theorem IdMap.find_insert_key_ne_none (m : IdMap) (k : pthread_t) (v : func_arguments) :
    (m.insert k v).find k ≠ none := by
  cases hf : m.find k with
  | none => rw [IdMap.find_insert_self m k v hf]; simp
  | some w => rw [IdMap.insert_of_find_some m k v w hf, hf]; simp

namespace History

theorem removeTerminated_cases (m : ThreadMgr) (slot : Ptr) (ret : Int) (value : Ptr) :
    (m.m_terminated = [] ∧ (m.removeTerminated slot (fun _ _ => (ret, value))).mgr = m ∧
      reapedBy (m.removeTerminated slot (fun _ _ => (ret, value))) = []) ∨
    (∃ t rest, m.m_terminated = t :: rest ∧ ret = 0 ∧
      (m.removeTerminated slot (fun _ _ => (ret, value))).mgr
        = { m with m_ids := m.m_ids.erase t, m_terminated := rest } ∧
      reapedBy (m.removeTerminated slot (fun _ _ => (ret, value))) = [t]) ∨
    (∃ t rest, m.m_terminated = t :: rest ∧ ret ≠ 0 ∧
      (m.removeTerminated slot (fun _ _ => (ret, value))).mgr = m ∧
      reapedBy (m.removeTerminated slot (fun _ _ => (ret, value))) = []) := by
  cases hst : m.m_terminated with
  | nil =>
    left
    refine ⟨rfl, ?_, ?_⟩
    · simp only [ThreadMgr.removeTerminated, hst]
    · simp only [reapedBy, ThreadMgr.removeTerminated, hst]
      rfl
  | cons t rest =>
    right
    by_cases hr : ret = 0
    · left
      have hj : ((fun _ _ => (ret, value) : pthread_t → Ptr → Int × Ptr) t slot).1 = 0 := hr
      refine ⟨t, rest, rfl, hr, ?_, ?_⟩
      · rw [ThreadMgr.removeTerminated_of_join_ok m t rest hst slot _ hj]
      · rw [reapedBy, ThreadMgr.removeTerminated_of_join_ok m t rest hst slot _ hj]
        rfl
    · right
      have hj : ((fun _ _ => (ret, value) : pthread_t → Ptr → Int × Ptr) t slot).1 ≠ 0 := hr
      refine ⟨t, rest, rfl, hr, ?_, ?_⟩
      · rw [ThreadMgr.removeTerminated_of_join_failed m t rest hst slot _ hj]
      · rw [reapedBy, ThreadMgr.removeTerminated_of_join_failed m t rest hst slot _ hj]
        simp only [hr, if_false]

theorem registryInv_start (slot : Ptr) : RegistryInv (start slot) := by
  intro t
  simp [start, ThreadMgr.new, IdMap.empty, IdMap.find, findEntry]

theorem stackInv_start (slot : Ptr) : StackInv (start slot) := by
  refine ⟨List.nodup_nil, fun t => ?_⟩
  simp [start, ThreadMgr.new]

theorem registryInv_step (this : Ptr) (h : History) (s : Step) (hinv : RegistryInv h) :
    RegistryInv (h.step this s) := by
  cases s with
  | createThread f a ret_val tid =>
    by_cases hr : ret_val = 0
    · subst hr
      intro t
      simp only [step, if_true]
      rw [ThreadMgr.createThread_of_created h.mgr this f a (fun _ => (0, tid)) tid rfl]
      by_cases ht : t = tid
      · subst ht
        simp only [ne_eq, List.mem_cons, true_or, List.mem_filter, decide_not,
          Bool.not_eq_true', decide_eq_false_iff_not, not_true_eq_false, and_false,
          not_false_eq_true, and_self, iff_true]
        exact IdMap.find_insert_key_ne_none h.mgr.m_ids t _
      · simp only [ne_eq, List.mem_cons, ht, false_or, List.mem_filter, decide_not,
          Bool.not_eq_true', decide_eq_false_iff_not, not_false_eq_true, and_true]
        rw [IdMap.find_insert_ne h.mgr.m_ids tid t _ ht]
        exact hinv t
    · intro t
      simp only [step, hr, if_false]
      rw [ThreadMgr.createThread_of_failed h.mgr this f a (fun _ => (ret_val, tid)) hr]
      exact hinv t
  | addTerminated tid => exact hinv
  | removeTerminated ret value =>
    intro t
    rcases removeTerminated_cases h.mgr h.slot ret value with h1 | h1 | h1
    · obtain ⟨_, hm, hre⟩ := h1
      simp only [step, hm, hre, List.not_mem_nil, not_false_eq_true, decide_True,
        List.filter_true]
      exact hinv t
    · obtain ⟨t0, rest, _, _, hm, hre⟩ := h1
      simp only [step, hm, hre, List.mem_singleton, List.mem_filter, decide_not,
        Bool.not_eq_true', decide_eq_false_iff_not]
      by_cases ht : t = t0
      · subst ht
        simp only [ne_eq, not_true_eq_false, and_false, false_and, iff_false, not_not]
        exact IdMap.find_erase_self h.mgr.m_ids t
      · simp only [ne_eq, ht, not_false_eq_true, and_true]
        rw [IdMap.find_erase_ne h.mgr.m_ids t0 t ht]
        exact hinv t
    · obtain ⟨t0, rest, _, _, hm, hre⟩ := h1
      simp only [step, hm, hre, List.not_mem_nil, not_false_eq_true, decide_True,
        List.filter_true]
      exact hinv t
  | cancel_thread tid ret =>
    intro t
    simp only [step, ThreadMgr.cancel_thread]
    by_cases ht : t = tid
    · subst ht
      simp only [ne_eq, List.mem_cons, true_or, not_true_eq_false, and_false, iff_false,
        not_not]
      exact IdMap.find_erase_self h.mgr.m_ids t
    · simp only [ne_eq, List.mem_cons, ht, false_or]
      rw [IdMap.find_erase_ne h.mgr.m_ids tid t ht]
      exact hinv t

theorem registryInv_run (this : Ptr) (steps : List Step) (h : History) (hinv : RegistryInv h) :
    RegistryInv (run this steps h) := by
  induction steps generalizing h with
  | nil => exact hinv
  | cons s rest ih => exact ih (h.step this s) (registryInv_step this h s hinv)

end History

namespace History

theorem stackInv_step (this : Ptr) (h : History) (s : Step) (hinv : StackInv h)
    (hok : finishesOnce h s) : StackInv (h.step this s) := by
  cases s with
  | createThread f a ret_val tid =>
    by_cases hr : ret_val = 0
    · subst hr
      simp only [StackInv, step, if_true]
      rw [ThreadMgr.createThread_of_created h.mgr this f a (fun _ => (0, tid)) tid rfl]
      exact hinv
    · simp only [StackInv, step, hr, if_false]
      rw [ThreadMgr.createThread_of_failed h.mgr this f a (fun _ => (ret_val, tid)) hr]
      exact hinv
  | addTerminated tid =>
    have hnew : tid ∉ h.finished := hok
    refine ⟨?_, ?_⟩
    · exact List.nodup_cons.2 ⟨fun hmem => hnew ((hinv.2 tid).1 hmem), hinv.1⟩
    · intro t
      show t ∈ tid :: h.mgr.m_terminated ↔ t ∈ tid :: h.finished
      simp only [List.mem_cons, hinv.2 t]
  | removeTerminated ret value =>
    rcases removeTerminated_cases h.mgr h.slot ret value with h1 | h1 | h1
    · obtain ⟨_, hm, hre⟩ := h1
      simp only [StackInv, step, hm, hre, List.not_mem_nil, not_false_eq_true, decide_True,
        List.filter_true]
      exact hinv
    · obtain ⟨t0, rest, hst, _, hm, hre⟩ := h1
      simp only [StackInv, step, hm, hre, List.mem_singleton, List.mem_filter, decide_not,
        Bool.not_eq_true', decide_eq_false_iff_not]
      have hnd := List.nodup_cons.1 (hst ▸ hinv.1)
      refine ⟨hnd.2, fun t => ?_⟩
      have hiff := hinv.2 t
      rw [hst, List.mem_cons] at hiff
      constructor
      · intro hmem
        exact ⟨hiff.1 (Or.inr hmem), fun heq => hnd.1 (heq ▸ hmem)⟩
      · intro hmem
        rcases hiff.2 hmem.1 with h2 | h2
        · exact absurd h2 hmem.2
        · exact h2
    · obtain ⟨t0, rest, _, _, hm, hre⟩ := h1
      simp only [StackInv, step, hm, hre, List.not_mem_nil, not_false_eq_true, decide_True,
        List.filter_true]
      exact hinv
  | cancel_thread tid ret => exact hinv

theorem stackInv_run (this : Ptr) (steps : List Step) (h : History) (hinv : StackInv h)
    (hok : always this finishesOnce steps h) : StackInv (run this steps h) := by
  induction steps generalizing h with
  | nil => exact hinv
  | cons s rest ih => exact ih (h.step this s) (stackInv_step this h s hinv hok.1) hok.2

end History

theorem findEntry_ne_none_iff (k : pthread_t) (l : List (pthread_t × func_arguments)) :
    findEntry k l ≠ none ↔ k ∈ l.map Prod.fst := by
  induction l with
  | nil => simp [findEntry]
  | cons e rest ih =>
    simp only [findEntry, List.map_cons, List.mem_cons]
    split
    · rename_i h1
      simp [h1]
    · rename_i h1
      rw [ih]
      constructor
      · exact fun h => Or.inr h
      · rintro (h | h)
        · exact absurd h.symm h1
        · exact h

theorem IdMap.keys_nodup (m : IdMap) : m.keys.Nodup := by
  have h := m.ordered
  simp only [IdMap.keys, List.Nodup, List.pairwise_map]
  exact h.imp (fun hlt => Nat.ne_of_lt hlt)

theorem IdMap.find_ne_none_iff (m : IdMap) (k : pthread_t) :
    m.find k ≠ none ↔ k ∈ m.keys :=
  findEntry_ne_none_iff k m.entries

theorem IdMap.length_keys (m : IdMap) : m.keys.length = m.size := by
  simp [IdMap.keys, IdMap.size]

namespace History

/-- Without cancellation nothing is recorded as cancelled, and every finished,
unreaped worker is a spawned, unreaped worker. -/
theorem orderedInv_step (this : Ptr) (h : History) (s : Step)
    (hinv : h.cancelled = [] ∧ ∀ t ∈ h.finished, t ∈ h.unreaped)
    (hok : registeredFirst h s) :
    (h.step this s).cancelled = [] ∧ ∀ t ∈ (h.step this s).finished, t ∈ (h.step this s).unreaped := by
  cases s with
  | createThread f a ret_val tid =>
    by_cases hr : ret_val = 0
    · simp only [step, hr, if_true, hinv.1, List.filter_nil, true_and]
      intro t ht
      exact List.mem_cons_of_mem _ (hinv.2 t ht)
    · simp only [step, hr, if_false]
      exact hinv
  | addTerminated tid =>
    have hreg : tid ∈ h.unreaped ∧ tid ∉ h.finished := hok
    refine ⟨hinv.1, ?_⟩
    intro t ht
    rcases List.mem_cons.1 ht with h1 | h1
    · rw [h1]; exact hreg.1
    · exact hinv.2 t h1
  | removeTerminated ret value =>
    simp only [step, hinv.1, List.filter_nil, true_and]
    intro t ht
    rw [List.mem_filter] at ht ⊢
    exact ⟨hinv.2 t ht.1, ht.2⟩
  | cancel_thread tid ret => exact absurd hok (by simp [registeredFirst])

theorem finishesOnce_of_registeredFirst (h : History) (s : Step) (hok : registeredFirst h s) :
    finishesOnce h s := by
  cases s with
  | createThread f a ret_val tid => trivial
  | addTerminated tid => exact hok.2
  | removeTerminated ret value => trivial
  | cancel_thread tid ret => trivial

theorem orderedInv_run (this : Ptr) (steps : List Step) (h : History)
    (hinv : h.cancelled = [] ∧ ∀ t ∈ h.finished, t ∈ h.unreaped)
    (hok : always this registeredFirst steps h) :
    (run this steps h).cancelled = [] ∧
    (∀ t ∈ (run this steps h).finished, t ∈ (run this steps h).unreaped) ∧
    always this finishesOnce steps h := by
  induction steps generalizing h with
  | nil => exact ⟨hinv.1, hinv.2, trivial⟩
  | cons s rest ih =>
    have h1 := ih (h.step this s) (orderedInv_step this h s hinv hok.1) hok.2
    exact ⟨h1.1, h1.2.1, finishesOnce_of_registeredFirst h s hok.1, h1.2.2⟩

end History

/-! ## Facts about the steps of the controller -/

namespace Sys

theorem waitInv_start (slot : Ptr) : WaitInv (start slot) := by
  intro h
  rcases h with h | h <;> simp [start] at h

theorem waitInv_step (this : Ptr) (s s1 : Sys) (a : Act) (hinv : WaitInv s)
    (hs : s.step this a = some s1) : WaitInv s1 := by
  cases a with
  | createThread f x ret_val tid =>
    simp only [step] at hs
    split at hs
    · rename_i hpc
      have h1 := (Option.some.inj hs).symm
      subst h1
      intro h
      rcases h with h | h <;> simp [hpc] at h
    · exact absurd hs (by simp)
  | cancel_thread tid ret =>
    simp only [step] at hs
    split at hs
    · rename_i hpc
      have h1 := (Option.some.inj hs).symm
      subst h1
      intro h
      rcases h with h | h <;> simp [hpc] at h
    · exact absurd hs (by simp)
  | lock =>
    simp only [step] at hs
    split at hs
    · have h1 := (Option.some.inj hs).symm
      subst h1
      intro h
      rcases h with h | h <;> simp at h
    · exact absurd hs (by simp)
  | test =>
    simp only [step] at hs
    split at hs
    · have h1 := (Option.some.inj hs).symm
      subst h1
      intro h
      have hempty : s.mgr.m_terminated = [] := by
        by_contra hne
        have hfalse : s.mgr.no_threads_terminated.ret = false := by
          simp [ThreadMgr.no_threads_terminated, hne]
        rcases h with h | h <;> simp [hfalse] at h
      exact ⟨hempty, hempty⟩
    · exact absurd hs (by simp)
  | wait =>
    simp only [step] at hs
    split at hs
    · rename_i hpc
      have h1 := (Option.some.inj hs).symm
      subst h1
      intro _
      exact hinv (Or.inl hpc)
    · exact absurd hs (by simp)
  | wakeup =>
    simp only [step] at hs
    split at hs
    · have h1 := (Option.some.inj hs).symm
      subst h1
      intro h
      rcases h with h | h <;> simp at h
    · exact absurd hs (by simp)
  | reap ret value =>
    simp only [step] at hs
    split at hs
    · have h1 := (Option.some.inj hs).symm
      subst h1
      intro h
      rcases h with h | h <;> simp at h
    · exact absurd hs (by simp)
  | worker tid =>
    simp only [step] at hs
    split at hs
    · exact absurd hs (by simp)
    · have h1 := (Option.some.inj hs).symm
      subst h1
      intro h
      by_cases hpc : s.pc = Pc.suspended
      · rcases h with h | h <;> simp [hpc] at h
      · have hsl : s.pc = Pc.sleepy := by
          rcases h with h | h
          · simpa [hpc] using h
          · simp [hpc] at h
        have h2 := hinv (Or.inl hsl)
        refine ⟨h2.1, ?_⟩
        show tid :: s.mgr.m_terminated = tid :: s.pushed
        rw [h2.2]

theorem waitInv_run (this : Ptr) (acts : List Act) (s s1 : Sys) (hinv : WaitInv s)
    (hr : run this acts s = some s1) : WaitInv s1 := by
  induction acts generalizing s with
  | nil =>
    have h1 := (Option.some.inj hr).symm
    subst h1
    exact hinv
  | cons a rest ih =>
    simp only [run] at hr
    cases hstep : s.step this a with
    | none => rw [hstep] at hr; exact absurd hr (by simp)
    | some s2 =>
      rw [hstep] at hr
      exact ih s2 (waitInv_step this s s2 a hinv hstep) hr

end Sys

namespace Sys

/-- The steps `lock`, `test`, `reap` on a non-empty stack do what the function
`condWait` does. -/
theorem run_condWait_of_terminated (this : Ptr) (s : Sys) (t : pthread_t)
    (rest : List pthread_t) (hpc : s.pc = Pc.outside) (hst : s.mgr.m_terminated = t :: rest)
    (ret : Int) (value : Ptr) (wakeups : List (List pthread_t)) :
    run this [Act.lock, Act.test, Act.reap ret value] s =
      some { s with
        mgr := (s.mgr.condWait s.slot (fun _ _ => (ret, value)) wakeups).mgr
        slot := (s.mgr.removeTerminated s.slot (fun _ _ => (ret, value))).slot
        pc := Pc.outside
        tested := t :: rest
        pushed := [] } := by
  have hne : s.mgr.no_threads_terminated.ret = false := by
    simp [ThreadMgr.no_threads_terminated, hst]
  rw [ThreadMgr.condWait_of_terminated s.mgr t rest hst s.slot _ wakeups]
  simp [run, step, hpc, hne, hst, Wait.mgr, ThreadMgr.no_threads_terminated]

end Sys

/-- The wakeup of a worker can be lost: thread 5 is created, the controller
enters `condWait` and finds the stack empty, worker 5 then pushes its id and
broadcasts while nobody is waiting, and the controller goes to sleep with 5 on
the stack. -/
theorem wakeup_lost_between_test_and_wait :
    (Sys.run 0 [Act.createThread 7 0 0 5, Act.lock, Act.test, Act.worker 5, Act.wait]
      (Sys.start 0)).map Sys.pc = some Pc.suspended ∧
    (Sys.run 0 [Act.createThread 7 0 0 5, Act.lock, Act.test, Act.worker 5, Act.wait]
      (Sys.start 0)).map (fun s => s.mgr.m_terminated) = some [5] := by
  decide

/-! ## Facts about the threads of an object -/

theorem findEntry_eraseEntry_self_of_nodup (k : pthread_t)
    (l : List (pthread_t × func_arguments)) (h : (l.map Prod.fst).Nodup) :
    findEntry k (eraseEntry k l) = none := by
  induction l with
  | nil => rfl
  | cons e rest ih =>
    have hr := List.nodup_cons.1 h
    simp only [eraseEntry]
    split
    · rename_i h1
      by_contra hc
      exact hr.1 (by rw [h1]; exact (findEntry_ne_none_iff k rest).1 hc)
    · rename_i h1
      simp only [findEntry, h1, if_false]
      exact ih hr.2

theorem eraseEntry_keys_sublist (k : pthread_t) (l : List (pthread_t × func_arguments)) :
    ((eraseEntry k l).map Prod.fst).Sublist (l.map Prod.fst) := by
  induction l with
  | nil => exact List.Sublist.refl _
  | cons e rest ih =>
    simp only [eraseEntry]
    split
    · exact List.sublist_cons_self _ _
    · exact List.Sublist.cons₂ _ ih

namespace World

theorem registry_start (slot : Ptr) : RegistryInv (start slot) := by
  refine ⟨?_, ?_, ?_, ?_⟩
  · intro t h
    exact absurd rfl h
  · exact List.nodup_nil
  · intro t h
    exact absurd h (List.not_mem_nil t)
  · intro t
    simp [start, spawnedUnreaped, ThreadMgr.new, IdMap.empty, IdMap.find, findEntry]

theorem registry_step (this : Ptr) (user : Ptr → Ptr → Ptr) (w w1 : World) (x : Move)
    (hinv : RegistryInv w) (hok : registersInTime w x) (hstep : w.step this user x = some w1) :
    RegistryInv w1 := by
  cases x with
  | pthread_create f a ret_val tid =>
    simp only [step] at hstep
    split at hstep
    · split at hstep
      · rename_i hr hfresh
        cases hstep
        have hnp : findEntry tid w.pending = none := by
          by_contra hc
          exact hinv.pending_threads tid hc hfresh
        have hne : ∀ t, w.threads.find t ≠ none → t ≠ tid := by
          intro t ht hc
          rw [hc] at ht
          exact ht hfresh
        refine ⟨?_, ?_, ?_, ?_⟩
        · intro t ht
          by_cases htt : t = tid
          · rw [htt]
            exact IdMap.find_insert_key_ne_none w.threads tid _
          · have h1 : ¬ tid = t := fun h2 => htt h2.symm
            simp only [findEntry, h1, if_false] at ht
            rw [IdMap.find_insert_ne w.threads tid t _ htt]
            exact hinv.pending_threads t ht
        · simp only [List.map_cons, List.nodup_cons]
          exact ⟨fun hc => (findEntry_ne_none_iff tid w.pending).2 hc hnp, hinv.pending_nodup⟩
        · intro t ht
          have h0 := hinv.cancelled_threads t ht
          have htt : t ≠ tid := hne t h0.1
          have h1 : ¬ tid = t := fun h2 => htt h2.symm
          refine ⟨?_, ?_⟩
          · rw [IdMap.find_insert_ne w.threads tid t _ htt]
            exact h0.1
          · simp only [findEntry, h1, if_false]
            exact h0.2
        · intro t
          by_cases htt : t = tid
          · rw [htt]
            have hk : ¬ (w.mgr.m_ids.find tid ≠ none) := fun hc =>
              (((hinv.keys tid).1 hc).1.1) hfresh
            simp only [spawnedUnreaped, findEntry, if_true]
            constructor
            · intro hc
              exact absurd hc hk
            · intro hc
              exact absurd hc.1.2 (by simp)
          · have h1 : ¬ tid = t := fun h2 => htt h2.symm
            simp only [spawnedUnreaped, findEntry, h1, if_false]
            rw [IdMap.find_insert_ne w.threads tid t _ htt]
            exact hinv.keys t
      · exact absurd hstep (by simp)
    · cases hstep
      exact hinv
  | addID tid =>
    simp only [step] at hstep
    split at hstep
    · exact absurd hstep (by simp)
    · rename_i arguments hp
      cases hstep
      have hself : findEntry tid (eraseEntry tid w.pending) = none :=
        findEntry_eraseEntry_self_of_nodup tid w.pending hinv.pending_nodup
      have hpn : findEntry tid w.pending ≠ none := by rw [hp]; simp
      refine ⟨?_, ?_, ?_, ?_⟩
      · intro t ht
        by_cases htt : t = tid
        · rw [htt] at ht
          exact absurd hself ht
        · rw [findEntry_eraseEntry_ne tid t w.pending htt] at ht
          exact hinv.pending_threads t ht
      · exact hinv.pending_nodup.sublist (eraseEntry_keys_sublist tid w.pending)
      · intro t ht
        have h0 := hinv.cancelled_threads t ht
        have htt : t ≠ tid := by
          intro hc
          rw [hc] at h0
          exact hpn h0.2
        refine ⟨h0.1, ?_⟩
        rw [findEntry_eraseEntry_ne tid t w.pending htt]
        exact h0.2
      · intro t
        by_cases htt : t = tid
        · rw [htt]
          simp only [ThreadMgr.addID, spawnedUnreaped]
          constructor
          · intro _
            refine ⟨⟨hinv.pending_threads tid hpn, hself⟩, ?_⟩
            intro hc
            exact hpn (hinv.cancelled_threads tid hc).2
          · intro _
            exact IdMap.find_insert_key_ne_none w.mgr.m_ids tid _
        · simp only [ThreadMgr.addID, spawnedUnreaped]
          rw [IdMap.find_insert_ne w.mgr.m_ids tid t _ htt,
            findEntry_eraseEntry_ne tid t w.pending htt]
          exact hinv.keys t
  | returns tid =>
    simp only [step] at hstep
    split at hstep
    · cases hstep
      exact ⟨hinv.pending_threads, hinv.pending_nodup, hinv.cancelled_threads, hinv.keys⟩
    · exact absurd hstep (by simp)
  | addTerminated tid =>
    simp only [step] at hstep
    split at hstep
    · exact absurd hstep (by simp)
    · split at hstep
      · cases hstep
        exact ⟨hinv.pending_threads, hinv.pending_nodup, hinv.cancelled_threads, hinv.keys⟩
      · exact absurd hstep (by simp)
  | removeTerminated ret value =>
    simp only [step] at hstep
    cases hstep
    simp only [registersInTime] at hok
    rcases History.removeTerminated_cases w.mgr w.slot ret value with h1 | h1 | h1
    · obtain ⟨_, hm, hre⟩ := h1
      simp only [hm, hre, List.not_mem_nil, not_false_eq_true, decide_True, List.filter_true,
        List.foldl_nil]
      exact ⟨hinv.pending_threads, hinv.pending_nodup, hinv.cancelled_threads, hinv.keys⟩
    · obtain ⟨t0, rest, _, _, hm, hre⟩ := h1
      rw [hre] at hok
      have hp0 : findEntry t0 w.pending = none := hok t0 (List.mem_singleton_self t0)
      simp only [hm, hre, List.foldl_cons, List.foldl_nil, List.mem_singleton]
      refine ⟨?_, hinv.pending_nodup, ?_, ?_⟩
      · intro t ht
        have htt : t ≠ t0 := by
          intro hc
          rw [hc] at ht
          exact ht hp0
        rw [IdMap.find_erase_ne w.threads t0 t htt]
        exact hinv.pending_threads t ht
      · intro t ht
        simp only [List.mem_filter, decide_not, Bool.not_eq_true', decide_eq_false_iff_not] at ht
        have h0 := hinv.cancelled_threads t ht.1
        rw [IdMap.find_erase_ne w.threads t0 t ht.2]
        exact h0
      · intro t
        simp only [spawnedUnreaped, List.mem_filter, decide_not, Bool.not_eq_true',
          decide_eq_false_iff_not]
        by_cases htt : t = t0
        · rw [htt]
          constructor
          · intro hc
            exact absurd (IdMap.find_erase_self w.mgr.m_ids t0) hc
          · intro hc
            exact absurd (IdMap.find_erase_self w.threads t0) hc.1.1
        · rw [IdMap.find_erase_ne w.mgr.m_ids t0 t htt, IdMap.find_erase_ne w.threads t0 t htt]
          have h0 := hinv.keys t
          simp only [spawnedUnreaped] at h0
          rw [h0]
          constructor
          · intro hc
            exact ⟨hc.1, fun h2 => hc.2 h2.1⟩
          · intro hc
            exact ⟨hc.1, fun h2 => hc.2 ⟨h2, htt⟩⟩
    · obtain ⟨t0, rest, _, _, hm, hre⟩ := h1
      simp only [hm, hre, List.not_mem_nil, not_false_eq_true, decide_True, List.filter_true,
        List.foldl_nil]
      exact ⟨hinv.pending_threads, hinv.pending_nodup, hinv.cancelled_threads, hinv.keys⟩
  | cancel_thread tid ret =>
    simp only [step] at hstep
    cases hstep
    simp only [registersInTime] at hok
    refine ⟨hinv.pending_threads, hinv.pending_nodup, ?_, ?_⟩
    · intro t ht
      by_cases hth : w.threads.find tid ≠ none
      · rw [if_pos hth] at ht
        rcases List.mem_cons.1 ht with ht | ht
        · rw [ht]
          exact ⟨hth, hok⟩
        · exact hinv.cancelled_threads t ht
      · rw [if_neg hth] at ht
        exact hinv.cancelled_threads t ht
    · intro t
      simp only [ThreadMgr.cancel_thread, spawnedUnreaped]
      by_cases htt : t = tid
      · rw [htt]
        constructor
        · intro hc
          exact absurd (IdMap.find_erase_self w.mgr.m_ids tid) hc
        · intro hc
          by_cases hth : w.threads.find tid ≠ none
          · rw [if_pos hth] at hc
            exact absurd (List.mem_cons_self tid w.cancelled) hc.2
          · exact absurd hc.1.1 hth
      · rw [IdMap.find_erase_ne w.mgr.m_ids tid t htt]
        have h0 := hinv.keys t
        simp only [spawnedUnreaped] at h0
        rw [h0]
        by_cases hth : w.threads.find tid ≠ none
        · rw [if_pos hth]
          simp only [List.mem_cons, htt, false_or]
        · rw [if_neg hth]

theorem registry_run (this : Ptr) (user : Ptr → Ptr → Ptr) (steps : List Move) (w w1 : World)
    (hinv : RegistryInv w) (hok : always this user registersInTime steps w)
    (hrun : run this user steps w = some w1) : RegistryInv w1 := by
  induction steps generalizing w with
  | nil =>
    simp only [run] at hrun
    cases hrun
    exact hinv
  | cons x rest ih =>
    simp only [run] at hrun
    simp only [always] at hok
    cases hs : w.step this user x with
    | none =>
      rw [hs] at hrun
      exact absurd hrun (by simp)
    | some w2 =>
      rw [hs] at hrun hok
      exact ih w2 (registry_step this user w w2 x hinv hok.1 hs) hok.2 hrun

theorem stack_start (slot : Ptr) : StackInv (start slot) := by
  refine ⟨List.nodup_nil, ?_, ?_, ?_⟩
  · intro t
    simp [start, ThreadMgr.new]
  · intro t h
    exact absurd h (List.not_mem_nil t)
  · intro t h
    exact absurd h (List.not_mem_nil t)

theorem stack_step (this : Ptr) (user : Ptr → Ptr → Ptr) (w w1 : World) (x : Move)
    (hinv : StackInv w) (hstep : w.step this user x = some w1) : StackInv w1 := by
  cases x with
  | pthread_create f a ret_val tid =>
    simp only [step] at hstep
    split at hstep
    · split at hstep
      · rename_i hr hfresh
        cases hstep
        refine ⟨hinv.stack_nodup, hinv.stack_pushed, hinv.pushed_returned, ?_⟩
        intro t ht
        have h0 := hinv.returned_threads t ht
        have htt : t ≠ tid := by
          intro hc
          rw [hc] at h0
          exact h0 hfresh
        rw [IdMap.find_insert_ne w.threads tid t _ htt]
        exact h0
      · exact absurd hstep (by simp)
    · cases hstep
      exact hinv
  | addID tid =>
    simp only [step] at hstep
    split at hstep
    · exact absurd hstep (by simp)
    · cases hstep
      exact ⟨hinv.stack_nodup, hinv.stack_pushed, hinv.pushed_returned, hinv.returned_threads⟩
  | returns tid =>
    simp only [step] at hstep
    split at hstep
    · rename_i hg
      cases hstep
      refine ⟨hinv.stack_nodup, hinv.stack_pushed, ?_, ?_⟩
      · intro t ht
        exact List.mem_cons_of_mem _ (hinv.pushed_returned t ht)
      · intro t ht
        rcases List.mem_cons.1 ht with ht | ht
        · rw [ht]
          exact hg.1
        · exact hinv.returned_threads t ht
    · exact absurd hstep (by simp)
  | addTerminated tid =>
    simp only [step] at hstep
    split at hstep
    · exact absurd hstep (by simp)
    · split at hstep
      · rename_i hg
        cases hstep
        refine ⟨?_, ?_, ?_, hinv.returned_threads⟩
        · simp only [ThreadMgr.func, ThreadMgr.addTerminated, List.nodup_cons]
          exact ⟨fun hc => hg.2 ((hinv.stack_pushed tid).1 hc), hinv.stack_nodup⟩
        · intro t
          simp only [ThreadMgr.func, ThreadMgr.addTerminated, List.mem_cons]
          rw [hinv.stack_pushed t]
        · intro t ht
          rcases List.mem_cons.1 ht with ht | ht
          · rw [ht]
            exact hg.1
          · exact hinv.pushed_returned t ht
      · exact absurd hstep (by simp)
  | removeTerminated ret value =>
    simp only [step] at hstep
    cases hstep
    rcases History.removeTerminated_cases w.mgr w.slot ret value with h1 | h1 | h1
    · obtain ⟨_, hm, hre⟩ := h1
      simp only [hm, hre, List.not_mem_nil, not_false_eq_true, decide_True, List.filter_true,
        List.foldl_nil]
      exact ⟨hinv.stack_nodup, hinv.stack_pushed, hinv.pushed_returned, hinv.returned_threads⟩
    · obtain ⟨t0, rest, hst, _, hm, hre⟩ := h1
      have hnd := hinv.stack_nodup
      rw [hst] at hnd
      have hnd2 := List.nodup_cons.1 hnd
      simp only [hm, hre, List.foldl_cons, List.foldl_nil, List.mem_singleton]
      refine ⟨hnd2.2, ?_, ?_, ?_⟩
      · intro t
        simp only [List.mem_filter, decide_not, Bool.not_eq_true', decide_eq_false_iff_not]
        have h0 := hinv.stack_pushed t
        rw [hst] at h0
        constructor
        · intro ht
          refine ⟨h0.1 (List.mem_cons_of_mem _ ht), ?_⟩
          intro hc
          rw [hc] at ht
          exact hnd2.1 ht
        · intro ht
          rcases List.mem_cons.1 (h0.2 ht.1) with h2 | h2
          · exact absurd h2 ht.2
          · exact h2
      · intro t ht
        simp only [List.mem_filter, decide_not, Bool.not_eq_true', decide_eq_false_iff_not]
          at ht ⊢
        exact ⟨hinv.pushed_returned t ht.1, ht.2⟩
      · intro t ht
        simp only [List.mem_filter, decide_not, Bool.not_eq_true', decide_eq_false_iff_not] at ht
        rw [IdMap.find_erase_ne w.threads t0 t ht.2]
        exact hinv.returned_threads t ht.1
    · obtain ⟨t0, rest, _, _, hm, hre⟩ := h1
      simp only [hm, hre, List.not_mem_nil, not_false_eq_true, decide_True, List.filter_true,
        List.foldl_nil]
      exact ⟨hinv.stack_nodup, hinv.stack_pushed, hinv.pushed_returned, hinv.returned_threads⟩
  | cancel_thread tid ret =>
    simp only [step] at hstep
    cases hstep
    exact ⟨hinv.stack_nodup, hinv.stack_pushed, hinv.pushed_returned, hinv.returned_threads⟩

theorem stack_run (this : Ptr) (user : Ptr → Ptr → Ptr) (steps : List Move) (w w1 : World)
    (hinv : StackInv w) (hrun : run this user steps w = some w1) : StackInv w1 := by
  induction steps generalizing w with
  | nil =>
    simp only [run] at hrun
    cases hrun
    exact hinv
  | cons x rest ih =>
    simp only [run] at hrun
    cases hs : w.step this user x with
    | none =>
      rw [hs] at hrun
      exact absurd hrun (by simp)
    | some w2 =>
      rw [hs] at hrun
      exact ih w2 (stack_step this user w w2 x hinv hs) hrun

/-- The two steps of a caller inside `createThread`, taken one after the other,
leave the object as `createThread` does. -/
theorem run_createThread (this : Ptr) (user : Ptr → Ptr → Ptr) (w : World) (f a : Ptr)
    (tid : pthread_t) (hfresh : w.threads.find tid = none) :
    (run this user [Move.pthread_create f a 0 tid, Move.addID tid] w).map World.mgr
      = some (w.mgr.createThread this f a (fun _ => (0, tid))).mgr := by
  rw [ThreadMgr.createThread_of_created w.mgr this f a (fun _ => (0, tid)) tid rfl]
  simp only [run, step, if_true, hfresh, findEntry, Option.map_some']
  rfl

end World
namespace Sys

theorem quietInv_start (slot : Ptr) : QuietInv (start slot) := by
  intro h
  rcases h with h | h <;> simp [start] at h

theorem quietInv_step (this : Ptr) (s s1 : Sys) (a : Act) (hinv : QuietInv s)
    (hok : noLateWorker s a) (hs : s.step this a = some s1) : QuietInv s1 := by
  cases a with
  | createThread f x ret_val tid =>
    simp only [step] at hs
    split at hs
    · rename_i hpc
      cases hs
      intro h
      rcases h with h | h <;> simp [hpc] at h
    · exact absurd hs (by simp)
  | cancel_thread tid ret =>
    simp only [step] at hs
    split at hs
    · rename_i hpc
      cases hs
      intro h
      rcases h with h | h <;> simp [hpc] at h
    · exact absurd hs (by simp)
  | lock =>
    simp only [step] at hs
    split at hs
    · cases hs
      intro h
      rcases h with h | h <;> simp at h
    · exact absurd hs (by simp)
  | test =>
    simp only [step] at hs
    split at hs
    · cases hs
      intro h
      cases hr : s.mgr.no_threads_terminated.ret with
      | true =>
        simp only [ThreadMgr.no_threads_terminated, List.isEmpty_iff] at hr ⊢
        exact hr
      | false =>
        rcases h with h | h <;> simp [hr] at h
    · exact absurd hs (by simp)
  | wait =>
    simp only [step] at hs
    split at hs
    · rename_i hpc
      cases hs
      intro _
      exact hinv (Or.inl hpc)
    · exact absurd hs (by simp)
  | wakeup =>
    simp only [step] at hs
    split at hs
    · cases hs
      intro h
      rcases h with h | h <;> simp at h
    · exact absurd hs (by simp)
  | reap ret value =>
    simp only [step] at hs
    split at hs
    · cases hs
      intro h
      rcases h with h | h <;> simp at h
    · exact absurd hs (by simp)
  | worker tid =>
    simp only [step] at hs
    split at hs
    · exact absurd hs (by simp)
    · cases hs
      simp only [noLateWorker] at hok
      intro h
      by_cases hsu : s.pc = Pc.suspended
      · rcases h with h | h <;> simp [hsu] at h
      · rcases h with h | h
        · simp only [hsu, if_false] at h
          exact absurd h hok
        · simp only [hsu, if_false] at h

theorem quietInv_run (this : Ptr) (acts : List Act) (s s1 : Sys) (hinv : QuietInv s)
    (hok : always this noLateWorker acts s) (hr : run this acts s = some s1) :
    QuietInv s1 := by
  induction acts generalizing s with
  | nil =>
    simp only [run] at hr
    cases hr
    exact hinv
  | cons a rest ih =>
    simp only [run] at hr
    simp only [always] at hok
    cases hstep : s.step this a with
    | none =>
      rw [hstep] at hr
      exact absurd hr (by simp)
    | some s2 =>
      rw [hstep] at hr hok
      exact ih s2 (quietInv_step this s s2 a hinv hok.1 hstep) hok.2 hr

end Sys

/-- The steps `lateRegistration` reap thread 5 before it is registered, and
leave the id as a key of the registry although the thread has been joined. -/
theorem lateRegistration_leaves_stale_key :
    ¬ World.always 0 (fun _ _ => 0) World.registersInTime lateRegistration (World.start 0) ∧
    (World.run 0 (fun _ _ => 0) lateRegistration (World.start 0)).map
      (fun w => decide (w.mgr.m_ids.find 5 ≠ none ∧ ¬ World.spawnedUnreaped w 5)) = some true := by
  decide

/-! ## Facts about `createThread` -/

/-- When the library creates the thread and issues the id `t`, `createThread`
returns `t` and changes neither the termination stack nor the entry of any
other id; when `t` is not yet a key of the registry, the registry afterwards
maps `t` to the record holding the given function and argument, and
`threadsActive` is the previous count plus 1. -/
theorem spawn_registers_one (m : ThreadMgr) (this f a : Ptr)
    (pthread_create : func_arguments → Int × pthread_t) (t : pthread_t)
    (hc : pthread_create ⟨f, NULL, a, this⟩ = (0, t)) :
    (m.createThread this f a pthread_create).ret = t ∧
    (m.createThread this f a pthread_create).mgr.m_terminated = m.m_terminated ∧
    (∀ j, j ≠ t →
      (m.createThread this f a pthread_create).mgr.m_ids.find j = m.m_ids.find j) ∧
    (m.m_ids.find t = none →
      (m.createThread this f a pthread_create).mgr.m_ids.find t = some ⟨f, NULL, a, this⟩ ∧
      (m.createThread this f a pthread_create).mgr.threadsActive.ret
        = m.threadsActive.ret + 1) := by
  rw [ThreadMgr.createThread_of_created m this f a pthread_create t hc]
  refine ⟨rfl, rfl, ?_, ?_⟩
  · intro j hne
    exact IdMap.find_insert_ne m.m_ids t j _ hne
  · intro hnone
    refine ⟨IdMap.find_insert_self m.m_ids t _ hnone, ?_⟩
    simp only [ThreadMgr.threadsActive, IdMap.size_insert_of_find_none m.m_ids t _ hnone]
    push_cast
    rfl

/-! ## The claims -/

/-- C1 (LIFO drain): when the workers `w1, ..., wk` (any k) run
`addTerminated` in that order on any state and the caller then makes `k`
calls of `condWait` whose joins succeed, every call returns 0, the calls join
with `wk, ..., w1` in exactly that order (one id per call, the top of the
stack), and afterwards the termination stack is what it was before `w1` was
pushed. -/
theorem lifo_drain (m : ThreadMgr) (ws : List pthread_t)
    (slot : Ptr) (pthread_join : pthread_t → Ptr → Int × Ptr)
    (wakeups : List (List (List pthread_t)))
    (hlen : wakeups.length = ws.length)
    (hjoin : ∀ w ∈ ws, ∀ s, (pthread_join w s).1 = 0) :
    (ThreadMgr.condWaits pthread_join wakeups (m.complete ws) slot).length = ws.length ∧
    (ThreadMgr.condWaits pthread_join wakeups (m.complete ws) slot).map Wait.status
      = List.replicate ws.length (some 0) ∧
    (ThreadMgr.condWaits pthread_join wakeups (m.complete ws) slot).map Wait.joined
      = ws.reverse.map (fun w => [w]) ∧
    (ThreadMgr.afterWaits
      (ThreadMgr.condWaits pthread_join wakeups (m.complete ws) slot)
      (m.complete ws)).m_terminated = m.m_terminated := by
  have h := ThreadMgr.condWaits_drain pthread_join ws.reverse m.m_terminated
    (m.complete ws) slot wakeups (ThreadMgr.complete_terminated m ws)
    (by simpa using hlen) (fun w hw s => hjoin w (List.mem_reverse.1 hw) s)
  refine ⟨?_, ?_, h.2.1, h.2.2⟩
  · have h1 := congrArg List.length h.1
    simpa using h1
  · rw [h.1]
    simp [List.eq_replicate_iff]

/-- Witness of `lifo_drain`: workers 4, 9 and 6 complete in that order on a
stack that already holds 1; three waits join with 6, 9 and 4. -/
theorem lifo_drain_witness :
    (ThreadMgr.condWaits (fun _ _ => (0, 0)) [[], [], []]
      (({ ThreadMgr.new with m_terminated := [1] } : ThreadMgr).complete [4, 9, 6]) 0).map
        Wait.joined = [[6], [9], [4]] ∧
    (ThreadMgr.afterWaits
      (ThreadMgr.condWaits (fun _ _ => (0, 0)) [[], [], []]
        (({ ThreadMgr.new with m_terminated := [1] } : ThreadMgr).complete [4, 9, 6]) 0)
      (({ ThreadMgr.new with m_terminated := [1] } : ThreadMgr).complete [4, 9, 6])).m_terminated
        = [1] :=
  ⟨(lifo_drain { ThreadMgr.new with m_terminated := [1] } [4, 9, 6] 0
      (fun _ _ => (0, 0)) [[], [], []] rfl (fun _ _ _ => rfl)).2.2.1,
   (lifo_drain { ThreadMgr.new with m_terminated := [1] } [4, 9, 6] 0
      (fun _ _ => (0, 0)) [[], [], []] rfl (fun _ _ _ => rfl)).2.2.2⟩

/-- C2 (spawn all, reap all): take any execution without cancellation that
starts from a freshly constructed object and in which the number of `condWait`
calls equals the number N of `createThread` calls (all creations successful,
ids pairwise distinct, every wait returning with a successful join, no worker
finishing twice).  Then the ids joined by the waits are a rearrangement of the
ids spawned, each joined exactly once; every spawned worker has finished
exactly once; `threadsActive()` was not 0 before any of the N waits and is 0
at the end, where the registry and the termination stack are both empty. -/
theorem spawn_all_reap_all (this slot : Ptr) (pthread_join : pthread_t → Ptr → Int × Ptr)
    (es : List Event) (p : Progress)
    (hrun : exec this pthread_join es (Progress.start slot) = some p)
    (hN : waitCount es = (spawnedIds es).length) :
    p.spawned = spawnedIds es ∧
    p.reaped.Perm (spawnedIds es) ∧
    p.reaped.Nodup ∧
    (∀ t, t ∈ p.reaped ↔ t ∈ spawnedIds es) ∧
    p.finished.Perm (spawnedIds es) ∧
    p.active.length = (spawnedIds es).length ∧
    (∀ c ∈ p.active, c ≠ 0) ∧
    p.mgr.threadsActive.ret = 0 ∧
    p.mgr.m_ids = IdMap.empty ∧
    p.mgr.m_terminated = [] := by
  have h := exec_inv_history this pthread_join es (Progress.start slot) p
    (Progress.inv_start slot) hrun
  obtain ⟨hinv, hsp, hre, hac⟩ := h
  have hsp1 : p.spawned = spawnedIds es := by rw [hsp]; rfl
  have hre1 : p.reaped.length = (spawnedIds es).length := by
    rw [hre, hN]; simp [Progress.start]
  have hac1 : p.active.length = (spawnedIds es).length := by
    rw [hac, hN]; simp [Progress.start]
  have hsub : p.reaped ⊆ p.spawned :=
    fun t ht => hinv.finished_spawned t (hinv.reaped_finished t ht)
  have hperm : p.reaped.Perm p.spawned :=
    (List.subperm_of_subset hinv.reaped_nodup hsub).perm_of_length_le
      (by rw [hre1, hsp1])
  have hsf : p.spawned ⊆ p.finished :=
    fun t ht => hinv.reaped_finished t (hperm.mem_iff.2 ht)
  have hfperm : p.finished.Perm p.spawned :=
    (List.subperm_of_subset hinv.finished_nodup hinv.finished_spawned).perm_of_length_le
      (List.subperm_of_subset hinv.spawned_nodup hsf).length_le
  have hsize : p.mgr.m_ids.size = 0 := by
    have hcount := hinv.count
    rw [hre1, hsp1] at hcount
    omega
  refine ⟨hsp1, hsp1 ▸ hperm, hinv.reaped_nodup, ?_, hsp1 ▸ hfperm, hac1,
    hinv.active_ne_zero, ?_, ?_, ?_⟩
  · intro t
    rw [← hsp1]
    exact hperm.mem_iff
  · simp only [ThreadMgr.threadsActive, hsize]
    rfl
  · apply IdMap.ext_entries
    exact List.length_eq_zero.1 hsize
  · cases hst : p.mgr.m_terminated with
    | nil => rfl
    | cons t rest =>
      have hmem : t ∈ p.mgr.m_terminated := by rw [hst]; exact List.mem_cons_self _ _
      exact absurd (hperm.mem_iff.2 (hinv.finished_spawned t (hinv.stack_finished t hmem)))
        (hinv.stack_not_reaped t hmem)

/-- Witness of `spawn_all_reap_all`: the execution `demoEvents` ends in
`demoFinal`; the waits reaped 3, 5 and 9, and no thread is active. -/
theorem spawn_all_reap_all_witness :
    exec 0 (fun _ _ => (0, 0)) demoEvents (Progress.start 0) = some demoFinal ∧
    waitCount demoEvents = (spawnedIds demoEvents).length ∧
    demoFinal.reaped.Perm (spawnedIds demoEvents) ∧
    demoFinal.mgr.threadsActive.ret = 0 :=
  ⟨rfl, rfl,
   (spawn_all_reap_all 0 0 (fun _ _ => (0, 0)) demoEvents demoFinal rfl rfl).2.1,
   (spawn_all_reap_all 0 0 (fun _ _ => (0, 0)) demoEvents demoFinal rfl rfl).2.2.2.2.2.2.2.1⟩

/-- C3, counterexample: in the state `cancelledAfterExit` the stack holds 5 and
the registry is empty; the wait joins with 5, returns 0 and pops the stack, and
`threadsActive` is 0 before and 0 after, not the previous count minus 1. -/
theorem reap_after_cancel_keeps_count :
    cancelledAfterExit.m_terminated = [5] ∧
    (cancelledAfterExit.condWait 0 (fun _ _ => (0, 0)) []).status = some 0 ∧
    (cancelledAfterExit.condWait 0 (fun _ _ => (0, 0)) []).joined = [5] ∧
    (cancelledAfterExit.condWait 0 (fun _ _ => (0, 0)) []).mgr.m_terminated = [] ∧
    cancelledAfterExit.threadsActive.ret = 0 ∧
    (cancelledAfterExit.condWait 0 (fun _ _ => (0, 0)) []).mgr.threadsActive.ret = 0 ∧
    ¬ ((cancelledAfterExit.condWait 0 (fun _ _ => (0, 0)) []).mgr.threadsActive.ret
        = cancelledAfterExit.threadsActive.ret - 1) := by
  decide

/-- C3, amended: on a state whose stack has `t` on top, a `condWait` whose join
succeeds returns 0, joins with `t`, pops it, and leaves the registry without an
entry for `t` and with every other entry as before; `threadsActive` afterwards
is the previous count minus 1 when `t` was a key of the registry, and the
previous count when it was not. -/
theorem reap_success_count (m : ThreadMgr) (t : pthread_t) (rest : List pthread_t)
    (h : m.m_terminated = t :: rest) (slot : Ptr)
    (pthread_join : pthread_t → Ptr → Int × Ptr) (hj : (pthread_join t slot).1 = 0)
    (wakeups : List (List pthread_t)) :
    (m.condWait slot pthread_join wakeups).status = some 0 ∧
    (m.condWait slot pthread_join wakeups).joined = [t] ∧
    (m.condWait slot pthread_join wakeups).mgr.m_terminated = rest ∧
    (m.condWait slot pthread_join wakeups).mgr.m_ids = m.m_ids.erase t ∧
    (m.condWait slot pthread_join wakeups).mgr.m_ids.find t = none ∧
    (∀ j, j ≠ t →
      (m.condWait slot pthread_join wakeups).mgr.m_ids.find j = m.m_ids.find j) ∧
    (m.m_ids.find t ≠ none →
      (m.condWait slot pthread_join wakeups).mgr.threadsActive.ret
        = m.threadsActive.ret - 1) ∧
    (m.m_ids.find t = none →
      (m.condWait slot pthread_join wakeups).mgr.threadsActive.ret
        = m.threadsActive.ret) := by
  have hw := ThreadMgr.condWait_of_terminated m t rest h slot pthread_join wakeups
  rw [ThreadMgr.removeTerminated_of_join_ok m t rest h slot pthread_join hj] at hw
  refine ⟨?_, ThreadMgr.joined_condWait_of_terminated m t rest h slot pthread_join wakeups,
    ?_, ?_, ?_, ?_, ?_, ?_⟩
  · rw [hw]; rfl
  · rw [hw]; rfl
  · rw [hw]; rfl
  · rw [hw]; exact IdMap.find_erase_self m.m_ids t
  · intro j hne
    rw [hw]; exact IdMap.find_erase_ne m.m_ids t j hne
  · intro hsome
    rw [hw]
    cases hf : m.m_ids.find t with
    | none => exact absurd hf hsome
    | some v =>
      have h1 := IdMap.size_erase_of_find_some m.m_ids t v hf
      simp only [Wait.mgr, ThreadMgr.threadsActive]
      omega
  · intro hnone
    rw [hw]
    simp only [Wait.mgr, ThreadMgr.threadsActive, IdMap.erase_of_find_none m.m_ids t hnone]

/-- Witness of `reap_success_count`: thread 5 is registered and on top of the
stack; the count goes from 1 to 0. -/
theorem reap_success_count_witness :
    (({ ThreadMgr.new with
          m_ids := IdMap.empty.insert 5 ⟨7, NULL, 0, 0⟩, m_terminated := [5] } : ThreadMgr).condWait
        0 (fun _ _ => (0, 0)) []).mgr.threadsActive.ret
      = ({ ThreadMgr.new with
          m_ids := IdMap.empty.insert 5 ⟨7, NULL, 0, 0⟩, m_terminated := [5] } : ThreadMgr).threadsActive.ret
        - 1 :=
  (reap_success_count
    { ThreadMgr.new with m_ids := IdMap.empty.insert 5 ⟨7, NULL, 0, 0⟩, m_terminated := [5] }
    5 [] rfl 0 (fun _ _ => (0, 0)) rfl []).2.2.2.2.2.2.1 (by decide)

/-- C4 (reclaim failure is atomic): on a state whose stack has `t` on top, when
the join of `t` fails with a status `e` different from 0, `removeTerminated`
returns `e` and so does `condWait`; the object is unchanged (registry and
stack, `t` still on top), and the next `condWait` joins with `t` again,
whatever the library answers then. -/
theorem reclaim_failure_atomic (m : ThreadMgr) (t : pthread_t) (rest : List pthread_t)
    (h : m.m_terminated = t :: rest) (slot : Ptr)
    (pthread_join : pthread_t → Ptr → Int × Ptr) (e : Int) (he : e ≠ 0)
    (hj : (pthread_join t slot).1 = e) (wakeups : List (List pthread_t)) :
    (m.removeTerminated slot pthread_join).ret = e ∧
    (m.removeTerminated slot pthread_join).mgr = m ∧
    (m.condWait slot pthread_join wakeups).status = some e ∧
    (m.condWait slot pthread_join wakeups).joined = [t] ∧
    (m.condWait slot pthread_join wakeups).mgr = m ∧
    (m.condWait slot pthread_join wakeups).mgr.m_ids = m.m_ids ∧
    (m.condWait slot pthread_join wakeups).mgr.m_terminated = t :: rest ∧
    (∀ (slot1 : Ptr) (pthread_join1 : pthread_t → Ptr → Int × Ptr)
        (wakeups1 : List (List pthread_t)),
      ((m.condWait slot pthread_join wakeups).mgr.condWait slot1 pthread_join1
        wakeups1).joined = [t]) := by
  have hne : (pthread_join t slot).1 ≠ 0 := by rw [hj]; exact he
  have hr := ThreadMgr.removeTerminated_of_join_failed m t rest h slot pthread_join hne
  have hw := ThreadMgr.condWait_of_terminated m t rest h slot pthread_join wakeups
  rw [hr] at hw
  have hm : (m.condWait slot pthread_join wakeups).mgr = m := by rw [hw]; rfl
  refine ⟨?_, ?_, ?_, ThreadMgr.joined_condWait_of_terminated m t rest h slot pthread_join wakeups,
    hm, ?_, ?_, ?_⟩
  · rw [hr]; exact hj
  · rw [hr]
  · rw [hw]; simp only [Wait.status, hj]
  · rw [hm]
  · rw [hm]; exact h
  · intro slot1 pthread_join1 wakeups1
    rw [hm]
    exact ThreadMgr.joined_condWait_of_terminated m t rest h slot1 pthread_join1 wakeups1

/-- Witness of `reclaim_failure_atomic`: the join of thread 5 fails with
status 3. -/
theorem reclaim_failure_atomic_witness :
    (({ ThreadMgr.new with
          m_ids := IdMap.empty.insert 5 ⟨7, NULL, 0, 0⟩, m_terminated := [5, 2] } : ThreadMgr).condWait
        0 (fun _ s => (3, s)) []).status = some 3 ∧
    (({ ThreadMgr.new with
          m_ids := IdMap.empty.insert 5 ⟨7, NULL, 0, 0⟩, m_terminated := [5, 2] } : ThreadMgr).condWait
        0 (fun _ s => (3, s)) []).mgr
      = { ThreadMgr.new with
          m_ids := IdMap.empty.insert 5 ⟨7, NULL, 0, 0⟩, m_terminated := [5, 2] } :=
  ⟨(reclaim_failure_atomic
      { ThreadMgr.new with m_ids := IdMap.empty.insert 5 ⟨7, NULL, 0, 0⟩, m_terminated := [5, 2] }
      5 [2] rfl 0 (fun _ s => (3, s)) 3 (by decide) rfl []).2.2.1,
   (reclaim_failure_atomic
      { ThreadMgr.new with m_ids := IdMap.empty.insert 5 ⟨7, NULL, 0, 0⟩, m_terminated := [5, 2] }
      5 [2] rfl 0 (fun _ s => (3, s)) 3 (by decide) rfl []).2.2.2.2.1⟩

/-- C5, counterexample: on a freshly constructed object (registry and stack
empty) `condWait` does not return: when nobody wakes the caller it stays blocked
in `pthread_cond_wait(m_cond_var, m_cond_mutex)`, and a spurious wakeup sends it
back to sleep. -/
theorem idle_wait_blocks :
    ThreadMgr.new.m_ids = IdMap.empty ∧ ThreadMgr.new.m_terminated = [] ∧
    ThreadMgr.new.condWait 0 (fun _ _ => (0, 0)) [] =
      Wait.suspended ThreadMgr.new
        [Call.mutex_lock StaticObj.cond_mutex, Call.mutex_lock StaticObj.mutex,
          Call.mutex_unlock StaticObj.mutex,
          Call.cond_wait StaticObj.cond_var StaticObj.cond_mutex] ∧
    (ThreadMgr.new.condWait 0 (fun _ _ => (0, 0)) []).status = none ∧
    (ThreadMgr.new.condWait 0 (fun _ _ => (0, 0)) [[]]).status = none := by
  decide

/-- C5, amended: on every state whose termination stack is empty, the registry
empty or not, `condWait` returns no idle result: it locks `m_cond_mutex`, tests
the predicate and suspends in `pthread_cond_wait(m_cond_var, m_cond_mutex)`;
as long as the wakeups find no finished worker it has not returned and the
object is unchanged. -/
theorem idle_wait_suspends (m : ThreadMgr) (h : m.m_terminated = []) (slot : Ptr)
    (pthread_join : pthread_t → Ptr → Int × Ptr) :
    (∀ wakeups, ∃ more, (m.condWait slot pthread_join wakeups).calls =
      [Call.mutex_lock m.m_cond_mutex, Call.mutex_lock m.m_mutex, Call.mutex_unlock m.m_mutex,
        Call.cond_wait m.m_cond_var m.m_cond_mutex] ++ more) ∧
    (∀ n, (m.condWait slot pthread_join (List.replicate n [])).status = none ∧
      (m.condWait slot pthread_join (List.replicate n [])).mgr = m) :=
  ⟨fun wakeups => ThreadMgr.condWait_first_calls_of_empty m h slot pthread_join wakeups,
   fun n => ThreadMgr.condWaitLoop_of_idle_wakeups slot pthread_join m h n _⟩

/-- Witness of `idle_wait_suspends`: the freshly constructed object. -/
theorem idle_wait_suspends_witness :
    (ThreadMgr.new.condWait 0 (fun _ _ => (0, 0)) (List.replicate 2 [])).status = none ∧
    (ThreadMgr.new.condWait 0 (fun _ _ => (0, 0)) (List.replicate 2 [])).mgr = ThreadMgr.new :=
  (idle_wait_suspends ThreadMgr.new rfl 0 (fun _ _ => (0, 0))).2 2

/-- C6 (the reaped result is the task's own return value): let worker `w` be
the thread that `createThread` started for the user function `f` and the
argument `a` (`args` is the record the thread was started on).  The value the
wrapper `func` hands to `pthread_exit` is `user f a`, the value the task
returned, and the wrapper pushes `w` itself.  When `w` is later on top of the
stack and the join with `w` succeeds, delivering what `w` handed to
`pthread_exit`, the call of `condWait` returns 0, joins with `w` and with no
other thread, and leaves exactly `user f a` in the caller's slot, whatever the
library would have answered for any other id. -/
theorem reaped_value_is_task_result (m m0 m1 : ThreadMgr) (this f a : Ptr)
    (pthread_create : func_arguments → Int × pthread_t) (w : pthread_t)
    (args : func_arguments)
    (hstart : Call.create args ∈ (m.createThread this f a pthread_create).calls)
    (user : Ptr → Ptr → Ptr) (rest : List pthread_t)
    (htop : m1.m_terminated = w :: rest) (slot : Ptr)
    (pthread_join : pthread_t → Ptr → Int × Ptr)
    (hjoin : pthread_join w slot = (0, (ThreadMgr.func args m0 w user).ret))
    (wakeups : List (List pthread_t)) :
    (ThreadMgr.func args m0 w user).ret = user f a ∧
    Call.exit (user f a) ∈ (ThreadMgr.func args m0 w user).calls ∧
    (ThreadMgr.func args m0 w user).mgr.m_terminated = w :: m0.m_terminated ∧
    (m1.condWait slot pthread_join wakeups).status = some 0 ∧
    (m1.condWait slot pthread_join wakeups).joined = [w] ∧
    (m1.condWait slot pthread_join wakeups).slot = some (user f a) ∧
    (∀ pthread_join1 : pthread_t → Ptr → Int × Ptr,
      pthread_join1 w slot = pthread_join w slot →
      m1.condWait slot pthread_join1 wakeups = m1.condWait slot pthread_join wakeups) := by
  have hargs : args = { func := f, cancel_func := NULL, arg := a, thisObject := this } := by
    simp only [ThreadMgr.createThread] at hstart
    split at hstart
    · simp [ThreadMgr.addID] at hstart
      exact hstart
    · simp at hstart
      exact hstart
  have hret : (ThreadMgr.func args m0 w user).ret = user f a := by
    rw [hargs]; rfl
  have hj : (pthread_join w slot).1 = 0 := by rw [hjoin]
  have hw := ThreadMgr.condWait_of_terminated m1 w rest htop slot pthread_join wakeups
  rw [ThreadMgr.removeTerminated_of_join_ok m1 w rest htop slot pthread_join hj] at hw
  refine ⟨hret, ?_, rfl, ?_,
    ThreadMgr.joined_condWait_of_terminated m1 w rest htop slot pthread_join wakeups, ?_, ?_⟩
  · rw [← hret]
    simp [ThreadMgr.func]
  · rw [hw]; rfl
  · rw [hw]
    simp only [Wait.slot, hjoin, hret]
  · intro pthread_join1 h1
    have hj1 : (pthread_join1 w slot).1 = 0 := by rw [h1, hjoin]
    rw [hw, ThreadMgr.condWait_of_terminated m1 w rest htop slot pthread_join1 wakeups,
      ThreadMgr.removeTerminated_of_join_ok m1 w rest htop slot pthread_join1 hj1, h1]

/-- Witness of `reaped_value_is_task_result`: thread 5 runs the user function
at 7 on the argument 9; the user function returns 40 and the join with any
other thread would deliver 99. -/
theorem reaped_value_is_task_result_witness :
    ((ThreadMgr.func ⟨7, NULL, 9, 0⟩
        (ThreadMgr.new.createThread 0 7 9 (fun _ => (0, 5))).mgr 5
        (fun _ _ => 40)).mgr.condWait 0 (fun t _ => if t = 5 then (0, 40) else (0, 99)) []).slot
      = some 40 :=
  (reaped_value_is_task_result ThreadMgr.new
    (ThreadMgr.new.createThread 0 7 9 (fun _ => (0, 5))).mgr
    (ThreadMgr.func ⟨7, NULL, 9, 0⟩
      (ThreadMgr.new.createThread 0 7 9 (fun _ => (0, 5))).mgr 5 (fun _ _ => 40)).mgr
    0 7 9 (fun _ => (0, 5)) 5 ⟨7, NULL, 9, 0⟩ (by decide) (fun _ _ => 40) [] rfl 0
    (fun t _ => if t = 5 then (0, 40) else (0, 99)) rfl []).2.2.2.2.2.1

/-- C7 (failing input): the steps `lateRegistration` are possible from a
freshly constructed object and leave it in the state `staleFive`: thread 5 has
been joined, so the library may issue the id 5 again, but the registry holds a
record under 5.  A call of `createThread` for the user function at 8 with
argument 2, for which the library creates the thread and issues the id 5,
returns 5, but the registry still maps 5 to the old record, for the user
function at 7, and `threadsActive` stays 1: the thread that was created is not
registered. -/
theorem spawn_existing_id_registers_nothing :
    (World.run 0 (fun _ _ => 0) lateRegistration (World.start 0)).map World.mgr
      = some staleFive ∧
    (World.run 0 (fun _ _ => 0) lateRegistration (World.start 0)).map
      (fun w => w.threads.find 5) = some none ∧
    (World.run 0 (fun _ _ => 0)
      (lateRegistration ++ [Move.pthread_create 8 2 0 5, Move.addID 5]) (World.start 0)).map
      World.mgr = some (staleFive.createThread 0 8 2 (fun _ => (0, 5))).mgr ∧
    staleFive.m_ids.find 5 = some ⟨7, NULL, 1, 0⟩ ∧
    staleFive.m_terminated = [] ∧
    (staleFive.createThread 0 8 2 (fun _ => (0, 5))).ret = 5 ∧
    (staleFive.createThread 0 8 2 (fun _ => (0, 5))).mgr.m_ids.find 5
      = some ⟨7, NULL, 1, 0⟩ ∧
    ¬ ((staleFive.createThread 0 8 2 (fun _ => (0, 5))).mgr.m_ids.find 5
      = some ⟨8, NULL, 2, 0⟩) ∧
    staleFive.threadsActive.ret = 1 ∧
    (staleFive.createThread 0 8 2 (fun _ => (0, 5))).mgr.threadsActive.ret = 1 ∧
    ¬ ((staleFive.createThread 0 8 2 (fun _ => (0, 5))).mgr.threadsActive.ret
      = staleFive.threadsActive.ret + 1) := by
  decide

/-- C8 (failed spawn changes nothing): the library does not give a thread it
has created the id 0, the value `createThread` returns on error.  When
`pthread_create` returns a status different from 0, `createThread` returns 0,
makes no other library call and leaves the object (registry, termination
stack, `threadsActive`) unchanged; conversely, when `createThread` returns 0,
`pthread_create` has returned a status different from 0. -/
theorem spawn_failure_changes_nothing (m : ThreadMgr) (this f a : Ptr)
    (pthread_create : func_arguments → Int × pthread_t)
    (hvalid : (pthread_create ⟨f, NULL, a, this⟩).1 = 0 →
      (pthread_create ⟨f, NULL, a, this⟩).2 ≠ 0) :
    ((pthread_create ⟨f, NULL, a, this⟩).1 ≠ 0 →
      (m.createThread this f a pthread_create).ret = 0 ∧
      (m.createThread this f a pthread_create).mgr = m ∧
      (m.createThread this f a pthread_create).mgr.m_ids = m.m_ids ∧
      (m.createThread this f a pthread_create).mgr.m_terminated = m.m_terminated ∧
      (m.createThread this f a pthread_create).mgr.threadsActive.ret = m.threadsActive.ret ∧
      (m.createThread this f a pthread_create).calls = [Call.create ⟨f, NULL, a, this⟩]) ∧
    ((m.createThread this f a pthread_create).ret = 0 →
      (pthread_create ⟨f, NULL, a, this⟩).1 ≠ 0) := by
  constructor
  · intro hc
    rw [ThreadMgr.createThread_of_failed m this f a pthread_create hc]
    exact ⟨rfl, rfl, rfl, rfl, rfl, rfl⟩
  · intro hret hc
    have hp : pthread_create ⟨f, NULL, a, this⟩ = (0, (pthread_create ⟨f, NULL, a, this⟩).2) := by
      rw [← hc]
    rw [ThreadMgr.createThread_of_created m this f a pthread_create _ hp] at hret
    exact hvalid hc hret

/-- Witness of `spawn_failure_changes_nothing`: in the state `registeredFive`
the library fails with status 11 and `createThread` returns 0 and changes
nothing; and when the library creates thread 6, `createThread` does not return
0. -/
theorem spawn_failure_changes_nothing_witness :
    (registeredFive.createThread 0 8 2 (fun _ => (11, 0))).ret = 0 ∧
    (registeredFive.createThread 0 8 2 (fun _ => (11, 0))).mgr = registeredFive ∧
    ((registeredFive.createThread 0 8 2 (fun _ => (0, 6))).ret = 0 →
      ((fun _ => (0, 6) : func_arguments → Int × pthread_t) ⟨8, NULL, 2, 0⟩).1 ≠ 0) :=
  ⟨((spawn_failure_changes_nothing registeredFive 0 8 2 (fun _ => (11, 0))
      (fun h => absurd h (by decide))).1 (by decide)).1,
   ((spawn_failure_changes_nothing registeredFive 0 8 2 (fun _ => (11, 0))
      (fun h => absurd h (by decide))).1 (by decide)).2.1,
   (spawn_failure_changes_nothing registeredFive 0 8 2 (fun _ => (0, 6))
      (fun _ => by decide)).2⟩

/-- C9 (cancel of an active worker): when `tid` is a key of the registry,
`cancel_thread` leaves the registry without an entry for `tid` and with every
other entry as before, leaves the termination stack alone, passes exactly one
cancellation request, for `tid`, to the library between locking and unlocking
`m_mutex`, returns the status of that request, and `threadsActive` afterwards
is the previous count minus 1. -/
theorem cancel_active_worker (m : ThreadMgr) (tid : pthread_t)
    (pthread_cancel : pthread_t → Int) (hkey : m.m_ids.find tid ≠ none) :
    (m.cancel_thread tid pthread_cancel).mgr.m_ids.find tid = none ∧
    (∀ j, j ≠ tid →
      (m.cancel_thread tid pthread_cancel).mgr.m_ids.find j = m.m_ids.find j) ∧
    (m.cancel_thread tid pthread_cancel).mgr.m_terminated = m.m_terminated ∧
    (m.cancel_thread tid pthread_cancel).calls
      = [Call.mutex_lock m.m_mutex, Call.cancel tid, Call.mutex_unlock m.m_mutex] ∧
    cancelledIds (m.cancel_thread tid pthread_cancel).calls = [tid] ∧
    (m.cancel_thread tid pthread_cancel).ret = pthread_cancel tid ∧
    (m.cancel_thread tid pthread_cancel).mgr.threadsActive.ret = m.threadsActive.ret - 1 := by
  refine ⟨IdMap.find_erase_self m.m_ids tid,
    fun j hne => IdMap.find_erase_ne m.m_ids tid j hne, rfl, rfl, rfl, rfl, ?_⟩
  cases hf : m.m_ids.find tid with
  | none => exact absurd hf hkey
  | some v =>
    have h1 := IdMap.size_erase_of_find_some m.m_ids tid v hf
    simp only [ThreadMgr.cancel_thread, ThreadMgr.threadsActive]
    omega

/-- Witness of `cancel_active_worker`: thread 5 of `registeredFive` is
cancelled and the library answers 0. -/
theorem cancel_active_worker_witness :
    (registeredFive.cancel_thread 5 (fun _ => 0)).mgr.m_ids.find 5 = none ∧
    (registeredFive.cancel_thread 5 (fun _ => 0)).mgr.threadsActive.ret
      = registeredFive.threadsActive.ret - 1 :=
  ⟨(cancel_active_worker registeredFive 5 (fun _ => 0) (by decide)).1,
   (cancel_active_worker registeredFive 5 (fun _ => 0) (by decide)).2.2.2.2.2.2⟩

/-- C10, counterexample: the id 6 is not a key of the registry of
`registeredFive`, yet `cancel_thread` passes the cancellation request for 6 to
the library, and its result is the status of that request, the same value as
for the active worker 5. -/
theorem cancel_unknown_reaches_library :
    registeredFive.m_ids.find 6 = none ∧
    (registeredFive.cancel_thread 6 (fun _ => 0)).calls
      = [Call.mutex_lock StaticObj.mutex, Call.cancel 6, Call.mutex_unlock StaticObj.mutex] ∧
    cancelledIds (registeredFive.cancel_thread 6 (fun _ => 0)).calls = [6] ∧
    (registeredFive.cancel_thread 6 (fun _ => 0)).ret = 0 ∧
    (registeredFive.cancel_thread 6 (fun _ => 0)).ret
      = (registeredFive.cancel_thread 5 (fun _ => 0)).ret := by
  decide

/-- C10, amended: when `tid` is not a key of the registry, `cancel_thread`
leaves the object unchanged (registry, termination stack, `threadsActive`), but
it still passes the cancellation request for `tid` to the library and returns
the status of that request; there is no separate result for an unknown id. -/
theorem cancel_unknown_worker (m : ThreadMgr) (tid : pthread_t)
    (pthread_cancel : pthread_t → Int) (hkey : m.m_ids.find tid = none) :
    (m.cancel_thread tid pthread_cancel).mgr = m ∧
    (m.cancel_thread tid pthread_cancel).mgr.m_ids = m.m_ids ∧
    (m.cancel_thread tid pthread_cancel).mgr.m_terminated = m.m_terminated ∧
    (m.cancel_thread tid pthread_cancel).mgr.threadsActive.ret = m.threadsActive.ret ∧
    (m.cancel_thread tid pthread_cancel).calls
      = [Call.mutex_lock m.m_mutex, Call.cancel tid, Call.mutex_unlock m.m_mutex] ∧
    cancelledIds (m.cancel_thread tid pthread_cancel).calls = [tid] ∧
    (m.cancel_thread tid pthread_cancel).ret = pthread_cancel tid := by
  have hm : (m.cancel_thread tid pthread_cancel).mgr = m := by
    simp only [ThreadMgr.cancel_thread, IdMap.erase_of_find_none m.m_ids tid hkey]
  refine ⟨hm, ?_, ?_, ?_, rfl, rfl, rfl⟩
  · rw [hm]
  · rw [hm]
  · rw [hm]

/-- Witness of `cancel_unknown_worker`: the id 6 in `registeredFive`, the
library answering 3. -/
theorem cancel_unknown_worker_witness :
    (registeredFive.cancel_thread 6 (fun _ => 3)).mgr = registeredFive ∧
    (registeredFive.cancel_thread 6 (fun _ => 3)).ret = 3 :=
  ⟨(cancel_unknown_worker registeredFive 6 (fun _ => 3) (by decide)).1,
   (cancel_unknown_worker registeredFive 6 (fun _ => 3) (by decide)).2.2.2.2.2.2⟩

/-- C11, counterexample: thread 5 is created and registered, with no step
between `pthread_create` and `addID`, and is then cancelled.  The id has been
spawned and has not been reaped, but `cancel_thread` has erased it from the
registry. -/
theorem cancelled_worker_not_in_registry :
    World.always 0 (fun _ _ => 0) World.registersInTime spawnThenCancel (World.start 0) ∧
    (World.run 0 (fun _ _ => 0) spawnThenCancel (World.start 0)).map
      (fun w => decide (World.spawnedUnreaped w 5)) = some true ∧
    (World.run 0 (fun _ _ => 0) spawnThenCancel (World.start 0)).map
      (fun w => w.mgr.m_ids.find 5) = some none ∧
    (World.run 0 (fun _ _ => 0) spawnThenCancel (World.start 0)).map
      (fun w => decide (w.mgr.m_ids.find 5 ≠ none ↔ World.spawnedUnreaped w 5)) = some false := by
  decide

/-- C11, amended: in every state reached from a freshly constructed object by
the steps of `createThread` (`pthread_create`, successful or not, and `addID`),
of the workers (return of the user function, `addTerminated`), by
`removeTerminated` (the join succeeding or failing) and by `cancel_thread`, in
any order in which no worker is reaped or cancelled between the
`pthread_create` and the `addID` of the call that creates it, an id is a key of
the registry `m_ids` if and only if it has been spawned (created and
registered by `createThread`), has not yet been reaped, and has not been
cancelled since it was spawned. -/
theorem registry_invariant (this slot : Ptr) (user : Ptr → Ptr → Ptr) (steps : List Move)
    (w : World) (hrun : World.run this user steps (World.start slot) = some w)
    (hok : World.always this user World.registersInTime steps (World.start slot))
    (t : pthread_t) :
    w.mgr.m_ids.find t ≠ none ↔ (World.spawnedUnreaped w t ∧ t ∉ w.cancelled) :=
  (World.registry_run this user steps (World.start slot) w (World.registry_start slot) hok
    hrun).keys t

/-- Witness of `registry_invariant`: after the steps `busyMoves` thread 5 has
been reaped and thread 6 cancelled; neither is a key. -/
theorem registry_invariant_witness :
    (busyFinal.mgr.m_ids.find 6 ≠ none ↔
      (World.spawnedUnreaped busyFinal 6 ∧ 6 ∉ busyFinal.cancelled)) ∧
    World.spawnedUnreaped busyFinal 6 ∧
    6 ∈ busyFinal.cancelled ∧
    busyFinal.mgr.m_ids.find 6 = none ∧
    ¬ World.spawnedUnreaped busyFinal 5 ∧
    busyFinal.mgr.m_ids.find 5 = none :=
  ⟨registry_invariant 0 0 (fun _ _ => 0) busyMoves busyFinal (by decide) (by decide) 6,
    by decide, by decide, by decide, by decide, by decide⟩

/-- C12, counterexample: thread 5 is created and registered and returns from
its user function; its wrapper `func` has not yet run `addTerminated`.  The
task has finished and the worker has not been reaped, but the stack is
empty. -/
theorem finished_worker_not_yet_on_stack :
    (World.run 0 (fun _ _ => 0) spawnThenReturn (World.start 0)).map
      (fun w => decide (World.finishedUnreaped w 5)) = some true ∧
    (World.run 0 (fun _ _ => 0) spawnThenReturn (World.start 0)).map
      (fun w => w.mgr.m_terminated) = some [] ∧
    (World.run 0 (fun _ _ => 0) spawnThenReturn (World.start 0)).map
      (fun w => decide (5 ∈ w.mgr.m_terminated ↔ World.finishedUnreaped w 5)) = some false := by
  decide

/-- C12, amended: in every state reached from a freshly constructed object by
the steps of `createThread`, of the workers (return of the user function, then
`addTerminated` in the wrapper `func`), by `removeTerminated` (the join
succeeding or failing) and by `cancel_thread`, in any order, an id appears in
the stack `m_terminated` if and only if the task of that worker has finished,
its wrapper has since run `addTerminated`, and the worker has not yet been
reaped; and it appears there once. -/
theorem termination_stack_invariant (this slot : Ptr) (user : Ptr → Ptr → Ptr)
    (steps : List Move) (w : World)
    (hrun : World.run this user steps (World.start slot) = some w) (t : pthread_t) :
    (t ∈ w.mgr.m_terminated ↔ (World.finishedUnreaped w t ∧ t ∈ w.pushed)) ∧
    (t ∈ w.mgr.m_terminated → w.threads.find t ≠ none) ∧
    w.mgr.m_terminated.Nodup ∧
    w.mgr.m_terminated.count t ≤ 1 := by
  have h := World.stack_run this user steps (World.start slot) w (World.stack_start slot) hrun
  refine ⟨?_, ?_, h.stack_nodup, List.nodup_iff_count_le_one.1 h.stack_nodup t⟩
  · constructor
    · intro ht
      exact ⟨h.pushed_returned t ((h.stack_pushed t).1 ht), (h.stack_pushed t).1 ht⟩
    · intro ht
      exact (h.stack_pushed t).2 ht.2
  · intro ht
    exact h.returned_threads t (h.pushed_returned t ((h.stack_pushed t).1 ht))

/-- Witness of `termination_stack_invariant`: after the steps `busyMoves`
thread 6, which was cancelled, has returned and pushed its id, and thread 5 has
been reaped; 6 is on the stack and 5 is not. -/
theorem termination_stack_invariant_witness :
    (6 ∈ busyFinal.mgr.m_terminated ↔
      (World.finishedUnreaped busyFinal 6 ∧ 6 ∈ busyFinal.pushed)) ∧
    busyFinal.mgr.m_terminated = [6] ∧
    ¬ World.finishedUnreaped busyFinal 5 :=
  ⟨(termination_stack_invariant 0 0 (fun _ _ => 0) busyMoves busyFinal (by decide) 6).1,
    by decide, by decide⟩

/-- C13, counterexample: on a freshly constructed object the controller enters
`condWait`, finds the stack empty and calls `pthread_cond_wait`: it is
suspended although the registry is empty, `threadsActive()` being 0.  No worker
takes a step. -/
theorem suspended_with_empty_registry :
    Sys.always 0 Sys.noLateWorker [Act.lock, Act.test, Act.wait] (Sys.start 0) ∧
    Sys.run 0 [Act.lock, Act.test, Act.wait] (Sys.start 0) =
      some { mgr := ThreadMgr.new, pc := Pc.suspended, slot := 0, tested := [], pushed := [] } ∧
    ThreadMgr.new.m_ids = IdMap.empty ∧
    ThreadMgr.new.threadsActive.ret = 0 ∧
    ¬ (ThreadMgr.new.m_terminated = [] ∧ ThreadMgr.new.threadsActive.ret ≠ 0) := by
  decide

/-- C13, amended: in every state reached from a freshly constructed object by
steps of the controller (`createThread`, `cancel_thread`, the steps of
`condWait`) and of its workers in which no worker runs `addTerminated` between
the controller's test of `no_threads_terminated()` and its call of
`pthread_cond_wait`, whenever the controller is suspended inside `condWait`
the termination stack is empty, so that no finished worker is waiting in it,
and the controller holds no mutex; the registry may be empty. -/
theorem suspension_with_empty_stack (this slot : Ptr) (acts : List Act) (s : Sys)
    (hr : Sys.run this acts (Sys.start slot) = some s)
    (hok : Sys.always this Sys.noLateWorker acts (Sys.start slot))
    (hsusp : s.pc = Pc.suspended) :
    s.mgr.m_terminated = [] ∧
    s.mgr.no_threads_terminated.ret = true ∧
    s.heldByController = [] := by
  have h := Sys.quietInv_run this acts (Sys.start slot) s (Sys.quietInv_start slot) hok hr
    (Or.inr hsusp)
  refine ⟨h, ?_, ?_⟩
  · simp [ThreadMgr.no_threads_terminated, h]
  · simp [Sys.heldByController, hsusp]

/-- Witness of `suspension_with_empty_stack`: thread 5 is created and the
controller goes to sleep in `condWait` before the worker has finished. -/
theorem suspension_with_empty_stack_witness :
    ({ mgr := (ThreadMgr.new.createThread 0 7 0 (fun _ => (0, 5))).mgr, pc := Pc.suspended,
       slot := 0, tested := [], pushed := [] } : Sys).mgr.m_terminated = [] ∧
    ({ mgr := (ThreadMgr.new.createThread 0 7 0 (fun _ => (0, 5))).mgr, pc := Pc.suspended,
       slot := 0, tested := [], pushed := [] } : Sys).mgr.threadsActive.ret = 1 :=
  ⟨(suspension_with_empty_stack 0 0 [Act.createThread 7 0 0 5, Act.lock, Act.test, Act.wait]
    { mgr := (ThreadMgr.new.createThread 0 7 0 (fun _ => (0, 5))).mgr, pc := Pc.suspended,
      slot := 0, tested := [], pushed := [] } (by decide) (by decide) rfl).1, by decide⟩

/-- C14, counterexample: on a freshly constructed object `condWait` locks the
static `cond_mutex`, tests the predicate and hands `cond_mutex` to
`pthread_cond_wait`, while `addTerminated` pushes and broadcasts holding the
static `mutex`, which is a different mutex. -/
theorem wait_gate_uses_two_mutexes :
    ThreadMgr.new.condWait 0 (fun _ _ => (0, 0)) [] =
      Wait.suspended ThreadMgr.new
        [Call.mutex_lock StaticObj.cond_mutex, Call.mutex_lock StaticObj.mutex,
          Call.mutex_unlock StaticObj.mutex,
          Call.cond_wait StaticObj.cond_var StaticObj.cond_mutex] ∧
    (ThreadMgr.new.addTerminated 5).calls =
      [Call.mutex_lock StaticObj.mutex, Call.cond_broadcast StaticObj.cond_var,
        Call.mutex_unlock StaticObj.mutex] ∧
    ThreadMgr.new.m_cond_mutex ≠ ThreadMgr.new.m_mutex := by
  decide

/-- C14, amended: `condWait` holds `m_cond_mutex` while it tests the predicate
`no_threads_terminated()` (which itself locks and unlocks `m_mutex`) and hands
`m_cond_mutex` to every wait on `m_cond_var`; `addTerminated` holds the other
mutex, `m_mutex`, while it pushes and broadcasts `m_cond_var`; `m_mutex` is the
one locked around the registry and the stack in `addID` (hence `createThread`),
`cancel_thread`, `threadsActive`, `no_threads_terminated` and
`removeTerminated`.  No member function changes the three pointers, and the
constructor points `m_mutex` and `m_cond_mutex` to two different statics. -/
theorem wait_gate_locks (m : ThreadMgr) (slot : Ptr)
    (pthread_join : pthread_t → Ptr → Int × Ptr) (wakeups : List (List pthread_t))
    (w tid : pthread_t) (arg : func_arguments) (pthread_cancel : pthread_t → Int) :
    (∃ more, (m.condWait slot pthread_join wakeups).calls =
      Call.mutex_lock m.m_cond_mutex :: Call.mutex_lock m.m_mutex ::
        Call.mutex_unlock m.m_mutex :: more) ∧
    (∀ x ∈ condWaitArgs (m.condWait slot pthread_join wakeups).calls,
      x = (m.m_cond_var, m.m_cond_mutex)) ∧
    (m.addTerminated w).calls =
      [Call.mutex_lock m.m_mutex, Call.cond_broadcast m.m_cond_var,
        Call.mutex_unlock m.m_mutex] ∧
    (m.addID tid arg).calls = [Call.mutex_lock m.m_mutex, Call.mutex_unlock m.m_mutex] ∧
    (m.cancel_thread tid pthread_cancel).calls =
      [Call.mutex_lock m.m_mutex, Call.cancel tid, Call.mutex_unlock m.m_mutex] ∧
    m.threadsActive.calls = [Call.mutex_lock m.m_mutex, Call.mutex_unlock m.m_mutex] ∧
    m.no_threads_terminated.calls = [Call.mutex_lock m.m_mutex, Call.mutex_unlock m.m_mutex] ∧
    (∃ inside, (m.removeTerminated slot pthread_join).calls =
      [Call.mutex_lock m.m_mutex] ++ inside ++ [Call.mutex_unlock m.m_mutex]) ∧
    samePointers (m.condWait slot pthread_join wakeups).mgr m ∧
    samePointers (m.addTerminated w).mgr m ∧
    samePointers (m.addID tid arg).mgr m ∧
    samePointers (m.cancel_thread tid pthread_cancel).mgr m ∧
    samePointers (m.removeTerminated slot pthread_join).mgr m ∧
    ThreadMgr.new.m_mutex = StaticObj.mutex ∧
    ThreadMgr.new.m_cond_mutex = StaticObj.cond_mutex ∧
    ThreadMgr.new.m_cond_var = StaticObj.cond_var ∧
    ThreadMgr.new.m_mutex ≠ ThreadMgr.new.m_cond_mutex := by
  have hloop := ThreadMgr.condWaitLoop_condWaitArgs slot pthread_join wakeups m
    [Call.mutex_lock m.m_cond_mutex] (by intro x hx; simp [condWaitArgs] at hx)
  refine ⟨?_, hloop.1, rfl, rfl, rfl, rfl, rfl, ?_, hloop.2, ⟨rfl, rfl, rfl⟩, ⟨rfl, rfl, rfl⟩,
    ⟨rfl, rfl, rfl⟩, ThreadMgr.removeTerminated_samePointers m slot pthread_join,
    rfl, rfl, rfl, by decide⟩
  · cases hst : m.m_terminated with
    | nil =>
      obtain ⟨more, hmore⟩ :=
        ThreadMgr.condWait_first_calls_of_empty m hst slot pthread_join wakeups
      exact ⟨_, by rw [hmore]; rfl⟩
    | cons t rest =>
      rw [ThreadMgr.condWait_of_terminated m t rest hst slot pthread_join wakeups]
      exact ⟨_, rfl⟩
  · simp only [ThreadMgr.removeTerminated]
    split
    · exact ⟨[], rfl⟩
    · split
      · exact ⟨[Call.join _], rfl⟩
      · exact ⟨[Call.join _], rfl⟩

/-- Witness of `wait_gate_locks`: the freshly constructed object, a caller
woken once without a finished worker and worker 5. -/
theorem wait_gate_locks_witness :
    (ThreadMgr.new.addTerminated 5).calls =
      [Call.mutex_lock ThreadMgr.new.m_mutex, Call.cond_broadcast ThreadMgr.new.m_cond_var,
        Call.mutex_unlock ThreadMgr.new.m_mutex] ∧
    samePointers (ThreadMgr.new.condWait 0 (fun _ _ => (0, 0)) [[]]).mgr ThreadMgr.new :=
  ⟨(wait_gate_locks ThreadMgr.new 0 (fun _ _ => (0, 0)) [[]] 5 5 ⟨7, NULL, 0, 0⟩
      (fun _ => 0)).2.2.1,
   (wait_gate_locks ThreadMgr.new 0 (fun _ _ => (0, 0)) [[]] 5 5 ⟨7, NULL, 0, 0⟩
      (fun _ => 0)).2.2.2.2.2.2.2.2.1⟩

/-- C15 (instance isolation): let `this` and `other` be the addresses of two
different objects.  Every member function called on the object at `this`
(`createThread`, `cancel_thread`, `condWait`, `removeTerminated`,
`threadsActive`, `no_threads_terminated`) and the completion of every worker
that `createThread` started on the object at `this` leave the object at
`other` as it was: same registry, same termination stack, hence the same
`threadsActive()` and the same sequence of reaped workers. -/
theorem instance_isolation (h : Heap) (this other : Ptr) (hne : other ≠ this)
    (op : MemberCall) (f a : Ptr) (pthread_create : func_arguments → Int × pthread_t)
    (args : func_arguments)
    (hstart : Call.create args ∈ ((h this).createThread this f a pthread_create).calls)
    (w : pthread_t) (user : Ptr → Ptr → Ptr)
    (slot : Ptr) (pthread_join : pthread_t → Ptr → Int × Ptr)
    (wakeups : List (List (List pthread_t))) :
    (h.call this op) other = h other ∧
    ((h.call this op) other).m_ids = (h other).m_ids ∧
    ((h.call this op) other).m_terminated = (h other).m_terminated ∧
    ((h.call this op) other).threadsActive.ret = (h other).threadsActive.ret ∧
    (ThreadMgr.condWaits pthread_join wakeups ((h.call this op) other) slot).map Wait.joined
      = (ThreadMgr.condWaits pthread_join wakeups (h other) slot).map Wait.joined ∧
    args.thisObject = this ∧
    (h.func args w user) this = ((h this).addTerminated w).mgr ∧
    (h.func args w user) other = h other ∧
    ((h.func args w user) other).m_ids = (h other).m_ids ∧
    ((h.func args w user) other).m_terminated = (h other).m_terminated ∧
    ((h.func args w user) other).threadsActive.ret = (h other).threadsActive.ret ∧
    (ThreadMgr.condWaits pthread_join wakeups ((h.func args w user) other) slot).map Wait.joined
      = (ThreadMgr.condWaits pthread_join wakeups (h other) slot).map Wait.joined := by
  have hcall : (h.call this op) other = h other := by
    cases op <;> simp [Heap.call, Heap.store, hne]
  have hargs : args = { func := f, cancel_func := NULL, arg := a, thisObject := this } := by
    simp only [ThreadMgr.createThread] at hstart
    split at hstart
    · simp [ThreadMgr.addID] at hstart
      exact hstart
    · simp at hstart
      exact hstart
  have hthis : args.thisObject = this := by rw [hargs]
  have hfunc : (h.func args w user) other = h other := by
    simp [Heap.func, Heap.store, hthis, hne]
  have hfunc1 : (h.func args w user) this = ((h this).addTerminated w).mgr := by
    simp [Heap.func, Heap.store, hthis, ThreadMgr.func]
  refine ⟨hcall, ?_, ?_, ?_, ?_, hthis, hfunc1, hfunc, ?_, ?_, ?_, ?_⟩
  · rw [hcall]
  · rw [hcall]
  · rw [hcall]
  · rw [hcall]
  · rw [hfunc]
  · rw [hfunc]
  · rw [hfunc]
  · rw [hfunc]

/-- Witness of `instance_isolation`: the objects at 1 and 2; thread 5 is
created on the object at 1 and finishes, and the object at 2 still has the
worker 9 on its stack. -/
theorem instance_isolation_witness :
    (Heap.func (fun _ => { ThreadMgr.new with m_terminated := [9] }) ⟨7, NULL, 0, 1⟩ 5
        (fun _ _ => 0)) 1
      = ((({ ThreadMgr.new with m_terminated := [9] } : ThreadMgr)).addTerminated 5).mgr ∧
    (Heap.func (fun _ => { ThreadMgr.new with m_terminated := [9] }) ⟨7, NULL, 0, 1⟩ 5
        (fun _ _ => 0)) 2
      = { ThreadMgr.new with m_terminated := [9] } :=
  ⟨(instance_isolation (fun _ => { ThreadMgr.new with m_terminated := [9] }) 1 2 (by decide)
      MemberCall.threadsActive 7 0 (fun _ => (0, 5)) ⟨7, NULL, 0, 1⟩ (by decide) 5
      (fun _ _ => 0) 0 (fun _ _ => (0, 0)) []).2.2.2.2.2.2.1,
   (instance_isolation (fun _ => { ThreadMgr.new with m_terminated := [9] }) 1 2 (by decide)
      MemberCall.threadsActive 7 0 (fun _ => (0, 5)) ⟨7, NULL, 0, 1⟩ (by decide) 5
      (fun _ _ => 0) 0 (fun _ _ => (0, 0)) []).2.2.2.2.2.2.2.1⟩

/-- C16, counterexample: T1 (thread 1, result 97) and T2 (thread 2, result 98)
are spawned on a fresh object, T2 finishes, then T1 finishes, and only then
the controller waits twice.  The first wait joins with thread 1 and delivers
T1's result 97, not T2's result 98; the second delivers 98. -/
theorem two_tasks_both_finished_reverse_order :
    ((ThreadMgr.func ⟨11, NULL, 0, 0⟩
        (ThreadMgr.func ⟨12, NULL, 0, 0⟩ (spawnedTwo 0 11 0 12 0 1 2) 2
          (fun f _ => if f = 11 then 97 else 98)).mgr
        1 (fun f _ => if f = 11 then 97 else 98)).mgr).m_terminated = [1, 2] ∧
    (ThreadMgr.condWaits (fun t _ => if t = 1 then (0, 97) else (0, 98)) [[], []]
        ((ThreadMgr.func ⟨11, NULL, 0, 0⟩
          (ThreadMgr.func ⟨12, NULL, 0, 0⟩ (spawnedTwo 0 11 0 12 0 1 2) 2
            (fun f _ => if f = 11 then 97 else 98)).mgr
          1 (fun f _ => if f = 11 then 97 else 98)).mgr) 0).map Wait.slot
      = [some 97, some 98] ∧
    (ThreadMgr.condWaits (fun t _ => if t = 1 then (0, 97) else (0, 98)) [[], []]
        ((ThreadMgr.func ⟨11, NULL, 0, 0⟩
          (ThreadMgr.func ⟨12, NULL, 0, 0⟩ (spawnedTwo 0 11 0 12 0 1 2) 2
            (fun f _ => if f = 11 then 97 else 98)).mgr
          1 (fun f _ => if f = 11 then 97 else 98)).mgr) 0).map Wait.joined
      = [[1], [2]] := by
  decide

/-- C16, amended: T1 (thread `t1`, result `user f1 a1`) and T2 (thread `t2`,
result `user f2 a2`) are spawned on a fresh object, T2 finishes first, and both
joins succeed, delivering what each thread handed to `pthread_exit`.  When the
first wait runs before T1 has finished, it delivers T2's result and the second
wait, after T1 has finished (before the call or while the caller is blocked in
it), delivers T1's result.  When both have finished before the first wait, the
order is the reverse: the first wait delivers T1's result and the second
T2's. -/
theorem two_task_scenario (this f1 a1 f2 a2 : Ptr) (t1 t2 : pthread_t)
    (user : Ptr → Ptr → Ptr) (slot : Ptr) (pthread_join : pthread_t → Ptr → Int × Ptr)
    (hj1 : ∀ s, pthread_join t1 s = (0, (ThreadMgr.func ⟨f1, NULL, a1, this⟩
      (spawnedTwo this f1 a1 f2 a2 t1 t2) t1 user).ret))
    (hj2 : ∀ s, pthread_join t2 s = (0, (ThreadMgr.func ⟨f2, NULL, a2, this⟩
      (spawnedTwo this f1 a1 f2 a2 t1 t2) t2 user).ret))
    (wk1 wk2 : List (List pthread_t)) :
    -- the first wait runs before T1 has finished
    ((ThreadMgr.func ⟨f2, NULL, a2, this⟩ (spawnedTwo this f1 a1 f2 a2 t1 t2) t2
        user).mgr.condWait slot pthread_join wk1).slot = some (user f2 a2) ∧
    ((ThreadMgr.func ⟨f2, NULL, a2, this⟩ (spawnedTwo this f1 a1 f2 a2 t1 t2) t2
        user).mgr.condWait slot pthread_join wk1).joined = [t2] ∧
    -- T1 finishes between the two waits
    ((ThreadMgr.func ⟨f1, NULL, a1, this⟩
        ((ThreadMgr.func ⟨f2, NULL, a2, this⟩ (spawnedTwo this f1 a1 f2 a2 t1 t2) t2
          user).mgr.condWait slot pthread_join wk1).mgr t1 user).mgr.condWait
        (user f2 a2) pthread_join wk2).slot = some (user f1 a1) ∧
    -- T1 finishes while the caller is blocked in the second wait
    (((ThreadMgr.func ⟨f2, NULL, a2, this⟩ (spawnedTwo this f1 a1 f2 a2 t1 t2) t2
        user).mgr.condWait slot pthread_join wk1).mgr.condWait
        (user f2 a2) pthread_join ([t1] :: wk2)).slot = some (user f1 a1) ∧
    -- both have finished before the first wait
    (ThreadMgr.condWaits pthread_join [wk1, wk2]
        (ThreadMgr.func ⟨f1, NULL, a1, this⟩
          (ThreadMgr.func ⟨f2, NULL, a2, this⟩ (spawnedTwo this f1 a1 f2 a2 t1 t2) t2
            user).mgr t1 user).mgr slot).map Wait.slot
      = [some (user f1 a1), some (user f2 a2)] ∧
    (ThreadMgr.condWaits pthread_join [wk1, wk2]
        (ThreadMgr.func ⟨f1, NULL, a1, this⟩
          (ThreadMgr.func ⟨f2, NULL, a2, this⟩ (spawnedTwo this f1 a1 f2 a2 t1 t2) t2
            user).mgr t1 user).mgr slot).map Wait.joined
      = [[t1], [t2]] := by
  have hr1 : ∀ m, (ThreadMgr.func ⟨f1, NULL, a1, this⟩ m t1 user).ret = user f1 a1 :=
    fun _ => rfl
  have hr2 : ∀ m, (ThreadMgr.func ⟨f2, NULL, a2, this⟩ m t2 user).ret = user f2 a2 :=
    fun _ => rfl
  rw [hr1] at hj1
  rw [hr2] at hj2
  have hs0 : (spawnedTwo this f1 a1 f2 a2 t1 t2).m_terminated = [] := by
    simp only [spawnedTwo]
    rw [ThreadMgr.createThread_of_created _ this f2 a2 _ t2 rfl,
      ThreadMgr.createThread_of_created _ this f1 a1 _ t1 rfl]
    rfl
  have hs3 : (ThreadMgr.func ⟨f2, NULL, a2, this⟩ (spawnedTwo this f1 a1 f2 a2 t1 t2) t2
      user).mgr.m_terminated = [t2] := by
    show t2 :: (spawnedTwo this f1 a1 f2 a2 t1 t2).m_terminated = [t2]
    rw [hs0]
  have hA := ThreadMgr.condWait_reaps_top _ t2 [] hs3 slot (user f2 a2) pthread_join
    (hj2 slot) wk1
  have hA4 : (ThreadMgr.func ⟨f1, NULL, a1, this⟩
      ((ThreadMgr.func ⟨f2, NULL, a2, this⟩ (spawnedTwo this f1 a1 f2 a2 t1 t2) t2
        user).mgr.condWait slot pthread_join wk1).mgr t1 user).mgr.m_terminated = [t1] := by
    rw [hA.2.2.2]; rfl
  have hA5 := ThreadMgr.condWait_reaps_top _ t1 [] hA4 (user f2 a2) (user f1 a1) pthread_join
    (hj1 _) wk2
  have hempty : ((ThreadMgr.func ⟨f2, NULL, a2, this⟩ (spawnedTwo this f1 a1 f2 a2 t1 t2) t2
      user).mgr.condWait slot pthread_join wk1).mgr.m_terminated = [] := by
    rw [hA.2.2.2]
  have hwake := ThreadMgr.condWait_after_wakeup _ hempty (user f2 a2) pthread_join [t1] wk2
  have hB0 : (ThreadMgr.func ⟨f1, NULL, a1, this⟩
      (ThreadMgr.func ⟨f2, NULL, a2, this⟩ (spawnedTwo this f1 a1 f2 a2 t1 t2) t2
        user).mgr t1 user).mgr.m_terminated = [t1, t2] := by
    show t1 :: (ThreadMgr.func ⟨f2, NULL, a2, this⟩ (spawnedTwo this f1 a1 f2 a2 t1 t2) t2
      user).mgr.m_terminated = [t1, t2]
    rw [hs3]
  have hB := ThreadMgr.condWaits_drain pthread_join [t1, t2] []
    (ThreadMgr.func ⟨f1, NULL, a1, this⟩
      (ThreadMgr.func ⟨f2, NULL, a2, this⟩ (spawnedTwo this f1 a1 f2 a2 t1 t2) t2
        user).mgr t1 user).mgr slot [wk1, wk2] (by rw [hB0]; rfl) rfl
    (by
      intro w hw s
      rcases List.mem_cons.1 hw with h | h
      · rw [h, hj1 s]
      · rw [List.mem_singleton.1 h, hj2 s])
  have hB1 := ThreadMgr.condWait_eq_of_top _ t1 [t2] hB0 slot (user f1 a1) pthread_join
    (hj1 slot) wk1
  refine ⟨hA.2.2.1, hA.2.1, hA5.2.2.1, ?_, ?_, hB.2.1⟩
  · rw [hwake.2.2]
    exact hA5.2.2.1
  · simp only [ThreadMgr.condWaits, hB1]
    rw [ThreadMgr.condWait_eq_of_top _ t2 [] rfl (user f1 a1) (user f2 a2) pthread_join
      (hj2 _) wk2]
    rfl

/-- Witness of `two_task_scenario`: T1 is thread 1 with result 97, T2 is
thread 2 with result 98. -/
theorem two_task_scenario_witness :
    ((ThreadMgr.func ⟨12, NULL, 0, 0⟩ (spawnedTwo 0 11 0 12 0 1 2) 2
        (fun f _ => if f = 11 then 97 else 98)).mgr.condWait 0
        (fun t _ => if t = 1 then (0, 97) else (0, 98)) []).slot = some 98 ∧
    (ThreadMgr.condWaits (fun t _ => if t = 1 then (0, 97) else (0, 98)) [[], []]
        (ThreadMgr.func ⟨11, NULL, 0, 0⟩
          (ThreadMgr.func ⟨12, NULL, 0, 0⟩ (spawnedTwo 0 11 0 12 0 1 2) 2
            (fun f _ => if f = 11 then 97 else 98)).mgr
          1 (fun f _ => if f = 11 then 97 else 98)).mgr 0).map Wait.slot
      = [some 97, some 98] :=
  ⟨(two_task_scenario 0 11 0 12 0 1 2 (fun f _ => if f = 11 then 97 else 98) 0
      (fun t _ => if t = 1 then (0, 97) else (0, 98)) (fun _ => rfl) (fun _ => rfl) [] []).1,
   (two_task_scenario 0 11 0 12 0 1 2 (fun f _ => if f = 11 then 97 else 98) 0
      (fun t _ => if t = 1 then (0, 97) else (0, 98)) (fun _ => rfl) (fun _ => rfl)
      [] []).2.2.2.2.1⟩

/-- C17 (`threadsActive` is a pure query): on every state `threadsActive()`
returns exactly the number of entries of the registry `m_ids`, read between
locking and unlocking `m_mutex`; the object after the call is the object
before it (same registry, same termination stack), and a second call right
after the first returns the same number. -/
theorem threadsActive_pure_query (m : ThreadMgr) :
    m.threadsActive.ret = (m.m_ids.size : Int) ∧
    m.threadsActive.ret = (m.m_ids.entries.length : Int) ∧
    m.threadsActive.calls = [Call.mutex_lock m.m_mutex, Call.mutex_unlock m.m_mutex] ∧
    m.threadsActive.mgr = m ∧
    m.threadsActive.mgr.m_ids = m.m_ids ∧
    m.threadsActive.mgr.m_terminated = m.m_terminated ∧
    m.threadsActive.mgr.threadsActive.ret = m.threadsActive.ret :=
  ⟨rfl, rfl, rfl, rfl, rfl, rfl, rfl⟩

/-- C18 (`Tmycpy` copies up to and including the first zero and counts the
elements): let `a` and `b` be two arrays of `n` elements (`n` an `int`; it is
at least 1 because `k < n`), of `sizeofT` bytes per element, with the first zero of `a` at index
`k < n`, and let `size` be the byte length `n * sizeofT`.  The call returns;
afterwards `a` is unchanged, `b[i] = a[i]` for every `i ≤ k` and `b[i]` is
unchanged for every `i > k`; the result is `k + 1` when `a` and `b` are then
equal and `-1` when they are not.  Both calls of `main` return 10. -/
theorem Tmycpy_copies_through_first_zero (sizeofT : Nat) (hT : 1 ≤ sizeofT)
    (a b : List Int) (n k : Nat) (ha : a.length = n) (hb : b.length = n)
    (hint : (n : Int) ≤ INT_MAX) (hk : k < n) (hzero : a[k]? = some 0)
    (hfirst : ∀ i, i < k → a[i]? ≠ some 0) :
    Tmycpy sizeofT a b (n * sizeofT) n =
      some ⟨a, a.take (k + 1) ++ b.drop (k + 1),
        if a = a.take (k + 1) ++ b.drop (k + 1) then (k : Int) + 1 else -1⟩ ∧
    (∀ i, i ≤ k → (a.take (k + 1) ++ b.drop (k + 1))[i]? = a[i]?) ∧
    (∀ i, k < i → (a.take (k + 1) ++ b.drop (k + 1))[i]? = b[i]?) ∧
    (a.take (k + 1) ++ b.drop (k + 1)).length = n ∧
    Tmycpy 1 ca1 ca2 10 10 = some ⟨ca1, ca1, 10⟩ ∧
    Tmycpy 4 ia ib 40 10 = some ⟨ia, ia, 10⟩ := by
  have hlen : (a.take (k + 1) ++ b.drop (k + 1)).length = n := by
    simp only [List.length_append, List.length_take, List.length_drop, ha, hb]
    omega
  have hloop := copyLoop_first_zero a b k 1 hzero hfirst (by rw [ha, hb]) (by
    have h1 : (k : Int) + 1 ≤ n := by exact_mod_cast hk
    omega)
  have hdiv : n * sizeofT / sizeofT = n := Nat.mul_div_cancel n hT
  refine ⟨?_, ?_, ?_, hlen, by decide, by decide⟩
  · have hnum : (n : Int) ≤ (a.length : Int) ∧ (n : Int) ≤ (b.length : Int) := by
      rw [ha, hb]; exact ⟨le_refl _, le_refl _⟩
    have hmod : n * sizeofT % sizeofT = 0 := Nat.mul_mod_left n sizeofT
    simp only [Tmycpy, hnum, and_self, if_true, hloop, memcmp, hdiv, hmod, ha, hlen, le_refl,
      pow_zero, Int.emod_one, and_true]
    have hta : a.take n = a := by rw [← ha]; exact List.take_length a
    have htb : (a.take (k + 1) ++ b.drop (k + 1)).take n = a.take (k + 1) ++ b.drop (k + 1) := by
      rw [← hlen]; exact List.take_length _
    rw [hta, htb]
    by_cases heq : a = a.take (k + 1) ++ b.drop (k + 1)
    · rw [if_pos heq, if_pos heq]
      simp only [ne_eq, not_true_eq_false, if_false]
      congr 2
      omega
    · rw [if_neg heq, if_neg heq]
      simp
  · intro i hi
    have h1 : i < (a.take (k + 1)).length := by
      simp only [List.length_take, ha]; omega
    rw [List.getElem?_append_left h1, List.getElem?_take]
    simp only [ite_eq_left_iff, not_lt]
    intro h2; omega
  · intro i hi
    have h1 : (a.take (k + 1)).length = k + 1 := by
      simp only [List.length_take, ha]; omega
    rw [List.getElem?_append_right (by rw [h1]; omega), h1, List.getElem?_drop]
    congr 1
    omega

/-- Witness of `Tmycpy_copies_through_first_zero`: the array 7, 0, 3 is copied
over 5, 5, 5 up to and including the zero at index 1; the arrays then differ
and the result is -1. -/
theorem Tmycpy_copies_through_first_zero_witness :
    Tmycpy 4 [7, 0, 3] [5, 5, 5] (3 * 4) (3 : Nat) = some ⟨[7, 0, 3], [7, 0, 5], -1⟩ :=
  (Tmycpy_copies_through_first_zero 4 (by decide) [7, 0, 3] [5, 5, 5] 3 1 rfl rfl
    (by decide) (by decide) rfl (by
      intro i hi
      have h0 : i = 0 := by omega
      rw [h0]
      decide)).1

/-- C19 (worker completion only pushes): when the user function of worker `w`
returns, the wrapper `func` changes the object exactly as `addTerminated`
does: `w` is put on top of the termination stack and the rest of the stack
keeps its order, `no_threads_terminated()` is false afterwards, the condition
variable is broadcast between locking and unlocking `m_mutex`, and the
registry is unchanged, so `threadsActive()` returns the same number before and
after and an entry of `w` is still counted. -/
theorem completion_only_pushes (m : ThreadMgr) (w : pthread_t) (arg : func_arguments)
    (user : Ptr → Ptr → Ptr) :
    (ThreadMgr.func arg m w user).mgr = (m.addTerminated w).mgr ∧
    (m.addTerminated w).mgr.m_terminated = w :: m.m_terminated ∧
    (m.addTerminated w).mgr.no_threads_terminated.ret = false ∧
    (m.addTerminated w).calls
      = [Call.mutex_lock m.m_mutex, Call.cond_broadcast m.m_cond_var,
          Call.mutex_unlock m.m_mutex] ∧
    (m.addTerminated w).mgr.m_ids = m.m_ids ∧
    (m.addTerminated w).mgr.m_ids.find w = m.m_ids.find w ∧
    (m.addTerminated w).mgr.threadsActive.ret = m.threadsActive.ret :=
  ⟨rfl, rfl, rfl, rfl, rfl, rfl, rfl⟩

/-- C20 (pending ids are registered and unique): in every state reached from a
freshly constructed object by `createThread`, worker completion and
`removeTerminated` (the join succeeding or failing), without `cancel_thread`,
where a worker finishes only after `createThread` has registered it and only
once, every id in the termination stack is a key of the registry, no id occurs
twice in the stack, and the size of the stack is at most `threadsActive()`. -/
theorem pending_ids_registered_and_unique (this slot : Ptr) (steps : List Step)
    (hok : History.always this History.registeredFirst steps (History.start slot)) :
    (∀ t ∈ (History.run this steps (History.start slot)).mgr.m_terminated,
      (History.run this steps (History.start slot)).mgr.m_ids.find t ≠ none) ∧
    (History.run this steps (History.start slot)).mgr.m_terminated.Nodup ∧
    ((History.run this steps (History.start slot)).mgr.m_terminated.length : Int)
      ≤ (History.run this steps (History.start slot)).mgr.threadsActive.ret := by
  have hord := History.orderedInv_run this steps (History.start slot)
    ⟨rfl, fun t ht => by simp [History.start] at ht⟩ hok
  have hstack := History.stackInv_run this steps (History.start slot)
    (History.stackInv_start slot) hord.2.2
  have hreg := History.registryInv_run this steps (History.start slot)
    (History.registryInv_start slot)
  have hkey : ∀ t ∈ (History.run this steps (History.start slot)).mgr.m_terminated,
      (History.run this steps (History.start slot)).mgr.m_ids.find t ≠ none := by
    intro t ht
    refine (hreg t).2 ⟨hord.2.1 t ((hstack.2 t).1 ht), ?_⟩
    rw [hord.1]
    exact List.not_mem_nil t
  refine ⟨hkey, hstack.1, ?_⟩
  have hsub : (History.run this steps (History.start slot)).mgr.m_terminated ⊆
      (History.run this steps (History.start slot)).mgr.m_ids.keys :=
    fun t ht => (IdMap.find_ne_none_iff _ t).1 (hkey t ht)
  have hlen := (List.subperm_of_subset hstack.1 hsub).length_le
  rw [IdMap.length_keys] at hlen
  simp only [ThreadMgr.threadsActive]
  exact_mod_cast hlen

/-- Witness of `pending_ids_registered_and_unique`: threads 5, 6 and 8 are
spawned, a creation fails, 6 and 5 finish, a join of 5 fails and then
succeeds; the stack holds 6 and three minus one threads are active. -/
theorem pending_ids_registered_and_unique_witness :
    (History.run 0
        [Step.createThread 7 0 0 5, Step.createThread 7 0 0 6, Step.createThread 7 0 11 0,
          Step.createThread 7 0 0 8, Step.addTerminated 6, Step.addTerminated 5,
          Step.removeTerminated 3 0, Step.removeTerminated 0 0]
        (History.start 0)).mgr.m_terminated = [6] ∧
    ((History.run 0
        [Step.createThread 7 0 0 5, Step.createThread 7 0 0 6, Step.createThread 7 0 11 0,
          Step.createThread 7 0 0 8, Step.addTerminated 6, Step.addTerminated 5,
          Step.removeTerminated 3 0, Step.removeTerminated 0 0]
        (History.start 0)).mgr.m_terminated.length : Int)
      ≤ (History.run 0
        [Step.createThread 7 0 0 5, Step.createThread 7 0 0 6, Step.createThread 7 0 11 0,
          Step.createThread 7 0 0 8, Step.addTerminated 6, Step.addTerminated 5,
          Step.removeTerminated 3 0, Step.removeTerminated 0 0]
        (History.start 0)).mgr.threadsActive.ret :=
  ⟨by decide,
   (pending_ids_registered_and_unique 0 0
      [Step.createThread 7 0 0 5, Step.createThread 7 0 0 6, Step.createThread 7 0 11 0,
        Step.createThread 7 0 0 8, Step.addTerminated 6, Step.addTerminated 5,
        Step.removeTerminated 3 0, Step.removeTerminated 0 0] (by decide)).2.2⟩

/-- C21, counterexample: in the state `cancelledBelowTop` the cancelled worker 5
is pending in the stack below worker 6 and has no registry entry.  The next
successful `condWait` reaps 6, not 5, and `threadsActive()` goes from 1 to 0;
5 is still pending afterwards. -/
theorem cancelled_worker_below_top_not_next :
    cancelledBelowTop.m_terminated = [6, 5] ∧
    cancelledBelowTop.m_ids.find 5 = none ∧
    (cancelledBelowTop.condWait 0 (fun _ _ => (0, 0)) []).status = some 0 ∧
    (cancelledBelowTop.condWait 0 (fun _ _ => (0, 0)) []).joined = [6] ∧
    (cancelledBelowTop.condWait 0 (fun _ _ => (0, 0)) []).mgr.m_terminated = [5] ∧
    cancelledBelowTop.threadsActive.ret = 1 ∧
    (cancelledBelowTop.condWait 0 (fun _ _ => (0, 0)) []).mgr.threadsActive.ret = 0 ∧
    ¬ ((cancelledBelowTop.condWait 0 (fun _ _ => (0, 0)) []).mgr.threadsActive.ret
        = cancelledBelowTop.threadsActive.ret) := by
  decide

/-- C21, amended: on every state and for every id, `cancel_thread` leaves the
termination stack `m_terminated` unchanged.  In particular a worker that has
finished and has not been reaped is still pending in the stack after it has
been cancelled, with no registry entry; and when its id is on top of the
stack, the next successful `condWait` joins with that id and pops it while the
registry and `threadsActive()` stay the same. -/
theorem cancel_keeps_stack (m : ThreadMgr) (tid : pthread_t)
    (pthread_cancel : pthread_t → Int) (slot : Ptr)
    (pthread_join : pthread_t → Ptr → Int × Ptr) (wakeups : List (List pthread_t)) :
    (m.cancel_thread tid pthread_cancel).mgr.m_terminated = m.m_terminated ∧
    (m.cancel_thread tid pthread_cancel).mgr.m_ids.find tid = none ∧
    (tid ∈ m.m_terminated → tid ∈ (m.cancel_thread tid pthread_cancel).mgr.m_terminated) ∧
    (∀ rest, m.m_terminated = tid :: rest → (pthread_join tid slot).1 = 0 →
      ((m.cancel_thread tid pthread_cancel).mgr.condWait slot pthread_join wakeups).status
        = some 0 ∧
      ((m.cancel_thread tid pthread_cancel).mgr.condWait slot pthread_join wakeups).joined
        = [tid] ∧
      ((m.cancel_thread tid pthread_cancel).mgr.condWait slot pthread_join
        wakeups).mgr.m_terminated = rest ∧
      ((m.cancel_thread tid pthread_cancel).mgr.condWait slot pthread_join
        wakeups).mgr.m_ids = (m.cancel_thread tid pthread_cancel).mgr.m_ids ∧
      ((m.cancel_thread tid pthread_cancel).mgr.condWait slot pthread_join
        wakeups).mgr.threadsActive.ret
        = (m.cancel_thread tid pthread_cancel).mgr.threadsActive.ret) := by
  have hnone : (m.cancel_thread tid pthread_cancel).mgr.m_ids.find tid = none :=
    IdMap.find_erase_self m.m_ids tid
  refine ⟨rfl, hnone, fun h => h, ?_⟩
  intro rest htop hj
  have htop1 : (m.cancel_thread tid pthread_cancel).mgr.m_terminated = tid :: rest := htop
  have hw := ThreadMgr.condWait_of_terminated (m.cancel_thread tid pthread_cancel).mgr tid rest
    htop1 slot pthread_join wakeups
  rw [ThreadMgr.removeTerminated_of_join_ok (m.cancel_thread tid pthread_cancel).mgr tid rest
    htop1 slot pthread_join hj] at hw
  have hids : ((m.cancel_thread tid pthread_cancel).mgr.condWait slot pthread_join
      wakeups).mgr.m_ids = (m.cancel_thread tid pthread_cancel).mgr.m_ids := by
    rw [hw]
    exact IdMap.erase_of_find_none _ tid hnone
  refine ⟨?_, ThreadMgr.joined_condWait_of_terminated _ tid rest htop1 slot pthread_join wakeups,
    ?_, hids, ?_⟩
  · rw [hw]; rfl
  · rw [hw]; rfl
  · simp only [ThreadMgr.threadsActive, hids]

/-- Witness of `cancel_keeps_stack`: in the state `registeredFive` worker 5
finishes and is cancelled; the next wait reaps it and the count stays 0. -/
theorem cancel_keeps_stack_witness :
    (((registeredFive.addTerminated 5).mgr.cancel_thread 5 (fun _ => 0)).mgr.condWait 0
        (fun _ _ => (0, 0)) []).joined = [5] ∧
    (((registeredFive.addTerminated 5).mgr.cancel_thread 5 (fun _ => 0)).mgr.condWait 0
        (fun _ _ => (0, 0)) []).mgr.threadsActive.ret
      = ((registeredFive.addTerminated 5).mgr.cancel_thread 5 (fun _ => 0)).mgr.threadsActive.ret :=
  ⟨((cancel_keeps_stack (registeredFive.addTerminated 5).mgr 5 (fun _ => 0) 0
      (fun _ _ => (0, 0)) []).2.2.2 [] rfl rfl).2.1,
   ((cancel_keeps_stack (registeredFive.addTerminated 5).mgr 5 (fun _ => 0) 0
      (fun _ _ => (0, 0)) []).2.2.2 [] rfl rfl).2.2.2.2⟩

/-- C22 (reaping from an empty stack reports success): on every state whose
termination stack is empty, `removeTerminated` returns 0, joins with no thread
(it only locks and unlocks `m_mutex`), leaves the object unchanged (registry
and stack) and leaves the caller's result slot as it was.  The status 0 is
also what a call returns that has joined and reaped a worker, so the status
alone does not tell the two apart. -/
theorem reap_empty_reports_success (m : ThreadMgr) (h : m.m_terminated = [])
    (return_val : Ptr) (pthread_join : pthread_t → Ptr → Int × Ptr) :
    (m.removeTerminated return_val pthread_join).ret = 0 ∧
    (m.removeTerminated return_val pthread_join).calls
      = [Call.mutex_lock m.m_mutex, Call.mutex_unlock m.m_mutex] ∧
    joinedIds (m.removeTerminated return_val pthread_join).calls = [] ∧
    (m.removeTerminated return_val pthread_join).mgr = m ∧
    (m.removeTerminated return_val pthread_join).mgr.m_ids = m.m_ids ∧
    (m.removeTerminated return_val pthread_join).mgr.m_terminated = [] ∧
    (m.removeTerminated return_val pthread_join).slot = return_val ∧
    (∀ (m2 : ThreadMgr) (t : pthread_t) (rest : List pthread_t) (slot2 : Ptr),
      m2.m_terminated = t :: rest → (pthread_join t slot2).1 = 0 →
      joinedIds (m2.removeTerminated slot2 pthread_join).calls = [t] ∧
      (m2.removeTerminated slot2 pthread_join).mgr.m_terminated = rest ∧
      (m2.removeTerminated slot2 pthread_join).ret
        = (m.removeTerminated return_val pthread_join).ret) := by
  have hr : m.removeTerminated return_val pthread_join =
      { ret := 0, mgr := m, slot := return_val
        calls := [Call.mutex_lock m.m_mutex, Call.mutex_unlock m.m_mutex] } := by
    simp only [ThreadMgr.removeTerminated, h]
  rw [hr]
  refine ⟨rfl, rfl, rfl, rfl, rfl, h, rfl, ?_⟩
  intro m2 t rest slot2 htop hj
  rw [ThreadMgr.removeTerminated_of_join_ok m2 t rest htop slot2 pthread_join hj]
  exact ⟨rfl, rfl, rfl⟩

/-- Witness of `reap_empty_reports_success`: the state `registeredFive`, whose
stack is empty, with the slot holding 9. -/
theorem reap_empty_reports_success_witness :
    (registeredFive.removeTerminated 9 (fun _ _ => (0, 0))).ret = 0 ∧
    (registeredFive.removeTerminated 9 (fun _ _ => (0, 0))).mgr = registeredFive ∧
    (registeredFive.removeTerminated 9 (fun _ _ => (0, 0))).slot = 9 :=
  ⟨(reap_empty_reports_success registeredFive rfl 9 (fun _ _ => (0, 0))).1,
   (reap_empty_reports_success registeredFive rfl 9 (fun _ _ => (0, 0))).2.2.2.1,
   (reap_empty_reports_success registeredFive rfl 9 (fun _ _ => (0, 0))).2.2.2.2.2.2.1⟩
